import Mathlib

/-!
The `ExtractAndEmbed` module pass of easy-just-in-time (`pass/src/extract.cpp`).

A shallow embedding of the pass: the part of the LLVM IR data model the pass
reads and writes (types, values, instructions, global symbols, the module
symbol table), the functions of `extract.cpp` translated one by one, and
theorems about them.

Conventions of the embedding.

* A `GlobalValue*`, `Function*` or `GlobalVariable*` is a `GlobalId`: pointer
  identity is equality of identifiers, names are data that can change.
* An `Argument*` is `Value.argument parent argNo`, an instruction result is
  `Value.instruction parent index` (the index of the instruction in its
  function), a `ConstantInt` is its bit width and its bit pattern.
* `errs()` is a list of diagnostics, one entry per statement that writes to it.
* Code of the repository that is not in `extract.cpp` (`GetFunctionsToJit` of
  `identify.h`, `Declare` of `declare.h`) and LLVM's bitcode writer are fields
  of `Env`; the theorems hold for every environment unless they say otherwise.
* Where the source dereferences a null or dangling pointer or fails a `cast<>`,
  the embedded function has no result (`none`).
-/

namespace EasyJit

/-! ## Types -/

mutual
/-- LLVM types, as far as the pass looks at them (typed pointers). -/
inductive Ty
  | void
  | integer (bits : Nat)
  | floating (bits : Nat)
  | pointer (pointee : Ty)
  | array (numElements : Nat) (elem : Ty)
  | function (ret : Ty) (params : TyList) (isVarArg : Bool)
  deriving DecidableEq
/-- Parameter type lists of function types. -/
inductive TyList
  | nil
  | cons (head : Ty) (tail : TyList)
  deriving DecidableEq
end

/-- A parameter type list from a list. -/
def TyList.ofList : List Ty → TyList
  | [] => .nil
  | t :: ts => .cons t (TyList.ofList ts)

/-- `Type::getPrimitiveSizeInBits`: the width of an integer or floating-point
type, and zero for every type whose size LLVM does not fix independently of
the target, pointers included. -/
def Ty.getPrimitiveSizeInBits : Ty → Nat
  | .integer w => w
  | .floating w => w
  | _ => 0

/-- `Type::isFloatingPointTy`. -/
def Ty.isFloatingPointTy : Ty → Bool
  | .floating _ => true
  | _ => false

/-- `Type::isPointerTy`. -/
def Ty.isPointerTy : Ty → Bool
  | .pointer _ => true
  | _ => false

/-- `Type::isVoidTy`. -/
def Ty.isVoidTy : Ty → Bool
  | .void => true
  | _ => false

/-- `Type::getInt8PtrTy`. -/
def I8Ptr : Ty := .pointer (.integer 8)

/-- `Type::getInt64Ty`. -/
def Int64Ty : Ty := .integer 64

/-- `IntegerType::get(C, NumBits)`. LLVM checks `NumBits >= 1` with an `assert`
only; the embedding follows the code with assertions compiled out, where the
type of width zero is created. -/
def IntegerType.get (NumBits : Nat) : Ty := .integer NumBits

/-! ## Values and instructions -/

/-- Identity of a global value (a function or a global variable). -/
abbrev GlobalId := Nat

/-- Cast opcodes the pass creates. -/
inductive CastOp
  | FPToUI
  | PtrToInt
  | ZExt
  | BitCast
  deriving DecidableEq

/-- IR values that can stand as an operand. -/
inductive Value
  | argument (parent : GlobalId) (argNo : Nat)
  | constantInt (bits : Nat) (value : Nat)
  | global (gv : GlobalId)
  | constantExpr (op : CastOp) (operand : Value) (dest : Ty)
  | instruction (parent : GlobalId) (index : Nat)
  deriving DecidableEq

/-- IR instructions: the three kinds the pass creates, and any other
instruction by its operands. -/
inductive Instruction
  | cast (op : CastOp) (v : Value) (dest : Ty)
  | call (callee : Value) (args : List Value)
  | ret (v : Option Value)
  | other (operands : List Value)
  deriving DecidableEq

/-- The operands of an instruction (`User::operands`). -/
def Instruction.operands : Instruction → List Value
  | .cast _ v _ => [v]
  | .call callee args => args ++ [callee]
  | .ret none => []
  | .ret (some v) => [v]
  | .other ops => ops

/-- `isa<Constant>`: constants do not depend on a run-time value. -/
def Value.isConstant : Value → Bool
  | .constantInt _ _ => true
  | .global _ => true
  | .constantExpr _ _ _ => true
  | .argument _ _ => false
  | .instruction _ _ => false

/-- `ConstantInt::get(IntegerType::get(C, bits), V)` for an unsigned 64-bit
`V`: the low `bits` bits of `V`. -/
def ConstantInt.get (bits : Nat) (V : Nat) : Value :=
  .constantInt bits (V % 2 ^ bits)

/-- `APInt::getSExtValue` of a bit pattern of the given width. -/
def getSExtValue (bits value : Nat) : Int :=
  if bits ≠ 0 ∧ 2 ^ (bits - 1) ≤ value then (value : Int) - 2 ^ bits else value

/-- Conversion of a signed value to `int` and on to the `uint64_t` parameter of
`ConstantInt::get`: the value modulo 2^32, sign-extended, modulo 2^64. -/
def intToUInt64 (v : Int) : Nat :=
  let asInt : Int := (v + 2 ^ 31) % 2 ^ 32 - 2 ^ 31
  (asInt % 2 ^ 64).toNat

/-- `IRBuilder::getInt32`: its parameter is a `uint32_t`. -/
def getInt32 (v : Int) : Value :=
  .constantInt 32 (v % 2 ^ 32).toNat

/-! ## The IRBuilder on the entry block of a hook -/

/-- The state of the loop of `CreateJITHook`: the two argument vectors and the
instructions the builder has appended to the entry block. -/
structure HookBuild where
  HookArgs : List Value
  FunArgsVal : List Value
  Entry : List Instruction
  deriving DecidableEq

/-- `IRBuilder::Insert`: append an instruction to the block of function `Hook`
and return it as a value. -/
def Insert (Hook : GlobalId) (Entry : List Instruction) (I : Instruction) :
    Value × List Instruction :=
  (.instruction Hook Entry.length, Entry ++ [I])

/-- `IRBuilder::CreateCast` (and `CreatePointerCast`) on a value that is not a
constant: the value itself when it already has the destination type, a new
cast instruction otherwise. -/
def CreateCast (Hook : GlobalId) (Entry : List Instruction) (op : CastOp)
    (V : Value) (srcTy destTy : Ty) : Value × List Instruction :=
  if srcTy = destTy then (V, Entry) else Insert Hook Entry (.cast op V destTy)

/-- Lines 144-155: the conversion of a specialised argument to an `i64`. It
returns `VAsI64` and the block with the conversion instructions appended. -/
def convertToI64 (Hook : GlobalId) (Entry : List Instruction) (V : Value) (VTy : Ty) :
    Value × List Instruction :=
  let VSizeInBit := VTy.getPrimitiveSizeInBits
  let step1 : (Value × Ty) × List Instruction :=
    if VTy.isFloatingPointTy then
      let r := CreateCast Hook Entry .FPToUI V VTy (IntegerType.get VSizeInBit)
      ((r.1, IntegerType.get VSizeInBit), r.2)
    else if VTy.isPointerTy then
      let r := CreateCast Hook Entry .PtrToInt V VTy (IntegerType.get VSizeInBit)
      ((r.1, IntegerType.get VSizeInBit), r.2)
    else ((V, VTy), Entry)
  if step1.1.2.getPrimitiveSizeInBits < 64 then
    CreateCast Hook step1.2 .ZExt step1.1.1 step1.1.2 Int64Ty
  else (step1.1.1, step1.2)

/-- One iteration of the loop at lines 139-162, for the argument of `Hook` at
position `arg_idx` of type `VTy`; `FArgsIter` points at the argument of `F` at
the same position. -/
def hookLoopStep (F Hook : GlobalId) (Params : List Value) (st : HookBuild)
    (arg_idx : Nat) (VTy : Ty) : HookBuild :=
  let V := Value.argument Hook arg_idx
  let st1 : HookBuild :=
    if Value.argument F arg_idx ∈ Params.tail then
      let HookArgs1 := st.HookArgs ++ [getInt32 arg_idx]
      let conv := convertToI64 Hook st.Entry V VTy
      { st with HookArgs := HookArgs1 ++ [V], Entry := conv.2 }
    else st
  { st1 with FunArgsVal := st1.FunArgsVal ++ [V] }

/-- The loop at lines 137-162 over the remaining arguments of `Hook`. -/
def hookLoop (F Hook : GlobalId) (Params : List Value) :
    Nat → List Ty → HookBuild → HookBuild
  | _, [], st => st
  | arg_idx, VTy :: rest, st =>
    hookLoop F Hook Params (arg_idx + 1) rest (hookLoopStep F Hook Params st arg_idx VTy)

/-! ## Global symbols and the module -/

/-- `GlobalValue::LinkageTypes`. -/
inductive Linkage
  | ExternalLinkage
  | AvailableExternallyLinkage
  | LinkOnceAnyLinkage
  | LinkOnceODRLinkage
  | WeakAnyLinkage
  | WeakODRLinkage
  | AppendingLinkage
  | InternalLinkage
  | PrivateLinkage
  | ExternalWeakLinkage
  | CommonLinkage
  deriving DecidableEq

/-- The initializer of a global variable: a `ConstantDataArray` of bytes, or
any other constant by its operands. -/
inductive Initializer
  | dataArray (bytes : List Nat)
  | constant (operands : List Value)
  deriving DecidableEq

/-- A global variable; `initializer = none` is a declaration. The empty name
is "no name". -/
structure GlobalVariable where
  id : GlobalId
  name : String
  linkage : Linkage
  valueType : Ty
  isConstant : Bool
  initializer : Option Initializer
  deriving DecidableEq

/-- A basic block. -/
structure BasicBlock where
  name : String
  insts : List Instruction
  deriving DecidableEq

/-- A function; `blocks = []` is a declaration. Its arguments are
`Value.argument id 0`, `Value.argument id 1`, ... -/
structure Function where
  id : GlobalId
  name : String
  linkage : Linkage
  retTy : Ty
  paramTys : List Ty
  isVarArg : Bool
  blocks : List BasicBlock
  deriving DecidableEq

/-- `Function::getFunctionType`. -/
def Function.getFunctionType (F : Function) : Ty :=
  .function F.retTy (TyList.ofList F.paramTys) F.isVarArg

/-- `Function::getType`: the pointer to the function type. -/
def Function.getType (F : Function) : Ty := .pointer F.getFunctionType

/-- All instructions of a function. -/
def Function.insts (F : Function) : List Instruction :=
  F.blocks.flatMap (fun b => b.insts)

/-- A `GlobalValue&`: a global variable or a function. -/
inductive GlobalValue
  | variable (g : GlobalVariable)
  | function (f : Function)
  deriving DecidableEq

/-- Identity of the global value. -/
def GlobalValue.id : GlobalValue → GlobalId
  | .variable g => g.id
  | .function f => f.id

/-- `GlobalValue::getName`. -/
def GlobalValue.getName : GlobalValue → String
  | .variable g => g.name
  | .function f => f.name

/-- `GlobalValue::getLinkage`. -/
def GlobalValue.getLinkage : GlobalValue → Linkage
  | .variable g => g.linkage
  | .function f => f.linkage

/-- `GlobalValue::hasExternalLinkage`. -/
def GlobalValue.hasExternalLinkage (GV : GlobalValue) : Bool :=
  decide (GV.getLinkage = .ExternalLinkage)

/-- `dyn_cast<Function>(&GV)`: the function's identity, or null. -/
def GlobalValue.dynCastFunction : GlobalValue → Option GlobalId
  | .variable _ => none
  | .function f => some f.id

/-- A module: its list of global variables, its list of functions and the
counter of its symbol table (`ValueSymbolTable::LastUnique`). -/
structure Module where
  globals : List GlobalVariable
  functions : List Function
  LastUnique : Nat
  deriving DecidableEq

/-- Every global value of the module, global variables first. -/
def Module.globalValues (M : Module) : List GlobalValue :=
  M.globals.map .variable ++ M.functions.map .function

/-- The names in the symbol table of the module. -/
def Module.names (M : Module) : List String :=
  (M.globalValues.map GlobalValue.getName).filter (fun n => n ≠ "")

/-- `Module::getNamedValue`. -/
def Module.getNamedValue (M : Module) (Name : String) : Option GlobalValue :=
  if Name = "" then none else M.globalValues.find? (fun GV => GV.getName = Name)

/-- `Module::getNamedGlobal`: `dyn_cast_or_null<GlobalVariable>` of the named
value. -/
def Module.getNamedGlobal (M : Module) (Name : String) : Option GlobalVariable :=
  match M.getNamedValue Name with
  | some (.variable g) => some g
  | _ => none

/-- Lookup of a function by identity. -/
def Module.getFunction (M : Module) (F : GlobalId) : Option Function :=
  M.functions.find? (fun f => f.id = F)

/-- Lookup of a global variable by identity. -/
def Module.getGlobalVariable (M : Module) (G : GlobalId) : Option GlobalVariable :=
  M.globals.find? (fun g => g.id = G)

/-- An identity no global value of the module has: a newly allocated object. -/
def Module.freshId (M : Module) : GlobalId :=
  (M.globalValues.map GlobalValue.id).foldl max 0 + 1

/-- `ValueSymbolTable::makeUniqueName` for a global value: append a dot and the
next number of the counter until the name is free. Among `fuel = taken.length + 1` consecutive numbers
one is free. -/
def makeUniqueName (taken : List String) (Name : String) : Nat → Nat → String × Nat
  | 0, LastUnique => (Name ++ "." ++ toString (LastUnique + 1), LastUnique + 1)
  | fuel + 1, LastUnique =>
    let UniqueName := Name ++ "." ++ toString (LastUnique + 1)
    if UniqueName ∈ taken then makeUniqueName taken Name fuel (LastUnique + 1)
    else (UniqueName, LastUnique + 1)

/-- `ValueSymbolTable::createValueName` / `reinsertValue`: the name a value gets
when it asks for `Name` in a table where the names `taken` are in use, and the
new counter. -/
def createValueName (taken : List String) (LastUnique : Nat) (Name : String) :
    String × Nat :=
  if Name = "" then ("", LastUnique)
  else if Name ∈ taken then makeUniqueName taken Name (taken.length + 1) LastUnique
  else (Name, LastUnique)

/-! ## Uses -/

/-- The global values a value refers to, through constant expressions too. -/
def Value.referencedGlobals : Value → List GlobalId
  | .global g => [g]
  | .constantExpr _ v _ => v.referencedGlobals
  | _ => []

/-- The constant expressions inside a value (the value itself included) that
have the global `G` as their operand. -/
def Value.constantUsers (G : GlobalId) : Value → Nat
  | .constantExpr _ v _ => (if v = .global G then 1 else 0) + v.constantUsers G
  | _ => 0

/-- A `User*` of a global value: an instruction, with the function that
contains it, or something that is not an instruction (a constant expression,
an initializer). -/
inductive User
  | instruction (parent : GlobalId) (I : Instruction)
  | nonInstruction
  deriving DecidableEq

/-- The users of `G` among the operands `ops` of a user `direct`. -/
def usersAmong (G : GlobalId) (direct : User) (ops : List Value) : List User :=
  ops.flatMap (fun v =>
    (if v = .global G then [direct] else []) ++
      List.replicate (v.constantUsers G) User.nonInstruction)

/-- `GV.users()`: every user of the global value `G` in the module. -/
def Module.users (M : Module) (G : GlobalId) : List User :=
  M.functions.flatMap (fun f =>
      f.insts.flatMap (fun I => usersAmong G (.instruction f.id I) I.operands)) ++
    M.globals.flatMap (fun g =>
      match g.initializer with
      | some (.constant ops) => usersAmong G .nonInstruction ops
      | _ => [])

/-- `Value::replaceAllUsesWith` inside one operand. -/
def Value.replaceUses (Old New : Value) : Value → Value
  | .constantExpr op v dest =>
    if Value.constantExpr op v dest = Old then New
    else .constantExpr op (Value.replaceUses Old New v) dest
  | .argument p i => if Value.argument p i = Old then New else .argument p i
  | .constantInt b v => if Value.constantInt b v = Old then New else .constantInt b v
  | .global g => if Value.global g = Old then New else .global g
  | .instruction p i => if Value.instruction p i = Old then New else .instruction p i

/-- `Value::replaceAllUsesWith` inside one instruction. -/
def Instruction.replaceUses (Old New : Value) : Instruction → Instruction
  | .cast op v dest => .cast op (Value.replaceUses Old New v) dest
  | .call callee args => .call (Value.replaceUses Old New callee) (args.map (Value.replaceUses Old New))
  | .ret v => .ret (v.map (Value.replaceUses Old New))
  | .other ops => .other (ops.map (Value.replaceUses Old New))

/-- `Value::replaceAllUsesWith` over the module. -/
def Module.replaceAllUsesWith (M : Module) (Old New : Value) : Module :=
  { M with
    globals := M.globals.map (fun g =>
      { g with initializer := g.initializer.map (fun i =>
          match i with
          | .constant ops => .constant (ops.map (Value.replaceUses Old New))
          | i => i) })
    functions := M.functions.map (fun f =>
      { f with blocks := f.blocks.map (fun b =>
          { b with insts := b.insts.map (Instruction.replaceUses Old New) }) }) }

/-! ## Symbol-table operations of the module -/

/-- `new GlobalVariable(M, Ty, isConstant, Linkage, Init, Name)`: the variable is
appended to the global list under a fresh identity; the symbol table gives it
the requested name, or a unique one when the name is in use. The result is the
module and the new variable's identity. -/
def Module.newGlobalVariable (M : Module) (valueType : Ty) (isConstant : Bool)
    (linkage : Linkage) (Init : Option Initializer) (Name : String) : Module × GlobalId :=
  let nm := createValueName M.names M.LastUnique Name
  let GV : GlobalVariable :=
    { id := M.freshId, name := nm.1, linkage := linkage, valueType := valueType,
      isConstant := isConstant, initializer := Init }
  ({ M with globals := M.globals ++ [GV], LastUnique := nm.2 }, M.freshId)

/-- `Function::Create(FTy, Linkage, Name, M)`: a new function without body,
appended to the function list. -/
def Module.createFunction (M : Module) (retTy : Ty) (paramTys : List Ty) (isVarArg : Bool)
    (linkage : Linkage) (Name : String) : Module × GlobalId :=
  let nm := createValueName M.names M.LastUnique Name
  let F : Function :=
    { id := M.freshId, name := nm.1, linkage := linkage, retTy := retTy,
      paramTys := paramTys, isVarArg := isVarArg, blocks := [] }
  ({ M with functions := M.functions ++ [F], LastUnique := nm.2 }, M.freshId)

/-- Set the name field of the function `F`, without a look at the table. -/
def Module.renameFunction (M : Module) (F : GlobalId) (Name : String) : Module :=
  { M with functions := M.functions.map (fun f => if f.id = F then { f with name := Name } else f) }

/-- Set the name field of the global variable `G`, without a look at the table. -/
def Module.renameGlobal (M : Module) (G : GlobalId) (Name : String) : Module :=
  { M with globals := M.globals.map (fun g => if g.id = G then { g with name := Name } else g) }

/-- `Hook->takeName(F)` for two functions of the module: `Hook` drops its name
and gets the name of `F`, which is left without a name. -/
def Module.takeName (M : Module) (Hook F : GlobalId) : Module :=
  match M.getFunction F with
  | none => M
  | some f => (M.renameFunction F "").renameFunction Hook f.name

/-- `GV->setName(Name)` for a global value of the module: the old name leaves
the table, then the new name is created in it. -/
def Module.setName (M : Module) (GV : GlobalId) (Name : String) : Module :=
  let M0 := (M.renameFunction GV "").renameGlobal GV ""
  let nm := createValueName M0.names M0.LastUnique Name
  { (M0.renameFunction GV nm.1).renameGlobal GV nm.1 with LastUnique := nm.2 }

/-- `F->eraseFromParent()`. -/
def Module.eraseFunction (M : Module) (F : GlobalId) : Module :=
  { M with functions := M.functions.filter (fun f => f.id ≠ F) }

/-- Give the function `Hook` its basic blocks. -/
def Module.setBlocks (M : Module) (Hook : GlobalId) (blocks : List BasicBlock) : Module :=
  { M with functions := M.functions.map (fun f => if f.id = Hook then { f with blocks := blocks } else f) }

/-! ## The environment of the pass -/

/-- `errs()`: a message, or the dump of a module. -/
inductive Diagnostic
  | message (text : String)
  | dump (M : Module)
  deriving DecidableEq

/-- `FunToInlineMap` of `identify.h`: the candidates in order, each with its
Specialization Spec `[level, p1, ..., pk]`. -/
abbrev FunToInlineMap := List (GlobalId × List Value)

/-- `Fun2Extract.count(F)`; a null pointer is no key. -/
def FunToInlineMap.count (Fun2Extract : FunToInlineMap) : Option GlobalId → Nat
  | none => 0
  | some F => (Fun2Extract.filter (fun KV => KV.1 = F)).length

/-- `GetFunctions(Fun2Extract)` of `identify.h`: the candidates. -/
def GetFunctions (Fun2Extract : FunToInlineMap) : List GlobalId :=
  Fun2Extract.map (fun KV => KV.1)

/-- The two runtime entry points `declare.h` declares. -/
inductive RuntimeFunction
  | JitHook
  | JitHookEnd
  deriving DecidableEq

/-- What the pass takes from outside `extract.cpp`: the candidate selection
(`GetFunctionsToJit` of `identify.h`), the declaration of the runtime entry
points (`Declare` of `declare.h`, which returns the declared function and may
add it to the module) and LLVM's bitcode writer. -/
structure Env where
  GetFunctionsToJit : Module → FunToInlineMap
  Declare : RuntimeFunction → Module → Module × GlobalId
  WriteBitcodeToFile : Module → List Nat

/-- `constexpr bool Debug = true`. -/
def Debug : Bool := true

/-- The reserved name of the embedded module. -/
def EmbeddedModuleName : String := "easy_jit_module"

/-! ## Dependency closure and validation (lines 45-93) -/

/-- `SmallPtrSet<GlobalValue*, 8>`: the global values pointed to, without
repetition of an identity. -/
abbrev SmallPtrSet := List GlobalValue

/-- `Globals.insert(&GV)`. -/
def SmallPtrSet.insert (Globals : SmallPtrSet) (GV : GlobalValue) : SmallPtrSet :=
  if Globals.any (fun G => G.id = GV.id) then Globals else Globals ++ [GV]

/-- The lambda `IsExtractedInst` of `addGlobalIfUsedByExtracted`. -/
def IsExtractedInst (Fun2Extract : FunToInlineMap) : User → Bool
  | .instruction parent _ => Fun2Extract.count (some parent) != 0
  | .nonInstruction => false

/-- `addGlobalIfUsedByExtracted` (lines 45-60). -/
def addGlobalIfUsedByExtracted (M : Module) (GV : GlobalValue) (Fun2Extract : FunToInlineMap)
    (Globals : SmallPtrSet) : Bool × SmallPtrSet :=
  let Used := (M.users GV.id).any (IsExtractedInst Fun2Extract)
  (Used, if Used then Globals.insert GV else Globals)

/-- `getReferencedGlobalsIn` (lines 62-74) over the range `R`; the state is the
set and what has been written to `errs()`. -/
def getReferencedGlobalsIn (M : Module) (Fun2Extract : FunToInlineMap) :
    List GlobalValue → SmallPtrSet × List Diagnostic → SmallPtrSet × List Diagnostic
  | [], st => st
  | FOrGV :: R, (Globals, log) =>
    if Fun2Extract.count FOrGV.dynCastFunction != 0 then
      getReferencedGlobalsIn M Fun2Extract R (Globals, log)
    else
      let r := addGlobalIfUsedByExtracted M FOrGV Fun2Extract Globals
      let log1 :=
        if r.1 && Debug then
          log ++ [.message ("Global " ++ FOrGV.getName ++ " referenced by extracted function.\n")]
        else log
      getReferencedGlobalsIn M Fun2Extract R (r.2, log1)

/-- `getReferencedGlobals` (lines 76-83). `M` is the module of the first
candidate; there is no result when there is no first candidate. -/
def getReferencedGlobals (M : Module) (Fun2Extract : FunToInlineMap) :
    Option (SmallPtrSet × List Diagnostic) :=
  match Fun2Extract with
  | [] => none
  | _ :: _ =>
    let st1 := getReferencedGlobalsIn M Fun2Extract (M.globals.map .variable) ([], [])
    some (getReferencedGlobalsIn M Fun2Extract (M.functions.map .function) st1)

/-- `ValidForExtraction` (lines 85-93). -/
def ValidForExtraction (Globals : SmallPtrSet) : Bool × List Diagnostic :=
  let Valid := Globals.all GlobalValue.hasExternalLinkage
  (Valid,
    if !Valid && Debug then
      [.message "Cannot extract module: global has private/internal linkage.\n"]
    else [])

/-! ## The LLVM passes run on the clone (lines 209-214) -/

/-- `GlobalValue::isLocalLinkage`. -/
def Linkage.isLocalLinkage : Linkage → Bool
  | .InternalLinkage => true
  | .PrivateLinkage => true
  | _ => false

/-- `GlobalValue::isDiscardableIfUnused`. -/
def Linkage.isDiscardableIfUnused : Linkage → Bool
  | .LinkOnceAnyLinkage => true
  | .LinkOnceODRLinkage => true
  | .InternalLinkage => true
  | .PrivateLinkage => true
  | .AvailableExternallyLinkage => true
  | _ => false

/-- `makeVisible` of LLVM's `ExtractGV.cpp`, on the linkage. -/
def makeVisible (L : Linkage) (Delete : Bool) : Linkage :=
  if L.isLocalLinkage || Delete then .ExternalLinkage
  else match L with
    | .LinkOnceAnyLinkage => .WeakAnyLinkage
    | .LinkOnceODRLinkage => .WeakODRLinkage
    | l => l

/-- `createGVExtractionPass(GlobalsToKeep)` with its default `deleteFn = false`:
every definition that is not named becomes an external declaration, every
named one is made visible. -/
def GVExtractionPass (Named : List GlobalId) (M : Module) : Module :=
  { M with
    globals := M.globals.map (fun GV =>
      let Delete := !(Named.contains GV.id) && GV.initializer.isSome
      if !Delete && (decide (GV.linkage = .AvailableExternallyLinkage) ||
          decide (GV.name = "llvm.global_ctors")) then GV
      else { GV with linkage := makeVisible GV.linkage Delete,
                     initializer := if Delete then none else GV.initializer }),
    functions := M.functions.map (fun F =>
      let Delete := !(Named.contains F.id) && !F.blocks.isEmpty
      if !Delete && decide (F.linkage = .AvailableExternallyLinkage) then F
      else { F with linkage := makeVisible F.linkage Delete,
                    blocks := if Delete then [] else F.blocks }) }

/-- The global values the definition of `G` refers to. -/
def Module.referencesOf (M : Module) (G : GlobalId) : List GlobalId :=
  (M.functions.filter (fun f => f.id = G)).flatMap (fun f =>
      f.insts.flatMap (fun I => I.operands.flatMap Value.referencedGlobals)) ++
    (M.globals.filter (fun g => g.id = G)).flatMap (fun g =>
      match g.initializer with
      | some (.constant ops) => ops.flatMap Value.referencedGlobals
      | _ => [])

/-- `GlobalIsNeeded` of `GlobalDCE.cpp`, iterated: everything reachable from
the set `alive`. -/
def markAlive (M : Module) : Nat → List GlobalId → List GlobalId
  | 0, alive => alive
  | fuel + 1, alive =>
    markAlive M fuel (alive ++ (alive.flatMap M.referencesOf).filter (fun g => !alive.contains g)).eraseDups

/-- `createGlobalDCEPass()`: the definitions that may not be discarded, and
what they reach, stay; every other global value is erased. -/
def GlobalDCEPass (M : Module) : Module :=
  let roots :=
    (M.globals.filter (fun g => g.initializer.isSome &&
        !decide (g.linkage = .AvailableExternallyLinkage) &&
        !g.linkage.isDiscardableIfUnused)).map (fun g => g.id) ++
    (M.functions.filter (fun f => !f.blocks.isEmpty &&
        !decide (f.linkage = .AvailableExternallyLinkage) &&
        !f.linkage.isDiscardableIfUnused)).map (fun f => f.id)
  let alive := markAlive M M.globalValues.length roots
  { M with
    globals := M.globals.filter (fun g => alive.contains g.id),
    functions := M.functions.filter (fun f => alive.contains f.id) }

/-- `createStripDeadPrototypesPass()`: declarations without a use are erased. -/
def StripDeadPrototypesPass (M : Module) : Module :=
  { M with
    functions := M.functions.filter (fun f => !(f.blocks.isEmpty && (M.users f.id).isEmpty)),
    globals := M.globals.filter (fun g => !(g.initializer.isNone && (M.users g.id).isEmpty)) }

/-- `Passes.run(*Clone)` (lines 209-214). The modules of this embedding carry no
debug information, so `createStripDeadDebugInfoPass()` changes nothing. -/
def runPasses (GlobalsToKeep : List GlobalId) (Clone : Module) : Module :=
  StripDeadPrototypesPass (GlobalDCEPass (GVExtractionPass GlobalsToKeep Clone))

/-! ## Pruning and serialization (lines 183-247) -/

/-- `GVMakeExternalDeclaration` (lines 183-190) on the global value `GV` of the
module. -/
def GVMakeExternalDeclaration (GV : GlobalId) (M : Module) : Module :=
  { M with
    globals := M.globals.map (fun g =>
      if g.id = GV then { g with linkage := .ExternalLinkage, initializer := none } else g),
    functions := M.functions.map (fun f =>
      if f.id = GV then { f with linkage := .ExternalLinkage, blocks := [] } else f) }

/-- The name of the global value `GV` of the module, the empty name when there
is none. -/
def Module.getName (M : Module) (GV : GlobalId) : String :=
  match M.globalValues.find? (fun G => G.id = GV) with
  | some G => G.getName
  | none => ""

/-- The lambda at line 222: `GV->setName(GV->getName() + "__")`. -/
def renameWithSuffix (GV : GlobalId) (M : Module) : Module :=
  M.setName GV (M.getName GV ++ "__")

/-- `GetModuleForJITCompilation` (lines 192-225). The outer `none` is undefined
behaviour of the source (no first candidate, or a pointer of `GlobalsToKeep`
that is null or dangling when it is dereferenced); the inner `none` is the
returned `nullptr`. -/
def GetModuleForJITCompilation (Fun2Extract : FunToInlineMap) (M : Module) :
    Option (Option Module × List Diagnostic) :=
  match getReferencedGlobals M Fun2Extract with
  | none => none
  | some (Globals, log) =>
    let valid := ValidForExtraction Globals
    if !valid.1 then some (none, log ++ valid.2)
    else
      let Clone := M
      let Functions := GetFunctions Fun2Extract
      let GetGlobalInClone := fun (Name : String) => (Clone.getNamedValue Name).map GlobalValue.id
      let keepGlobals := Globals.map (fun G => GetGlobalInClone G.getName)
      let keepFunctions := Functions.map (fun F => GetGlobalInClone (M.getName F))
      let GlobalsToKeep := keepGlobals ++ keepFunctions
      let Clone1 := runPasses (GlobalsToKeep.filterMap id) Clone
      if GlobalsToKeep.all (fun G =>
          match G with
          | none => false
          | some G => Clone1.globalValues.any (fun GV => GV.id = G)) then
        let Clone2 := (keepGlobals.filterMap id).foldl (fun C GV => GVMakeExternalDeclaration GV C) Clone1
        let Clone3 := (keepFunctions.filterMap id).foldl (fun C GV => renameWithSuffix GV C) Clone2
        some (some Clone3, log ++ valid.2)
      else none

/-- `ModuleToString` (lines 227-233). -/
def ModuleToString (env : Env) (M : Module) : List Nat :=
  env.WriteBitcodeToFile M

/-- `ConstantDataArray::getString(C, Str, AddNull)` on the bytes of `Str`: the
initializer and its type. -/
def ConstantDataArray.getString (Str : List Nat) (AddNull : Bool) : Initializer × Ty :=
  let bytes := if AddNull then Str ++ [0] else Str
  (.dataArray bytes, .array bytes.length (.integer 8))

/-- `WriteModuleToGlobal` (lines 235-247): the module with the new variable,
the variable, and what is written to `errs()`. -/
def WriteModuleToGlobal (env : Env) (M JitM : Module) : (Module × GlobalId) × List Diagnostic :=
  let ModuleAsStr := ModuleToString env JitM
  let Init := ConstantDataArray.getString ModuleAsStr true
  let r := M.newGlobalVariable Init.2 true .InternalLinkage (some Init.1) EmbeddedModuleName
  (r, if Debug then [.message ("Extracted module written to " ++ r.1.getName r.2 ++ "\n")] else [])

/-! ## The trampoline (lines 95-181) -/

/-- The bytes of a name. -/
def stringBytes (s : String) : List Nat :=
  s.toList.flatMap (fun c => (String.utf8EncodeChar c).map (fun b => b.toNat))

/-- `ConstantExpr::getPointerCast(GV, DestTy)` on a global value whose type is
`SrcTy`: the global itself when the types agree, a constant expression over it
otherwise. -/
def ConstantExpr.getPointerCast (GV : GlobalId) (SrcTy DestTy : Ty) : Value :=
  if SrcTy = DestTy then .global GV else .constantExpr .BitCast (.global GV) DestTy

/-- `cast<ConstantInt>(*Params.begin())->getSExtValue()` (line 131): there is
no value when `Params` is empty or its first element is no `ConstantInt`. -/
def optlevelOf (Params : List Value) : Option Int :=
  match Params with
  | .constantInt bits value :: _ => some (getSExtValue bits value)
  | _ => none

/-- Lines 134-177 of `CreateJITHook`: the argument vectors and the entry block
of `Hook`, the trampoline of the candidate `f`. `FNameGV`, `IRVar`, `IRSize` and
`OptLevel` are the four values of lines 117-132, `JITHook` and `JITHookEnd` the
declared runtime functions and `HandleTy` the return type of `JITHook`. In the
result `HookArgs` is the complete argument list of the call of `JITHook`. -/
def trampolineEntry (f : Function) (Hook : GlobalId) (Params : List Value)
    (FNameGV IRVar IRSize OptLevel : Value) (JITHook : GlobalId) (HandleTy : Ty)
    (JITHookEnd : GlobalId) : HookBuild :=
  let st := hookLoop f.id Hook Params 0 f.paramTys
    { HookArgs := [FNameGV, IRVar, IRSize, OptLevel], FunArgsVal := [], Entry := [] }
  let HookArgs := st.HookArgs ++ [getInt32 (-1)]
  let JitResult := Insert Hook st.Entry (.call (.global JITHook) HookArgs)
  let Cast := CreateCast Hook JitResult.2 .BitCast JitResult.1 HandleTy f.getType
  let Call := Insert Hook Cast.2 (.call Cast.1 st.FunArgsVal)
  let End := Insert Hook Call.2 (.call (.global JITHookEnd) [JitResult.1])
  let Ret : Instruction := if f.retTy.isVoidTy then .ret none else .ret (some Call.1)
  { HookArgs := HookArgs, FunArgsVal := st.FunArgsVal, Entry := End.2 ++ [Ret] }

/-- `CreateJITHook` (lines 95-181). There is no result where the source
dereferences a null or dangling pointer or fails a `cast<>`: `F` or `BitcodeGV`
is not in the module, a declared runtime function or `Hook` is not in the module
after the declarations, the type of `BitcodeGV` is no array, or `Params` does
not start with a `ConstantInt`. -/
def CreateJITHook (env : Env) (F : GlobalId) (Params : List Value) (BitcodeGV : GlobalId)
    (M : Module) : Option (Module × List Diagnostic) :=
  match M.getFunction F with
  | none => none
  | some f =>
    let FName := f.name
    let created := M.createFunction f.retTy f.paramTys f.isVarArg f.linkage "hook"
    let Hook := created.2
    let M1 := created.1.replaceAllUsesWith (.global F) (.global Hook)
    let M2 := M1.takeName Hook F
    let declared := env.Declare .JitHook M2
    let JITHook := declared.2
    let declaredEnd := env.Declare .JitHookEnd declared.1
    let JITHookEnd := declaredEnd.2
    let M3 := declaredEnd.1
    match M3.getFunction JITHook, M3.getFunction JITHookEnd, M3.getFunction Hook with
    | some jitHook, some _, some _ =>
      let Init := ConstantDataArray.getString (stringBytes FName) true
      let named := M3.newGlobalVariable Init.2 true .InternalLinkage (some Init.1) ".easy_jit_fun_name"
      let M4 := named.1
      let FNameGV := ConstantExpr.getPointerCast named.2 (.pointer Init.2) I8Ptr
      match M4.getGlobalVariable BitcodeGV, optlevelOf Params with
      | some bitcode, some optlevel =>
        match bitcode.valueType with
        | .array NumElements _ =>
          let IRSize := ConstantInt.get 64 NumElements
          let IRVar := ConstantExpr.getPointerCast BitcodeGV (.pointer bitcode.valueType) I8Ptr
          let OptLevel := ConstantInt.get 32 (intToUInt64 optlevel)
          let built := trampolineEntry f Hook Params FNameGV IRVar IRSize OptLevel
            JITHook jitHook.retTy JITHookEnd
          let M5 := M4.setBlocks Hook [{ name := "entry", insts := built.Entry }]
          let M6 := M5.eraseFunction F
          some (M6, [.dump M6])
        | _ => none
      | _, _ => none
    | _, _, _ => none

/-- The loop at lines 265-267. -/
def createHooks (env : Env) (BitcodeGV : GlobalId) :
    FunToInlineMap → Module × List Diagnostic → Option (Module × List Diagnostic)
  | [], st => some st
  | KV :: rest, (M, log) =>
    match CreateJITHook env KV.1 KV.2 BitcodeGV M with
    | none => none
    | some (M1, log1) => createHooks env BitcodeGV rest (M1, log ++ log1)

/-- `ExtractAndEmbed::runOnModule` (lines 249-270): the returned flag, the
module afterwards and what was written to `errs()`; `none` where the source has
undefined behaviour. -/
def runOnModule (env : Env) (M : Module) : Option (Bool × Module × List Diagnostic) :=
  if (M.getNamedGlobal EmbeddedModuleName).isSome then
    some (false, M,
      [.message "WARNING: Compilation unit already contains an extracted module.\n"])
  else
    let Fun2Extract := env.GetFunctionsToJit M
    if Fun2Extract.isEmpty then some (false, M, [])
    else
      match GetModuleForJITCompilation Fun2Extract M with
      | none => none
      | some (none, log) => some (false, M, log)
      | some (some JitM, log) =>
        let written := WriteModuleToGlobal env M JitM
        match createHooks env written.1.2 Fun2Extract (written.1.1, log ++ written.2) with
        | none => none
        | some (M1, log1) => some (true, M1, log1)

/-! ## Reading an argument list of the compile-and-specialize call -/

/-- The zero-based positions, in increasing order, of the formal parameters of
`F` (there are `n`) that occur in the list `ps`. -/
def specializedPositions (F : GlobalId) (n : Nat) (ps : List Value) : List Nat :=
  (List.range n).filter (fun i => decide (Value.argument F i ∈ ps))

/-- Consecutive elements of a list, two by two. -/
def toPairs : List Value → List (Value × Value)
  | a :: b :: rest => (a, b) :: toPairs rest
  | _ => []

/-- The (index, value) pairs of an argument list of the compile-and-specialize
call: what stands after the four leading arguments and before the last one. -/
def indexValuePairs (HookArgs : List Value) : List (Value × Value) :=
  toPairs (HookArgs.drop 4).dropLast

/-- Whether the instruction is a call of the global value `G`. -/
def Instruction.isCallOf (G : GlobalId) : Instruction → Bool
  | .call (.global g) _ => decide (g = G)
  | _ => false

/-- Whether the instruction is a cast. -/
def Instruction.isCast : Instruction → Bool
  | .cast _ _ _ => true
  | _ => false

/-! ## Example programs -/

/-- An implementation of `Declare`: the function of that name when the module
has one, a new external declaration of that name and type otherwise. -/
def exampleDeclareNamed (M : Module) (Name : String) (retTy : Ty) (paramTys : List Ty)
    (isVarArg : Bool) : Module × GlobalId :=
  match M.functions.find? (fun f => f.name = Name) with
  | some f => (M, f.id)
  | none => M.createFunction retTy paramTys isVarArg .ExternalLinkage Name

/-- The two runtime entry points, declared with the interface of the
specification. -/
def exampleDeclare : RuntimeFunction → Module → Module × GlobalId
  | .JitHook, M =>
    exampleDeclareNamed M "easy_jit_hook" I8Ptr [I8Ptr, I8Ptr, .integer 64, .integer 32] true
  | .JitHookEnd, M => exampleDeclareNamed M "easy_jit_hook_end" .void [I8Ptr] false

/-- A candidate selection: every defined function called `Name`, with the
optimisation level `level` and its formal parameters at `positions`. -/
def selectByName (Name : String) (level : Nat) (positions : List Nat) (M : Module) :
    FunToInlineMap :=
  (M.functions.filter (fun f => f.name = Name && !f.blocks.isEmpty)).map (fun f =>
    (f.id, Value.constantInt 32 level :: positions.map (fun i => Value.argument f.id i)))

/-- An environment for the examples: the given selection, `exampleDeclare`, and
a writer that yields the two bytes `BC` for every module. -/
def exampleEnv (select : Module → FunToInlineMap) : Env :=
  { GetFunctionsToJit := select, Declare := exampleDeclare, WriteBitcodeToFile := fun _ => [66, 67] }

/-- The candidate of the scenario of the specification:
`i32 foo(i32 a, float b)`, whose body calls `bar(a)` and returns the result. -/
def exampleFoo : Function :=
  { id := 1, name := "foo", linkage := .ExternalLinkage, retTy := .integer 32,
    paramTys := [.integer 32, .floating 32], isVarArg := false,
    blocks := [{ name := "entry",
                 insts := [.call (.global 2) [.argument 1 0], .ret (some (.instruction 1 0))] }] }

/-- The external declaration `i32 bar(i32)`. -/
def exampleBar : Function :=
  { id := 2, name := "bar", linkage := .ExternalLinkage, retTy := .integer 32,
    paramTys := [.integer 32], isVarArg := false, blocks := [] }

/-- A caller: `i32 caller(float x)` calls `foo(1, x)` and returns the result. -/
def exampleCaller : Function :=
  { id := 3, name := "caller", linkage := .ExternalLinkage, retTy := .integer 32,
    paramTys := [.floating 32], isVarArg := false,
    blocks := [{ name := "entry",
                 insts := [.call (.global 1) [.constantInt 32 1, .argument 3 0],
                           .ret (some (.instruction 3 0))] }] }

/-- The program of the scenario: `foo`, `bar` and `caller`. -/
def exampleModule : Module :=
  { globals := [], functions := [exampleFoo, exampleBar, exampleCaller], LastUnique := 0 }

/-- The selection of the scenario: `foo` with Spec `[2, b]`. -/
def exampleSelect : Module → FunToInlineMap := selectByName "foo" 2 [1]

/-- A candidate with an integer, a pointer and a 64-bit integer parameter:
`void scale(i32 x, i8* p, i64 n)` with an empty body that returns. -/
def exampleScale : Function :=
  { id := 1, name := "scale", linkage := .ExternalLinkage, retTy := .void,
    paramTys := [.integer 32, I8Ptr, .integer 64], isVarArg := false,
    blocks := [{ name := "entry", insts := [.ret none] }] }

/-- The program that holds `scale` only. -/
def exampleScaleModule : Module :=
  { globals := [], functions := [exampleScale], LastUnique := 0 }

/-- A function that has the reserved name: the declaration
`void easy_jit_module()`. -/
def exampleReservedFunction : Function :=
  { id := 4, name := "easy_jit_module", linkage := .ExternalLinkage, retTy := .void,
    paramTys := [], isVarArg := false, blocks := [] }

/-- The program of the scenario together with a function that has the reserved
name. -/
def exampleReservedModule : Module :=
  { globals := [],
    functions := [exampleFoo, exampleBar, exampleCaller, exampleReservedFunction],
    LastUnique := 0 }

/-- A unit-internal global variable `i32 counter = 0`. -/
def exampleCounter : GlobalVariable :=
  { id := 10, name := "counter", linkage := .InternalLinkage, valueType := .integer 32,
    isConstant := false, initializer := some (.constant [.constantInt 32 0]) }

/-- A candidate `i32 foo(i32 a, float b)` whose body loads `counter`. -/
def exampleFooCounter : Function :=
  { id := 1, name := "foo", linkage := .ExternalLinkage, retTy := .integer 32,
    paramTys := [.integer 32, .floating 32], isVarArg := false,
    blocks := [{ name := "entry",
                 insts := [.other [.global 10], .ret (some (.instruction 1 0))] }] }

/-- The program in which the candidate refers to a unit-internal variable. -/
def exampleInternalModule : Module :=
  { globals := [exampleCounter], functions := [exampleFooCounter], LastUnique := 0 }

/-- A global variable under the reserved name, as a first run leaves it. -/
def exampleBlob : GlobalVariable :=
  { id := 4, name := "easy_jit_module", linkage := .InternalLinkage,
    valueType := .array 3 (.integer 8), isConstant := true,
    initializer := some (.dataArray [66, 67, 0]) }

/-- The program of the scenario with a global variable under the reserved name. -/
def exampleProcessedModule : Module :=
  { globals := [exampleBlob], functions := [exampleFoo, exampleBar, exampleCaller],
    LastUnique := 0 }

/-- The result of `CreateJITHook` on `foo` with Spec `[2, b]` in the program
that already holds the embedded module (the module itself when there is no
result). -/
def exampleHooked : Module × List Diagnostic :=
  (CreateJITHook (exampleEnv exampleSelect) 1 [.constantInt 32 2, .argument 1 1] 4
    exampleProcessedModule).getD (exampleProcessedModule, [])

/-- The trampoline of `foo` with Spec `[2, b]`, as `CreateJITHook` builds it in
`exampleProcessedModule`: the hook is `5`, the name string `8`, the embedded
module `4`, the runtime functions `6` and `7`, the handle an `i8*`. -/
def exampleTrampoline : HookBuild :=
  trampolineEntry exampleFoo 5 [.constantInt 32 2, .argument 1 1]
    (.constantExpr .BitCast (.global 8) I8Ptr) (.constantExpr .BitCast (.global 4) I8Ptr)
    (.constantInt 64 3) (.constantInt 32 2) 6 I8Ptr 7

/-! ## Well-formed modules and readings of the closure -/

/-- A module in which different global values have different identities and
different names (the symbol table maps each name to one value). -/
def Module.WellFormed (M : Module) : Prop :=
  (M.globalValues.map GlobalValue.id).Nodup ∧ M.names.Nodup

/-- `GlobalValue::isDeclaration`: a function without body, a variable without
initializer. -/
def GlobalValue.isDeclaration : GlobalValue → Bool
  | .variable g => g.initializer.isNone
  | .function f => f.blocks.isEmpty

/-- The global value `G` is an operand of an instruction of a candidate. -/
def usedByCandidate (M : Module) (Fun2Extract : FunToInlineMap) (G : GlobalId) : Prop :=
  ∃ f ∈ M.functions, Fun2Extract.count (some f.id) ≠ 0 ∧
    ∃ I ∈ f.insts, Value.global G ∈ I.operands

/-- What line 72 writes for the global value `G`. -/
def referencedMessage (G : GlobalValue) : Diagnostic :=
  .message ("Global " ++ G.getName ++ " referenced by extracted function.\n")

/-- What line 89 writes. -/
def validationFailureText : String :=
  "Cannot extract module: global has private/internal linkage.\n"

/-! ## More example programs -/

/-- A candidate `i32 foo(i32 a, float b)` whose body calls `helper(a)`. -/
def exampleFooHelper : Function :=
  { id := 1, name := "foo", linkage := .ExternalLinkage, retTy := .integer 32,
    paramTys := [.integer 32, .floating 32], isVarArg := false,
    blocks := [{ name := "entry",
                 insts := [.call (.global 2) [.argument 1 0], .ret (some (.instruction 1 0))] }] }

/-- A function that is no candidate: `i32 helper(i32 x)` calls `deep(x)`. -/
def exampleHelper : Function :=
  { id := 2, name := "helper", linkage := .ExternalLinkage, retTy := .integer 32,
    paramTys := [.integer 32], isVarArg := false,
    blocks := [{ name := "entry",
                 insts := [.call (.global 3) [.argument 2 0], .ret (some (.instruction 2 0))] }] }

/-- The external declaration `i32 deep(i32)`. -/
def exampleDeep : Function :=
  { id := 3, name := "deep", linkage := .ExternalLinkage, retTy := .integer 32,
    paramTys := [.integer 32], isVarArg := false, blocks := [] }

/-- The program `foo` calls `helper` calls `deep`. -/
def exampleDeepModule : Module :=
  { globals := [], functions := [exampleFooHelper, exampleHelper, exampleDeep],
    LastUnique := 0 }

/-- A private constant string `.str = "hi"`. -/
def exampleString : GlobalVariable :=
  { id := 10, name := ".str", linkage := .PrivateLinkage, valueType := .array 3 (.integer 8),
    isConstant := true, initializer := some (.dataArray [104, 105, 0]) }

/-- The external declaration `i32 puts(i8*)`. -/
def examplePuts : Function :=
  { id := 2, name := "puts", linkage := .ExternalLinkage, retTy := .integer 32,
    paramTys := [I8Ptr], isVarArg := false, blocks := [] }

/-- A candidate `i32 foo(i32 a, float b)` whose body calls `puts` on a pointer
cast of `.str`: the string is the operand of a constant expression, not of
the call. -/
def exampleFooPuts : Function :=
  { id := 1, name := "foo", linkage := .ExternalLinkage, retTy := .integer 32,
    paramTys := [.integer 32, .floating 32], isVarArg := false,
    blocks := [{ name := "entry",
                 insts := [.call (.global 2) [.constantExpr .BitCast (.global 10) I8Ptr],
                           .ret (some (.instruction 1 0))] }] }

/-- The program in which the candidate reaches a private string through a
constant expression. -/
def exampleStringModule : Module :=
  { globals := [exampleString], functions := [exampleFooPuts, examplePuts], LastUnique := 0 }

/-- The external declaration `i32 foo__(i32)`. -/
def exampleSuffixed : Function :=
  { id := 2, name := "foo__", linkage := .ExternalLinkage, retTy := .integer 32,
    paramTys := [.integer 32], isVarArg := false, blocks := [] }

/-- The program in which the candidate `foo` calls a function named `foo__`
(`exampleFoo` calls the function of identity `2`). -/
def exampleSuffixModule : Module :=
  { globals := [], functions := [exampleFoo, exampleSuffixed], LastUnique := 0 }

/-! ## The stages of `GetModuleForJITCompilation` -/

/-- The first `Globals.size()` entries of `GlobalsToKeep` (line 205). -/
def closureInClone (M : Module) (Globals : SmallPtrSet) : List (Option GlobalId) :=
  Globals.map (fun G => (M.getNamedValue G.getName).map GlobalValue.id)

/-- The last `Fun2Extract.size()` entries of `GlobalsToKeep` (line 206). -/
def candidatesInClone (M : Module) (Fun2Extract : FunToInlineMap) : List (Option GlobalId) :=
  (GetFunctions Fun2Extract).map (fun F => (M.getNamedValue (M.getName F)).map GlobalValue.id)

/-- The clone after `Passes.run` (line 214). -/
def cleanedClone (M : Module) (Globals : SmallPtrSet) (Fun2Extract : FunToInlineMap) : Module :=
  runPasses ((closureInClone M Globals ++ candidatesInClone M Fun2Extract).filterMap id) M

/-- The clone after lines 217-218. -/
def declaredClone (M : Module) (Globals : SmallPtrSet) (Fun2Extract : FunToInlineMap) : Module :=
  ((closureInClone M Globals).filterMap id).foldl (fun C GV => GVMakeExternalDeclaration GV C)
    (cleanedClone M Globals Fun2Extract)

/-- The global value with its name field set. -/
def GlobalValue.withName (Name : String) : GlobalValue → GlobalValue
  | .variable g => .variable { g with name := Name }
  | .function f => .function { f with name := Name }

/-- The global value as `GVMakeExternalDeclaration` leaves it. -/
def GlobalValue.makeExternalDeclaration : GlobalValue → GlobalValue
  | .variable g => .variable { g with linkage := .ExternalLinkage, initializer := none }
  | .function f => .function { f with linkage := .ExternalLinkage, blocks := [] }

/-! ## Fragments of the example programs -/

/-- The fragment of the program `foo` calls `helper` calls `deep` for the
candidate `foo`: the candidate under its new name, `helper` without body, and
`deep`. -/
def exampleDeepFragment : Module :=
  { globals := [],
    functions := [{ exampleFooHelper with name := "foo__" },
                  { exampleHelper with blocks := [] }, exampleDeep],
    LastUnique := 0 }

/-- The fragment of the program in which the candidate `foo` calls `foo__`. -/
def exampleSuffixFragment : Module :=
  { globals := [],
    functions := [{ exampleFoo with name := "foo__.1" }, exampleSuffixed],
    LastUnique := 1 }

/-! ## The stages of `CreateJITHook` -/

/-- `Value::replaceAllUsesWith` inside one function. -/
def Function.replaceUses (Old New : Value) (f : Function) : Function :=
  { f with blocks := f.blocks.map (fun b =>
      { b with insts := b.insts.map (Instruction.replaceUses Old New) }) }

/-- `Value::replaceAllUsesWith` inside one global variable. -/
def GlobalVariable.replaceUses (Old New : Value) (g : GlobalVariable) : GlobalVariable :=
  { g with initializer := g.initializer.map (fun i =>
      match i with
      | .constant ops => .constant (ops.map (Value.replaceUses Old New))
      | i => i) }

/-- Lines 101-104 of `CreateJITHook` for the candidate `f` found under `F`: the
module in which `Hook` exists, has the uses of `F` and its name. -/
def hookInstalled (M : Module) (f : Function) (F : GlobalId) : Module :=
  let created := M.createFunction f.retTy f.paramTys f.isVarArg f.linkage "hook"
  (created.1.replaceAllUsesWith (.global F) (.global created.2)).takeName created.2 F

/-- Line 107 of `CreateJITHook`: the declared `JITHook`. -/
def declaredJITHook (env : Env) (M : Module) (f : Function) (F : GlobalId) : Module × GlobalId :=
  env.Declare .JitHook (hookInstalled M f F)

/-- Line 108 of `CreateJITHook`: the declared `JITHookEnd`. -/
def declaredJITHookEnd (env : Env) (M : Module) (f : Function) (F : GlobalId) :
    Module × GlobalId :=
  env.Declare .JitHookEnd (declaredJITHook env M f F).1

/-- Lines 118-121 of `CreateJITHook`: the module with the string of the name,
and the new variable. -/
def nameStored (env : Env) (M : Module) (f : Function) (F : GlobalId) : Module × GlobalId :=
  (declaredJITHookEnd env M f F).1.newGlobalVariable
    (ConstantDataArray.getString (stringBytes f.name) true).2 true .InternalLinkage
    (some (ConstantDataArray.getString (stringBytes f.name) true).1) ".easy_jit_fun_name"

/-- Lines 122-177 of `CreateJITHook`: the entry block of `Hook`. -/
def hookEntry (env : Env) (M : Module) (f : Function) (F : GlobalId) (Params : List Value)
    (BitcodeGV : GlobalId) (bitcodeTy : Ty) (NumElements : Nat) (optlevel : Int)
    (HandleTy : Ty) : List Instruction :=
  (trampolineEntry f M.freshId Params
    (ConstantExpr.getPointerCast (nameStored env M f F).2
      (.pointer (ConstantDataArray.getString (stringBytes f.name) true).2) I8Ptr)
    (ConstantExpr.getPointerCast BitcodeGV (.pointer bitcodeTy) I8Ptr)
    (ConstantInt.get 64 NumElements) (ConstantInt.get 32 (intToUInt64 optlevel))
    (declaredJITHook env M f F).2 HandleTy (declaredJITHookEnd env M f F).2).Entry

/-- What the proofs assume of `Declare`: it leaves the global variables of the
module alone, it leaves the functions of the module in place and may add new
functions after them, and the function it returns is in the module
afterwards. -/
def Env.DeclareExtends (env : Env) : Prop :=
  ∀ (k : RuntimeFunction) (X : Module),
    (env.Declare k X).1.globals = X.globals ∧
    (∃ new, (env.Declare k X).1.functions = X.functions ++ new ∧
      ∀ g ∈ new, X.freshId ≤ g.id) ∧
    ∃ h, (env.Declare k X).1.getFunction (env.Declare k X).2 = some h

/-- What a function is from outside its body: identity, name, linkage,
signature and the names of its basic blocks. -/
def Function.header (f : Function) :
    GlobalId × String × Linkage × Ty × List Ty × Bool × List String :=
  (f.id, f.name, f.linkage, f.retTy, f.paramTys, f.isVarArg, f.blocks.map BasicBlock.name)

/-! ## Lemmas on the trampoline builder -/

theorem hookLoop_HookArgs (F Hook : GlobalId) (Params : List Value) (tys : List Ty) :
    ∀ (k : Nat) (st : HookBuild),
      (hookLoop F Hook Params k tys st).HookArgs =
        st.HookArgs ++
          ((List.range' k tys.length).filter
              (fun i => decide (Value.argument F i ∈ Params.tail))).flatMap
            (fun i => [getInt32 (i : Int), Value.argument Hook i]) := by
  induction tys with
  | nil => intro k st; simp [hookLoop]
  | cons VTy rest ih =>
    intro k st
    rw [hookLoop, ih]
    by_cases h : Value.argument F k ∈ Params.tail
    · simp [hookLoopStep, h, List.range'_succ, List.filter_cons]
    · simp [hookLoopStep, h, List.range'_succ, List.filter_cons]

theorem hookLoop_FunArgsVal (F Hook : GlobalId) (Params : List Value) (tys : List Ty) :
    ∀ (k : Nat) (st : HookBuild),
      (hookLoop F Hook Params k tys st).FunArgsVal =
        st.FunArgsVal ++ (List.range' k tys.length).map (fun i => Value.argument Hook i) := by
  induction tys with
  | nil => intro k st; simp [hookLoop]
  | cons VTy rest ih =>
    intro k st
    rw [hookLoop, ih]
    by_cases h : Value.argument F k ∈ Params.tail
    · simp [hookLoopStep, h, List.range'_succ]
    · simp [hookLoopStep, h, List.range'_succ]

theorem CreateCast_Entry (Hook : GlobalId) (Entry : List Instruction) (op : CastOp)
    (V : Value) (srcTy destTy : Ty) :
    ∃ added, (CreateCast Hook Entry op V srcTy destTy).2 = Entry ++ added ∧
      ∀ I ∈ added, I.isCast = true := by
  unfold CreateCast
  by_cases h : srcTy = destTy
  · exact ⟨[], by simp [h]⟩
  · exact ⟨[.cast op V destTy], by simp [h, Insert, Instruction.isCast]⟩

theorem convertToI64_Entry (Hook : GlobalId) (Entry : List Instruction) (V : Value) (VTy : Ty) :
    ∃ added, (convertToI64 Hook Entry V VTy).2 = Entry ++ added ∧
      ∀ I ∈ added, I.isCast = true := by
  unfold convertToI64
  have key : ∀ (s : (Value × Ty) × List Instruction),
      (∃ a, s.2 = Entry ++ a ∧ ∀ I ∈ a, I.isCast = true) →
      ∃ added, (if s.1.2.getPrimitiveSizeInBits < 64 then
          CreateCast Hook s.2 .ZExt s.1.1 s.1.2 Int64Ty else (s.1.1, s.2)).2 = Entry ++ added ∧
        ∀ I ∈ added, I.isCast = true := by
    rintro s ⟨a, ha, hc⟩
    split
    · obtain ⟨b, hb, hbc⟩ := CreateCast_Entry Hook s.2 .ZExt s.1.1 s.1.2 Int64Ty
      refine ⟨a ++ b, by rw [hb, ha, List.append_assoc], ?_⟩
      intro I hI
      rcases List.mem_append.mp hI with h | h
      · exact hc I h
      · exact hbc I h
    · exact ⟨a, ha, hc⟩
  apply key
  dsimp only
  split
  · exact CreateCast_Entry _ _ _ _ _ _
  · split
    · exact CreateCast_Entry _ _ _ _ _ _
    · exact ⟨[], by simp⟩

theorem hookLoop_Entry (F Hook : GlobalId) (Params : List Value) (tys : List Ty) :
    ∀ (k : Nat) (st : HookBuild),
      ∃ added, (hookLoop F Hook Params k tys st).Entry = st.Entry ++ added ∧
        ∀ I ∈ added, I.isCast = true := by
  induction tys with
  | nil => intro k st; exact ⟨[], by simp [hookLoop]⟩
  | cons VTy rest ih =>
    intro k st
    rw [hookLoop]
    obtain ⟨b, hb, hbc⟩ := ih (k + 1) (hookLoopStep F Hook Params st k VTy)
    by_cases h : Value.argument F k ∈ Params.tail
    · obtain ⟨a, ha, hac⟩ := convertToI64_Entry Hook st.Entry (.argument Hook k) VTy
      refine ⟨a ++ b, ?_, ?_⟩
      · rw [hb]; simp [hookLoopStep, h, ha]
      · intro I hI
        rcases List.mem_append.mp hI with h' | h'
        · exact hac I h'
        · exact hbc I h'
    · refine ⟨b, ?_, hbc⟩
      rw [hb]; simp [hookLoopStep, h]

theorem specializedPositions_mem (F : GlobalId) (n : Nat) (ps : List Value) (i : Nat) :
    i ∈ specializedPositions F n ps ↔ i < n ∧ Value.argument F i ∈ ps := by
  simp [specializedPositions]

theorem specializedPositions_sorted (F : GlobalId) (n : Nat) (ps : List Value) :
    (specializedPositions F n ps).Pairwise (fun a b => a < b) := by
  unfold specializedPositions
  exact List.Pairwise.filter _ (List.pairwise_lt_range n)

theorem specializedPositions_congr (F : GlobalId) (n : Nat) (ps qs : List Value)
    (h : ∀ v, v ∈ ps ↔ v ∈ qs) :
    specializedPositions F n ps = specializedPositions F n qs := by
  unfold specializedPositions
  apply List.filter_congr
  intro i _
  simp [h]

theorem specializedPositions_length (F : GlobalId) (n : Nat) (ps : List Value)
    (hnd : ps.Nodup) (hin : ∀ p ∈ ps, ∃ i, i < n ∧ p = Value.argument F i) :
    (specializedPositions F n ps).length = ps.length := by
  have hinj : Function.Injective (fun i : Nat => Value.argument F i) := by
    intro a b hab
    simpa using hab
  have hnd1 : ((specializedPositions F n ps).map (fun i => Value.argument F i)).Nodup :=
    List.Nodup.map hinj (List.Nodup.filter _ (List.nodup_range n))
  have hperm : ((specializedPositions F n ps).map (fun i => Value.argument F i)).Perm ps := by
    rw [List.perm_ext_iff_of_nodup hnd1 hnd]
    intro v
    constructor
    · intro hv
      obtain ⟨i, hi, rfl⟩ := List.mem_map.mp hv
      exact ((specializedPositions_mem F n ps i).mp hi).2
    · intro hv
      obtain ⟨i, hi, rfl⟩ := hin v hv
      exact List.mem_map.mpr ⟨i, (specializedPositions_mem F n ps i).mpr ⟨hi, hv⟩, rfl⟩
  have := hperm.length_eq
  simpa using this

theorem trampolineEntry_HookArgs (f : Function) (Hook : GlobalId) (Params : List Value)
    (FNameGV IRVar IRSize OptLevel : Value) (JITHook : GlobalId) (HandleTy : Ty)
    (JITHookEnd : GlobalId) :
    (trampolineEntry f Hook Params FNameGV IRVar IRSize OptLevel JITHook HandleTy
        JITHookEnd).HookArgs =
      [FNameGV, IRVar, IRSize, OptLevel] ++
        (specializedPositions f.id f.paramTys.length Params.tail).flatMap
          (fun i => [getInt32 (i : Int), Value.argument Hook i]) ++
        [getInt32 (-1)] := by
  simp only [trampolineEntry, hookLoop_HookArgs, specializedPositions, List.range_eq_range']

theorem toPairs_flatMap (g h : Nat → Value) (L : List Nat) :
    toPairs (L.flatMap (fun i => [g i, h i])) = L.map (fun i => (g i, h i)) := by
  induction L with
  | nil => simp [toPairs]
  | cons a L ih =>
    rw [List.flatMap_cons, List.map_cons]
    show toPairs (g a :: h a :: L.flatMap (fun i => [g i, h i])) = _
    rw [toPairs, ih]

theorem indexValuePairs_shape (a b c d s : Value) (g h : Nat → Value) (L : List Nat) :
    indexValuePairs ([a, b, c, d] ++ L.flatMap (fun i => [g i, h i]) ++ [s]) =
      L.map (fun i => (g i, h i)) := by
  unfold indexValuePairs
  have : ([a, b, c, d] ++ L.flatMap (fun i => [g i, h i]) ++ [s]).drop 4 =
      L.flatMap (fun i => [g i, h i]) ++ [s] := by simp
  rw [this, List.dropLast_concat, toPairs_flatMap]

theorem getInt32_of_lt (i : Nat) (h : i < 2 ^ 32) : getInt32 (i : Int) = .constantInt 32 i := by
  unfold getInt32
  congr 1
  have : ((i : Int) % 2 ^ 32) = (i : Int) := Int.emod_eq_of_lt (by positivity) (by exact_mod_cast h)
  rw [this]; simp

theorem flatMap_pairs (g h : Nat → Value) (L : List Nat) :
    (L.map (fun i => (g i, h i))).flatMap (fun p => [p.1, p.2]) =
      L.flatMap (fun i => [g i, h i]) := by
  induction L with
  | nil => rfl
  | cons a L ih => rw [List.map_cons, List.flatMap_cons, List.flatMap_cons, ih]

theorem getInt32_minus_one : getInt32 (-1) = .constantInt 32 4294967295 := by decide

theorem trampolineEntry_FunArgsVal (f : Function) (Hook : GlobalId) (Params : List Value)
    (FNameGV IRVar IRSize OptLevel : Value) (JITHook : GlobalId) (HandleTy : Ty)
    (JITHookEnd : GlobalId) :
    (trampolineEntry f Hook Params FNameGV IRVar IRSize OptLevel JITHook HandleTy
        JITHookEnd).FunArgsVal =
      (List.range f.paramTys.length).map (fun i => Value.argument Hook i) := by
  simp only [trampolineEntry, hookLoop_FunArgsVal, List.range_eq_range', List.nil_append]

theorem trampolineEntry_Entry (f : Function) (Hook : GlobalId) (Params : List Value)
    (FNameGV IRVar IRSize OptLevel : Value) (JITHook : GlobalId) (HandleTy : Ty)
    (JITHookEnd : GlobalId) :
    ∃ (conv castPart : List Instruction) (Cast : Value),
      (∀ I ∈ conv, I.isCast = true) ∧
      ((HandleTy = f.getType ∧ castPart = [] ∧ Cast = .instruction Hook conv.length) ∨
        (HandleTy ≠ f.getType ∧
          castPart = [.cast .BitCast (.instruction Hook conv.length) f.getType] ∧
          Cast = .instruction Hook (conv.length + 1))) ∧
      (trampolineEntry f Hook Params FNameGV IRVar IRSize OptLevel JITHook HandleTy
          JITHookEnd).Entry =
        conv ++
          [.call (.global JITHook)
            (trampolineEntry f Hook Params FNameGV IRVar IRSize OptLevel JITHook HandleTy
              JITHookEnd).HookArgs] ++
          castPart ++
          [.call Cast
              (trampolineEntry f Hook Params FNameGV IRVar IRSize OptLevel JITHook HandleTy
                JITHookEnd).FunArgsVal,
            .call (.global JITHookEnd) [.instruction Hook conv.length],
            if f.retTy.isVoidTy then .ret none
            else .ret (some (.instruction Hook (conv.length + 1 + castPart.length)))] := by
  obtain ⟨conv, hconv, hcast⟩ := hookLoop_Entry f.id Hook Params f.paramTys 0
    { HookArgs := [FNameGV, IRVar, IRSize, OptLevel], FunArgsVal := [], Entry := [] }
  simp only [List.nil_append] at hconv
  by_cases hty : HandleTy = f.getType
  · refine ⟨conv, [], .instruction Hook conv.length, hcast, Or.inl ⟨hty, rfl, rfl⟩, ?_⟩
    simp [trampolineEntry, hconv, Insert, CreateCast, hty]
  · refine ⟨conv, [.cast .BitCast (.instruction Hook conv.length) f.getType],
      .instruction Hook (conv.length + 1), hcast, Or.inr ⟨hty, rfl, rfl⟩, ?_⟩
    simp [trampolineEntry, hconv, Insert, CreateCast, hty]

theorem filter_isCallOf_casts (G : GlobalId) (L : List Instruction)
    (h : ∀ I ∈ L, I.isCast = true) : L.filter (Instruction.isCallOf G) = [] := by
  rw [List.filter_eq_nil_iff]
  intro I hI
  have := h I hI
  cases I <;> simp_all [Instruction.isCast, Instruction.isCallOf]

theorem isCallOf_ret (G : GlobalId) (c : Bool) (v : Value) :
    Instruction.isCallOf G (if c = true then .ret none else .ret (some v)) = false := by
  cases c <;> rfl

theorem isCallOf_call_global (G g : GlobalId) (args : List Value) :
    Instruction.isCallOf G (.call (.global g) args) = decide (g = G) := rfl

theorem isCallOf_call_instruction (G p i : Nat) (args : List Value) :
    Instruction.isCallOf G (.call (.instruction p i) args) = false := rfl

theorem isCallOf_cast (G : GlobalId) (op : CastOp) (v : Value) (t : Ty) :
    Instruction.isCallOf G (.cast op v t) = false := rfl

theorem getElem?_append_add {α : Type} (L R : List α) (k : Nat) :
    (L ++ R)[L.length + k]? = R[k]? := by
  rw [List.getElem?_append_right (by omega)]
  congr 1
  omega

theorem optLevel_roundtrip (l : Int) (hlo : -(2 : Int) ^ 31 ≤ l) (hhi : l < (2 : Int) ^ 31) :
    ∃ level32 : Nat, ConstantInt.get 32 (intToUInt64 l) = .constantInt 32 level32 ∧
      getSExtValue 32 level32 = l := by
  refine ⟨intToUInt64 l % 2 ^ 32, rfl, ?_⟩
  unfold getSExtValue intToUInt64
  norm_num at hlo hhi ⊢
  split <;> omega

theorem id_lt_freshId (M : Module) (GV : GlobalValue) (h : GV ∈ M.globalValues) :
    GV.id < M.freshId := by
  unfold Module.freshId
  have key : ∀ (L : List Nat) (a : Nat), (∀ x ∈ L, x ≤ L.foldl max a) ∧ a ≤ L.foldl max a := by
    intro L
    induction L with
    | nil => intro a; simp
    | cons b L ih =>
      intro a
      simp only [List.foldl_cons, List.mem_cons]
      refine ⟨?_, le_trans (le_max_left a b) (ih (max a b)).2⟩
      rintro x (rfl | hx)
      · exact le_trans (le_max_right a x) (ih (max a x)).2
      · exact (ih (max a b)).1 x hx
  exact Nat.lt_succ_of_le
    ((key (M.globalValues.map GlobalValue.id) 0).1 GV.id (List.mem_map.mpr ⟨GV, h, rfl⟩))

theorem getFunction_some (M : Module) (F : GlobalId) (f : Function)
    (h : M.getFunction F = some f) : f ∈ M.functions ∧ f.id = F := by
  unfold Module.getFunction at h
  exact ⟨List.mem_of_find?_eq_some h, by simpa using List.find?_some h⟩

theorem function_id_lt_freshId (M : Module) (f : Function) (h : f ∈ M.functions) :
    f.id < M.freshId :=
  id_lt_freshId M (.function f)
    (List.mem_append_right _ (List.mem_map.mpr ⟨f, h, rfl⟩))

theorem global_id_lt_freshId (M : Module) (g : GlobalVariable) (h : g ∈ M.globals) :
    g.id < M.freshId :=
  id_lt_freshId M (.variable g)
    (List.mem_append_left _ (List.mem_map.mpr ⟨g, h, rfl⟩))

theorem find?_setBlocks_erase (L : List Function) (Hook F : GlobalId) (hne : Hook ≠ F)
    (blocks : List BasicBlock) :
    ((L.map (fun f => if f.id = Hook then { f with blocks := blocks } else f)).filter
        (fun f => decide (f.id ≠ F))).find? (fun f => decide (f.id = Hook)) =
      (L.find? (fun f => decide (f.id = Hook))).map (fun f => { f with blocks := blocks }) := by
  induction L with
  | nil => rfl
  | cons a L ih =>
    rw [List.map_cons, List.find?_cons (a := a)]
    by_cases ha : a.id = Hook
    · rw [if_pos ha, List.filter_cons]
      have h2 : decide (({ a with blocks := blocks } : Function).id ≠ F) = true := by
        simp [ha, hne]
      rw [if_pos h2, List.find?_cons]
      simp [ha]
    · rw [if_neg ha, List.filter_cons]
      have h3 : decide (a.id = Hook) = false := by simp [ha]
      rw [h3]
      by_cases hF : a.id = F
      · have h4 : ¬ (decide (a.id ≠ F) = true) := by simp [hF]
        rw [if_neg h4]
        exact ih
      · have h4 : decide (a.id ≠ F) = true := by simp [hF]
        rw [if_pos h4, List.find?_cons, h3]
        exact ih

theorem getFunction_setBlocks_erase (M : Module) (Hook F : GlobalId) (hne : Hook ≠ F)
    (blocks : List BasicBlock) :
    ((M.setBlocks Hook blocks).eraseFunction F).getFunction Hook =
      (M.getFunction Hook).map (fun f => { f with blocks := blocks }) :=
  find?_setBlocks_erase M.functions Hook F hne blocks

theorem getGlobalVariable_new (M : Module) (valueType : Ty) (isConstant : Bool)
    (linkage : Linkage) (Init : Option Initializer) (Name : String) :
    ∃ nm : String,
      (M.newGlobalVariable valueType isConstant linkage Init Name).1.getGlobalVariable
          (M.newGlobalVariable valueType isConstant linkage Init Name).2 =
        some { id := M.freshId, name := nm, linkage := linkage, valueType := valueType,
               isConstant := isConstant, initializer := Init } := by
  refine ⟨(createValueName M.names M.LastUnique Name).1, ?_⟩
  unfold Module.newGlobalVariable Module.getGlobalVariable
  simp only
  rw [List.find?_append]
  have : M.globals.find? (fun g => decide (g.id = M.freshId)) = none := by
    rw [List.find?_eq_none]
    intro g hg
    have := global_id_lt_freshId M g hg
    simpa using Nat.ne_of_lt this
  rw [this]
  simp

theorem find?_variable_of_mem (gs : List GlobalVariable) (rest : List GlobalValue)
    (Name : String) (h : ∃ g ∈ gs, g.name = Name) :
    ∃ g, (gs.map GlobalValue.variable ++ rest).find? (fun GV => decide (GV.getName = Name)) =
      some (.variable g) := by
  induction gs with
  | nil => obtain ⟨g, hg, _⟩ := h; cases hg
  | cons a gs ih =>
    by_cases ha : a.name = Name
    · exact ⟨a, by simp [List.find?_cons, GlobalValue.getName, ha]⟩
    · obtain ⟨g, hg, hn⟩ := h
      have hg' : g ∈ gs := by
        rcases List.mem_cons.mp hg with rfl | h'
        · exact absurd hn ha
        · exact h'
      obtain ⟨g', hg'⟩ := ih ⟨g, hg', hn⟩
      exact ⟨g', by simpa [List.find?_cons, GlobalValue.getName, ha] using hg'⟩

theorem getNamedGlobal_isSome (M : Module) (h : ∃ g ∈ M.globals, g.name = EmbeddedModuleName) :
    (M.getNamedGlobal EmbeddedModuleName).isSome = true := by
  obtain ⟨g, hg⟩ := find?_variable_of_mem M.globals (M.functions.map .function)
    EmbeddedModuleName h
  have hne : EmbeddedModuleName ≠ "" := by decide
  simp only [Module.getNamedGlobal, Module.getNamedValue, if_neg hne, Module.globalValues, hg]
  rfl

/-! ## Lemmas on a second run -/

theorem runOnModule_of_reserved_global (env : Env) (M : Module)
    (h : ∃ g ∈ M.globals, g.name = EmbeddedModuleName) :
    runOnModule env M =
      some (false, M,
        [.message "WARNING: Compilation unit already contains an extracted module.\n"]) := by
  unfold runOnModule
  rw [if_pos (getNamedGlobal_isSome M h)]

theorem replaceAllUsesWith_named (M : Module) (Old New : Value) (N : String)
    (h : ∃ g ∈ M.globals, g.name = N) :
    ∃ g ∈ (M.replaceAllUsesWith Old New).globals, g.name = N := by
  obtain ⟨g, hg, hn⟩ := h
  exact ⟨_, List.mem_map.mpr ⟨g, hg, rfl⟩, hn⟩

theorem takeName_globals (M : Module) (Hook F : GlobalId) :
    (M.takeName Hook F).globals = M.globals := by
  unfold Module.takeName
  split <;> rfl

theorem CreateJITHook_named (env : Env) (F : GlobalId) (Params : List Value)
    (BitcodeGV : GlobalId) (M M' : Module) (log : List Diagnostic) (N : String)
    (hdecl : ∀ k X, (env.Declare k X).1.globals = X.globals)
    (hrun : CreateJITHook env F Params BitcodeGV M = some (M', log))
    (h : ∃ g ∈ M.globals, g.name = N) :
    ∃ g ∈ M'.globals, g.name = N := by
  unfold CreateJITHook at hrun
  split at hrun
  · exact absurd hrun (by simp)
  · rename_i f hf
    simp only at hrun
    split at hrun
    · split at hrun
      · split at hrun
        · simp only [Option.some.injEq, Prod.mk.injEq] at hrun
          obtain ⟨hM', -⟩ := hrun
          obtain ⟨g, hg, hn⟩ := replaceAllUsesWith_named
            (M.createFunction f.retTy f.paramTys f.isVarArg f.linkage "hook").1
            (.global F)
            (.global (M.createFunction f.retTy f.paramTys f.isVarArg f.linkage "hook").2) N h
          refine ⟨g, ?_, hn⟩
          rw [← hM']
          show g ∈ (Module.newGlobalVariable _ _ _ _ _ _).1.globals
          unfold Module.newGlobalVariable
          simp only [List.mem_append]
          left
          rw [hdecl, hdecl, takeName_globals]
          exact hg
        · exact absurd hrun (by simp)
      · exact absurd hrun (by simp)
    · exact absurd hrun (by simp)

theorem createHooks_named (env : Env) (BitcodeGV : GlobalId) (N : String)
    (hdecl : ∀ k X, (env.Declare k X).1.globals = X.globals)
    (Fun2Extract : FunToInlineMap) :
    ∀ (M M' : Module) (log log' : List Diagnostic),
      createHooks env BitcodeGV Fun2Extract (M, log) = some (M', log') →
      (∃ g ∈ M.globals, g.name = N) → ∃ g ∈ M'.globals, g.name = N := by
  induction Fun2Extract with
  | nil =>
    intro M M' log log' hrun h
    simp only [createHooks, Option.some.injEq, Prod.mk.injEq] at hrun
    rw [← hrun.1]; exact h
  | cons KV rest ih =>
    intro M M' log log' hrun h
    rw [createHooks] at hrun
    split at hrun
    · exact absurd hrun (by simp)
    · rename_i M1 log1 hstep
      exact ih M1 M' _ log' hrun (CreateJITHook_named env _ _ _ M M1 log1 N hdecl hstep h)

theorem not_mem_names (M : Module) (N : String)
    (hg : ¬ ∃ g ∈ M.globals, g.name = N) (hf : ∀ f ∈ M.functions, f.name ≠ N) :
    N ∉ M.names := by
  intro hmem
  unfold Module.names Module.globalValues at hmem
  simp only [List.mem_filter, List.mem_map, List.mem_append] at hmem
  obtain ⟨⟨GV, hGV, hname⟩, -⟩ := hmem
  rcases hGV with ⟨g, hg', rfl⟩ | ⟨f, hf', rfl⟩
  · exact hg ⟨g, hg', hname⟩
  · exact hf f hf' hname

theorem WriteModuleToGlobal_named (env : Env) (M JitM : Module)
    (hfree : EmbeddedModuleName ∉ M.names) :
    ∃ g ∈ (WriteModuleToGlobal env M JitM).1.1.globals, g.name = EmbeddedModuleName := by
  have hne : EmbeddedModuleName ≠ "" := by decide
  refine ⟨_, List.mem_append_right _ (List.mem_singleton.mpr rfl), ?_⟩
  simp [createValueName, hne, hfree]

/-- Where the second run is gated: when `Declare` leaves the global variables of
the module alone and no function of the module holds the reserved name, a run
on the module a first run leaves returns `false` and changes nothing. -/
theorem runOnModule_second_run (env : Env) (M M1 : Module) (b : Bool) (log1 : List Diagnostic)
    (hdecl : ∀ k X, (env.Declare k X).1.globals = X.globals)
    (hfun : ∀ f ∈ M.functions, f.name ≠ EmbeddedModuleName)
    (hrun : runOnModule env M = some (b, M1, log1)) :
    ∃ log2, runOnModule env M1 = some (false, M1, log2) := by
  by_cases hg : ∃ g ∈ M.globals, g.name = EmbeddedModuleName
  · have h := runOnModule_of_reserved_global env M hg
    rw [h] at hrun
    simp only [Option.some.injEq, Prod.mk.injEq] at hrun
    rw [← hrun.2.1]
    exact ⟨_, h⟩
  · have hfree := not_mem_names M EmbeddedModuleName hg hfun
    have hrun0 := hrun
    unfold runOnModule at hrun
    split at hrun
    · simp only [Option.some.injEq, Prod.mk.injEq] at hrun
      rw [← hrun.2.1]; rw [← hrun.1, ← hrun.2.1, ← hrun.2.2] at hrun0; exact ⟨_, hrun0⟩
    · simp only at hrun
      split at hrun
      · simp only [Option.some.injEq, Prod.mk.injEq] at hrun
        rw [← hrun.2.1]; rw [← hrun.1, ← hrun.2.1, ← hrun.2.2] at hrun0; exact ⟨_, hrun0⟩
      · split at hrun
        · exact absurd hrun (by simp)
        · simp only [Option.some.injEq, Prod.mk.injEq] at hrun
          rw [← hrun.2.1]; rw [← hrun.1, ← hrun.2.1, ← hrun.2.2] at hrun0; exact ⟨_, hrun0⟩
        · rename_i JitM log hjit
          split at hrun
          · exact absurd hrun (by simp)
          · rename_i M2 log2 hhooks
            simp only [Option.some.injEq, Prod.mk.injEq] at hrun
            rw [← hrun.2.1]
            have := createHooks_named env _ EmbeddedModuleName hdecl _ _ M2 _ log2 hhooks
              (WriteModuleToGlobal_named env M JitM hfree)
            exact ⟨_, runOnModule_of_reserved_global env M2 this⟩

/-! ## Lemmas on the closure analysis -/

theorem usersAmong_any (Fun2Extract : FunToInlineMap) (G : GlobalId) (direct : User)
    (ops : List Value) :
    (usersAmong G direct ops).any (IsExtractedInst Fun2Extract) =
      (decide (Value.global G ∈ ops) && IsExtractedInst Fun2Extract direct) := by
  induction ops with
  | nil => simp [usersAmong]
  | cons v ops ih =>
    have hrep : ∀ n, (List.replicate n User.nonInstruction).any (IsExtractedInst Fun2Extract)
        = false := by
      intro n
      rw [List.any_eq_false]
      intro u hu
      rw [(List.mem_replicate.mp hu).2]
      simp [IsExtractedInst]
    unfold usersAmong at ih ⊢
    rw [List.flatMap_cons, List.any_append, List.any_append, ih, hrep]
    by_cases hv : v = Value.global G
    · subst hv
      cases h : IsExtractedInst Fun2Extract direct <;> simp [h]
    · have hv' : ¬ Value.global G = v := fun h => hv h.symm
      simp [hv, hv']

theorem mem_usersAmong_direct (G : GlobalId) (direct : User) (ops : List Value)
    (h : Value.global G ∈ ops) : direct ∈ usersAmong G direct ops := by
  unfold usersAmong
  exact List.mem_flatMap.mpr ⟨.global G, h, by simp⟩

theorem users_any_iff (M : Module) (Fun2Extract : FunToInlineMap) (G : GlobalId) :
    (M.users G).any (IsExtractedInst Fun2Extract) = true ↔
      usedByCandidate M Fun2Extract G := by
  constructor
  · intro h
    obtain ⟨u, hu, hp⟩ := List.any_eq_true.mp h
    unfold Module.users at hu
    rcases List.mem_append.mp hu with h1 | h2
    · obtain ⟨f, hf, hu1⟩ := List.mem_flatMap.mp h1
      obtain ⟨I, hI, hu2⟩ := List.mem_flatMap.mp hu1
      have hany : (usersAmong G (.instruction f.id I) I.operands).any
          (IsExtractedInst Fun2Extract) = true := List.any_eq_true.mpr ⟨u, hu2, hp⟩
      rw [usersAmong_any] at hany
      simp only [Bool.and_eq_true, decide_eq_true_eq, IsExtractedInst, bne_iff_ne, ne_eq] at hany
      exact ⟨f, hf, hany.2, I, hI, hany.1⟩
    · obtain ⟨g, _, hg⟩ := List.mem_flatMap.mp h2
      split at hg
      · rename_i ops _
        have hany : (usersAmong G .nonInstruction ops).any
            (IsExtractedInst Fun2Extract) = true := List.any_eq_true.mpr ⟨u, hg, hp⟩
        rw [usersAmong_any] at hany
        simp [IsExtractedInst] at hany
      · cases hg
  · rintro ⟨f, hf, hc, I, hI, hop⟩
    apply List.any_eq_true.mpr
    refine ⟨.instruction f.id I, ?_, ?_⟩
    · unfold Module.users
      apply List.mem_append_left
      exact List.mem_flatMap.mpr ⟨f, hf, List.mem_flatMap.mpr
        ⟨I, hI, mem_usersAmong_direct G _ _ hop⟩⟩
    · simpa [IsExtractedInst] using hc

theorem mem_insert_of_mem (S : SmallPtrSet) (GV G : GlobalValue) (h : G ∈ S) :
    G ∈ S.insert GV := by
  unfold SmallPtrSet.insert
  split
  · exact h
  · exact List.mem_append_left _ h

theorem mem_insert (S : SmallPtrSet) (GV G : GlobalValue) (h : G ∈ S.insert GV) :
    G ∈ S ∨ G = GV := by
  unfold SmallPtrSet.insert at h
  split at h
  · exact Or.inl h
  · rcases List.mem_append.mp h with h1 | h1
    · exact Or.inl h1
    · exact Or.inr (List.mem_singleton.mp h1)

theorem insert_has_id (S : SmallPtrSet) (GV : GlobalValue) :
    ∃ G ∈ S.insert GV, G.id = GV.id := by
  unfold SmallPtrSet.insert
  split
  · rename_i h
    obtain ⟨G, hG, hid⟩ := List.any_eq_true.mp h
    exact ⟨G, hG, by simpa using hid⟩
  · exact ⟨GV, List.mem_append_right _ (List.mem_singleton.mpr rfl), rfl⟩

theorem getReferencedGlobalsIn_spec (M : Module) (Fun2Extract : FunToInlineMap)
    (R : List GlobalValue) :
    ∀ (Globals : SmallPtrSet) (log : List Diagnostic),
      (∀ G ∈ (getReferencedGlobalsIn M Fun2Extract R (Globals, log)).1,
        G ∈ Globals ∨ (G ∈ R ∧ Fun2Extract.count G.dynCastFunction = 0 ∧
          (M.users G.id).any (IsExtractedInst Fun2Extract) = true)) ∧
      (∀ G ∈ Globals, G ∈ (getReferencedGlobalsIn M Fun2Extract R (Globals, log)).1) ∧
      (∀ G ∈ R, Fun2Extract.count G.dynCastFunction = 0 →
        (M.users G.id).any (IsExtractedInst Fun2Extract) = true →
        ∃ G' ∈ (getReferencedGlobalsIn M Fun2Extract R (Globals, log)).1, G'.id = G.id) ∧
      (∃ added, (getReferencedGlobalsIn M Fun2Extract R (Globals, log)).2 = log ++ added ∧
        (∀ d ∈ added, ∃ G ∈ R, d = referencedMessage G) ∧
        ∀ G ∈ (getReferencedGlobalsIn M Fun2Extract R (Globals, log)).1,
          G ∈ Globals ∨ referencedMessage G ∈ added) := by
  induction R with
  | nil =>
    intro Globals log
    simp only [getReferencedGlobalsIn]
    exact ⟨fun G h => Or.inl h, fun G h => h, fun G h => absurd h (List.not_mem_nil G),
      [], by simp, fun d h => absurd h (List.not_mem_nil d), fun G h => Or.inl h⟩
  | cons X R ih =>
    intro Globals log
    rw [getReferencedGlobalsIn]
    by_cases hc : Fun2Extract.count X.dynCastFunction = 0
    · have hc' : ¬ ((Fun2Extract.count X.dynCastFunction != 0) = true) := by simp [hc]
      rw [if_neg hc']
      by_cases hu : (M.users X.id).any (IsExtractedInst Fun2Extract) = true
      · obtain ⟨h1, h2, h3, added, h4, h5, h6⟩ := ih (Globals.insert X)
          (log ++ [referencedMessage X])
        simp only [addGlobalIfUsedByExtracted, hu, if_true, Debug, Bool.and_self,
          referencedMessage] at h1 h2 h3 h4 h5 h6 ⊢
        refine ⟨?_, ?_, ?_, referencedMessage X :: added, ?_, ?_, ?_⟩
        · intro G hG
          rcases h1 G hG with h | ⟨hR, hcG, huG⟩
          · rcases mem_insert _ _ _ h with h' | rfl
            · exact Or.inl h'
            · exact Or.inr ⟨List.mem_cons_self _ _, hc, hu⟩
          · exact Or.inr ⟨List.mem_cons_of_mem _ hR, hcG, huG⟩
        · intro G hG
          exact h2 G (mem_insert_of_mem _ _ _ hG)
        · intro G hG hcG huG
          rcases List.mem_cons.mp hG with rfl | hR
          · obtain ⟨G', hG', hid⟩ := insert_has_id Globals G
            exact ⟨G', h2 G' hG', hid⟩
          · exact h3 G hR hcG huG
        · rw [h4]; simp [referencedMessage]
        · intro d hd
          rcases List.mem_cons.mp hd with rfl | hd'
          · exact ⟨X, List.mem_cons_self _ _, rfl⟩
          · obtain ⟨G, hG, hd''⟩ := h5 d hd'
            exact ⟨G, List.mem_cons_of_mem _ hG, hd''⟩
        · intro G hG
          rcases h6 G hG with h | h
          · rcases mem_insert _ _ _ h with h' | rfl
            · exact Or.inl h'
            · exact Or.inr (List.mem_cons_self _ _)
          · exact Or.inr (List.mem_cons_of_mem _ h)
      · have hu' : (M.users X.id).any (IsExtractedInst Fun2Extract) = false := by
          simpa using hu
        obtain ⟨h1, h2, h3, added, h4, h5, h6⟩ := ih Globals log
        simp only [addGlobalIfUsedByExtracted, hu', Bool.false_and, Bool.false_eq_true,
          if_false] at h1 h2 h3 h4 h5 h6 ⊢
        refine ⟨?_, h2, ?_, added, h4, ?_, h6⟩
        · intro G hG
          rcases h1 G hG with h | ⟨hR, hcG, huG⟩
          · exact Or.inl h
          · exact Or.inr ⟨List.mem_cons_of_mem _ hR, hcG, huG⟩
        · intro G hG hcG huG
          rcases List.mem_cons.mp hG with rfl | hR
          · rw [hu'] at huG; cases huG
          · exact h3 G hR hcG huG
        · intro d hd
          obtain ⟨G, hG, hd''⟩ := h5 d hd
          exact ⟨G, List.mem_cons_of_mem _ hG, hd''⟩
    · have hc' : (Fun2Extract.count X.dynCastFunction != 0) = true := by simp [hc]
      rw [if_pos hc']
      obtain ⟨h1, h2, h3, added, h4, h5, h6⟩ := ih Globals log
      refine ⟨?_, h2, ?_, added, h4, ?_, h6⟩
      · intro G hG
        rcases h1 G hG with h | ⟨hR, hcG, huG⟩
        · exact Or.inl h
        · exact Or.inr ⟨List.mem_cons_of_mem _ hR, hcG, huG⟩
      · intro G hG hcG huG
        rcases List.mem_cons.mp hG with rfl | hR
        · exact absurd hcG hc
        · exact h3 G hR hcG huG
      · intro d hd
        obtain ⟨G, hG, hd''⟩ := h5 d hd
        exact ⟨G, List.mem_cons_of_mem _ hG, hd''⟩

theorem count_ne_zero_iff (Fun2Extract : FunToInlineMap) (F : GlobalId) :
    Fun2Extract.count (some F) ≠ 0 ↔ F ∈ GetFunctions Fun2Extract := by
  unfold FunToInlineMap.count GetFunctions
  rw [Ne, List.length_eq_zero, List.filter_eq_nil_iff]
  simp only [decide_eq_true_eq, not_forall, not_not, List.mem_map]
  constructor
  · rintro ⟨KV, hKV, h⟩
    exact ⟨KV, hKV, h⟩
  · rintro ⟨KV, hKV, h⟩
    exact ⟨KV, hKV, h⟩

theorem getReferencedGlobals_spec (M : Module) (Fun2Extract : FunToInlineMap)
    (hne : Fun2Extract ≠ []) :
    ∃ Globals log, getReferencedGlobals M Fun2Extract = some (Globals, log) ∧
      (∀ G ∈ Globals, G ∈ M.globalValues ∧ Fun2Extract.count G.dynCastFunction = 0 ∧
        (M.users G.id).any (IsExtractedInst Fun2Extract) = true) ∧
      (∀ G ∈ M.globalValues, Fun2Extract.count G.dynCastFunction = 0 →
        (M.users G.id).any (IsExtractedInst Fun2Extract) = true →
        ∃ G' ∈ Globals, G'.id = G.id) ∧
      (∀ G ∈ Globals, referencedMessage G ∈ log) ∧
      (∀ d ∈ log, ∃ G ∈ M.globalValues, d = referencedMessage G) := by
  cases Fun2Extract with
  | nil => exact absurd rfl hne
  | cons KV rest =>
    obtain ⟨a1, a2, a3, addedA, a4, a5, a6⟩ := getReferencedGlobalsIn_spec M (KV :: rest)
      (M.globals.map .variable) [] []
    obtain ⟨b1, b2, b3, addedB, b4, b5, b6⟩ := getReferencedGlobalsIn_spec M (KV :: rest)
      (M.functions.map .function)
      (getReferencedGlobalsIn M (KV :: rest) (M.globals.map .variable) ([], [])).1
      (getReferencedGlobalsIn M (KV :: rest) (M.globals.map .variable) ([], [])).2
    refine ⟨_, _, rfl, ?_, ?_, ?_, ?_⟩
    · intro G hG
      rcases b1 G hG with h | ⟨hR, hc, hu⟩
      · rcases a1 G h with h' | ⟨hR, hc, hu⟩
        · cases h'
        · exact ⟨List.mem_append_left _ hR, hc, hu⟩
      · exact ⟨List.mem_append_right _ hR, hc, hu⟩
    · intro G hG hc hu
      rcases List.mem_append.mp hG with h | h
      · obtain ⟨G', hG', hid⟩ := a3 G h hc hu
        exact ⟨G', b2 G' hG', hid⟩
      · exact b3 G h hc hu
    · intro G hG
      rw [b4]
      rcases b6 G hG with h | h
      · rcases a6 G h with h' | h'
        · cases h'
        · rw [a4]; simp [h']
      · exact List.mem_append_right _ h
    · intro d hd
      rw [b4, a4] at hd
      simp only [List.nil_append, List.mem_append] at hd
      rcases hd with h | h
      · obtain ⟨G, hG, hd'⟩ := a5 d h
        exact ⟨G, List.mem_append_left _ hG, hd'⟩
      · obtain ⟨G, hG, hd'⟩ := b5 d h
        exact ⟨G, List.mem_append_right _ hG, hd'⟩

theorem eq_of_id_eq (M : Module) (hids : (M.globalValues.map GlobalValue.id).Nodup)
    (G G' : GlobalValue) (hG : G ∈ M.globalValues) (hG' : G' ∈ M.globalValues)
    (hid : G'.id = G.id) : G' = G :=
  List.inj_on_of_nodup_map hids hG' hG hid

/-! ## Lemmas on the pruned clone -/

theorem GetModuleForJITCompilation_inv (Fun2Extract : FunToInlineMap) (M JitM : Module)
    (log : List Diagnostic)
    (hrun : GetModuleForJITCompilation Fun2Extract M = some (some JitM, log)) :
    ∃ Globals, getReferencedGlobals M Fun2Extract = some (Globals, log) ∧
      Globals.all GlobalValue.hasExternalLinkage = true ∧
      (∀ x ∈ closureInClone M Globals ++ candidatesInClone M Fun2Extract,
        ∃ G, x = some G ∧ ∃ GV ∈ (cleanedClone M Globals Fun2Extract).globalValues, GV.id = G) ∧
      JitM = ((candidatesInClone M Fun2Extract).filterMap id).foldl
        (fun C GV => renameWithSuffix GV C) (declaredClone M Globals Fun2Extract) := by
  unfold GetModuleForJITCompilation at hrun
  split at hrun
  · cases hrun
  · rename_i Globals log0 hcl
    simp only at hrun
    split at hrun
    · simp at hrun
    · rename_i hvalid
      split at hrun
      · rename_i hall
        simp only [Option.some.injEq, Prod.mk.injEq] at hrun
        obtain ⟨hJ, hlog⟩ := hrun
        have hv : Globals.all GlobalValue.hasExternalLinkage = true := by
          simpa [ValidForExtraction] using hvalid
        have hlog' : log0 = log := by
          rw [← hlog]
          simp [ValidForExtraction, hv]
        refine ⟨Globals, by rw [hcl, hlog'], hv, ?_, hJ.symm⟩
        intro x hx
        have := (List.all_eq_true.mp hall) x hx
        cases x with
        | none => simp at this
        | some G =>
          simp only [List.any_eq_true, decide_eq_true_eq] at this
          obtain ⟨GV, hGV, hid⟩ := this
          exact ⟨G, rfl, GV, hGV, hid⟩
      · cases hrun

/-! ## Lemmas on names and on the stages of the clone -/

theorem eq_of_name_eq (M : Module) (hnames : M.names.Nodup) (X Y : GlobalValue)
    (hX : X ∈ M.globalValues) (hY : Y ∈ M.globalValues) (hn : X.getName = Y.getName)
    (hne : X.getName ≠ "") : X = Y := by
  unfold Module.names at hnames
  rw [List.filter_map] at hnames
  have hX' : X ∈ M.globalValues.filter ((fun n => decide (n ≠ "")) ∘ GlobalValue.getName) :=
    List.mem_filter.mpr ⟨hX, by simpa using hne⟩
  have hY' : Y ∈ M.globalValues.filter ((fun n => decide (n ≠ "")) ∘ GlobalValue.getName) :=
    List.mem_filter.mpr ⟨hY, by simpa [← hn] using hne⟩
  exact List.inj_on_of_nodup_map hnames hX' hY' hn

theorem getNamedValue_some (M : Module) (Name : String) (G : GlobalValue)
    (h : M.getNamedValue Name = some G) :
    G ∈ M.globalValues ∧ G.getName = Name ∧ Name ≠ "" := by
  unfold Module.getNamedValue at h
  split at h
  · cases h
  · rename_i hne
    exact ⟨List.mem_of_find?_eq_some h, by simpa using List.find?_some h, hne⟩

theorem getNamedValue_of_mem (M : Module) (hnames : M.names.Nodup) (G : GlobalValue)
    (hG : G ∈ M.globalValues) (hne : G.getName ≠ "") :
    M.getNamedValue G.getName = some G := by
  unfold Module.getNamedValue
  rw [if_neg hne]
  cases h : M.globalValues.find? (fun GV => decide (GV.getName = G.getName)) with
  | none =>
    have := List.find?_eq_none.mp h G hG
    simp at this
  | some Y =>
    have hY := List.mem_of_find?_eq_some h
    have hn : Y.getName = G.getName := by simpa using List.find?_some h
    rw [eq_of_name_eq M hnames Y G hY hG hn (by rw [hn]; exact hne)]

theorem getName_of_mem (M : Module) (hids : (M.globalValues.map GlobalValue.id).Nodup)
    (G : GlobalValue) (hG : G ∈ M.globalValues) : M.getName G.id = G.getName := by
  unfold Module.getName
  cases h : M.globalValues.find? (fun X => decide (X.id = G.id)) with
  | none =>
    have := List.find?_eq_none.mp h G hG
    simp at this
  | some Y =>
    have hY := List.mem_of_find?_eq_some h
    have hid : Y.id = G.id := by simpa using List.find?_some h
    rw [eq_of_id_eq M hids G Y hG hY hid]

theorem getName_eq_empty_or (M : Module) (F : GlobalId) :
    M.getName F = "" ∨ ∃ G ∈ M.globalValues, G.id = F ∧ M.getName F = G.getName := by
  unfold Module.getName
  cases h : M.globalValues.find? (fun X => decide (X.id = F)) with
  | none => exact Or.inl rfl
  | some Y =>
    exact Or.inr ⟨Y, List.mem_of_find?_eq_some h, by simpa using List.find?_some h, rfl⟩

/-- lookup by name of the name of the identity `F` gives `F` -/
theorem lookup_by_name_id (M : Module) (hwf : M.WellFormed) (F G : GlobalId)
    (h : (M.getNamedValue (M.getName F)).map GlobalValue.id = some G) :
    G = F ∧ ∃ X ∈ M.globalValues, X.id = F ∧ X.getName ≠ "" := by
  cases hl : M.getNamedValue (M.getName F) with
  | none => rw [hl] at h; cases h
  | some Y =>
    rw [hl] at h
    simp only [Option.map_some', Option.some.injEq] at h
    obtain ⟨hY, hYn, hne⟩ := getNamedValue_some M _ Y hl
    rcases getName_eq_empty_or M F with he | ⟨X, hX, hXid, hXn⟩
    · exact absurd he hne
    · have : Y = X := eq_of_name_eq M hwf.2 Y X hY hX (by rw [hYn, hXn])
        (by rw [hYn]; exact hne)
      subst this
      exact ⟨by rw [← h, hXid], Y, hX, hXid, by rw [hYn]; exact hne⟩

theorem lookup_closure_member (M : Module) (hwf : M.WellFormed) (X : GlobalValue)
    (hX : X ∈ M.globalValues) (G : GlobalId)
    (h : (M.getNamedValue X.getName).map GlobalValue.id = some G) :
    G = X.id ∧ X.getName ≠ "" := by
  cases hl : M.getNamedValue X.getName with
  | none => rw [hl] at h; cases h
  | some Y =>
    rw [hl] at h
    simp only [Option.map_some', Option.some.injEq] at h
    obtain ⟨hY, hYn, hne⟩ := getNamedValue_some M _ Y hl
    have : Y = X := eq_of_name_eq M hwf.2 Y X hY hX hYn (by rw [hYn]; exact hne)
    subst this
    exact ⟨h.symm, hne⟩

theorem withName_id (n : String) (X : GlobalValue) : (X.withName n).id = X.id := by
  cases X <;> rfl

theorem withName_withName (n m : String) (X : GlobalValue) :
    (X.withName n).withName m = X.withName m := by
  cases X <;> rfl

theorem withName_getName (X : GlobalValue) : X.withName X.getName = X := by
  cases X <;> rfl

theorem getName_withName (n : String) (X : GlobalValue) : (X.withName n).getName = n := by
  cases X <;> rfl

theorem withName_isDeclaration (n : String) (X : GlobalValue) :
    (X.withName n).isDeclaration = X.isDeclaration := by
  cases X <;> rfl

theorem withName_hasExternalLinkage (n : String) (X : GlobalValue) :
    (X.withName n).hasExternalLinkage = X.hasExternalLinkage := by
  cases X <;> rfl

theorem makeExternalDeclaration_id (X : GlobalValue) : X.makeExternalDeclaration.id = X.id := by
  cases X <;> rfl

theorem makeExternalDeclaration_getName (X : GlobalValue) :
    X.makeExternalDeclaration.getName = X.getName := by
  cases X <;> rfl

theorem makeExternalDeclaration_idem (X : GlobalValue) :
    X.makeExternalDeclaration.makeExternalDeclaration = X.makeExternalDeclaration := by
  cases X <;> rfl

theorem makeExternalDeclaration_isDeclaration (X : GlobalValue) :
    X.makeExternalDeclaration.isDeclaration = true := by
  cases X <;> rfl

theorem makeExternalDeclaration_hasExternalLinkage (X : GlobalValue) :
    X.makeExternalDeclaration.hasExternalLinkage = true := by
  cases X <;> rfl

theorem GVMakeExternalDeclaration_globalValues (GV : GlobalId) (M : Module) :
    (GVMakeExternalDeclaration GV M).globalValues =
      M.globalValues.map (fun X => if X.id = GV then X.makeExternalDeclaration else X) := by
  unfold GVMakeExternalDeclaration Module.globalValues
  simp only [List.map_append, List.map_map]
  congr 1
  · apply List.map_congr_left
    intro g _
    simp only [Function.comp, GlobalValue.id]
    split_ifs <;> rfl
  · apply List.map_congr_left
    intro f _
    simp only [Function.comp, GlobalValue.id]
    split_ifs <;> rfl

theorem foldl_GVMakeExternalDeclaration_globalValues (ids : List GlobalId) (M : Module) :
    (ids.foldl (fun C GV => GVMakeExternalDeclaration GV C) M).globalValues =
      M.globalValues.map (fun X => if X.id ∈ ids then X.makeExternalDeclaration else X) := by
  induction ids generalizing M with
  | nil => simp
  | cons a ids ih =>
    rw [List.foldl_cons, ih, GVMakeExternalDeclaration_globalValues, List.map_map]
    apply List.map_congr_left
    intro X _
    simp only [Function.comp, List.mem_cons]
    by_cases h1 : X.id = a
    · rw [if_pos h1, if_pos (Or.inl h1)]
      simp only [makeExternalDeclaration_id, makeExternalDeclaration_idem, ite_self]
    · rw [if_neg h1]
      by_cases h2 : X.id ∈ ids
      · rw [if_pos h2, if_pos (Or.inr h2)]
      · rw [if_neg h2, if_neg (by simp [h1, h2])]

theorem renameFunction_globalValues (M : Module) (F : GlobalId) (n : String) :
    ((M.renameFunction F n).renameGlobal F n).globalValues =
      M.globalValues.map (fun X => if X.id = F then X.withName n else X) := by
  unfold Module.renameFunction Module.renameGlobal Module.globalValues
  simp only [List.map_append, List.map_map]
  congr 1
  · apply List.map_congr_left
    intro g _
    simp only [Function.comp, GlobalValue.id]
    split_ifs <;> rfl
  · apply List.map_congr_left
    intro f _
    simp only [Function.comp, GlobalValue.id]
    split_ifs <;> rfl

theorem setName_globalValues (M : Module) (GV : GlobalId) (Name : String) :
    (M.setName GV Name).globalValues = M.globalValues.map (fun X =>
      if X.id = GV then
        X.withName (createValueName ((M.renameFunction GV "").renameGlobal GV "").names
          M.LastUnique Name).1
      else X) := by
  unfold Module.setName
  show (((M.renameFunction GV "").renameGlobal GV "").renameFunction GV _ |>.renameGlobal GV _).globalValues = _
  rw [renameFunction_globalValues, renameFunction_globalValues, List.map_map]
  apply List.map_congr_left
  intro X _
  simp only [Function.comp]
  by_cases h : X.id = GV
  · have h' : (X.withName "").id = GV := by rw [withName_id]; exact h
    simp only [if_pos h, if_pos h', withName_withName]
    rfl
  · simp only [if_neg h]

theorem foldl_renameWithSuffix_globalValues (ids : List GlobalId) (M : Module) :
    ∃ φ : GlobalValue → GlobalValue,
      (∀ X, X.id ∉ ids → φ X = X) ∧ (∀ X, ∃ n, φ X = X.withName n) ∧
      (ids.foldl (fun C GV => renameWithSuffix GV C) M).globalValues = M.globalValues.map φ := by
  induction ids generalizing M with
  | nil => exact ⟨id, fun _ _ => rfl, fun X => ⟨X.getName, (withName_getName X).symm⟩, by simp⟩
  | cons a ids ih =>
    obtain ⟨φ, h1, h2, h3⟩ := ih (renameWithSuffix a M)
    rw [List.foldl_cons, h3]
    unfold renameWithSuffix
    rw [setName_globalValues, List.map_map]
    refine ⟨_, ?_, ?_, rfl⟩
    · intro X hX
      simp only [List.mem_cons, not_or] at hX
      simp only [Function.comp]
      rw [if_neg hX.1]
      exact h1 X hX.2
    · intro X
      simp only [Function.comp]
      by_cases h : X.id = a
      · rw [if_pos h]
        obtain ⟨n, hn⟩ := h2 (X.withName (createValueName
          ((M.renameFunction a "").renameGlobal a "").names M.LastUnique (M.getName a ++ "__")).1)
        exact ⟨n, by rw [hn, withName_withName]⟩
      · rw [if_neg h]
        exact h2 X

theorem runPasses_functions (Named : List GlobalId) (M : Module) :
    ∀ f' ∈ (runPasses Named M).functions, ∃ f ∈ M.functions,
      f'.id = f.id ∧ f'.name = f.name ∧ (f'.blocks ≠ [] → f.id ∈ Named) ∧
      (f.id ∈ Named → f'.blocks = f.blocks) := by
  intro f' hf'
  have h1 : f' ∈ (GVExtractionPass Named M).functions := by
    unfold runPasses StripDeadPrototypesPass GlobalDCEPass at hf'
    exact (List.mem_filter.mp (List.mem_filter.mp hf').1).1
  unfold GVExtractionPass at h1
  obtain ⟨f, hf, hfe⟩ := List.mem_map.mp h1
  clear h1 hf'
  refine ⟨f, hf, ?_⟩
  subst hfe
  by_cases hn : f.id ∈ Named
  · have hc : Named.contains f.id = true := by simpa using hn
    simp only [hc, Bool.not_true, Bool.false_and, Bool.not_false, Bool.true_and,
      Bool.false_eq_true, if_false]
    split_ifs <;> simp [hn]
  · have hc : Named.contains f.id = false := by simpa using hn
    simp only [hc, Bool.not_false, Bool.true_and]
    cases hb : f.blocks with
    | nil => split_ifs <;> simp [hb, hn]
    | cons b bs => simp [hb, hn]

theorem runPasses_globals (Named : List GlobalId) (M : Module) :
    ∀ g' ∈ (runPasses Named M).globals, ∃ g ∈ M.globals,
      g'.id = g.id ∧ g'.name = g.name ∧ (g'.initializer ≠ none → g.id ∈ Named) := by
  intro g' hg'
  have h1 : g' ∈ (GVExtractionPass Named M).globals := by
    unfold runPasses StripDeadPrototypesPass GlobalDCEPass at hg'
    exact (List.mem_filter.mp (List.mem_filter.mp hg').1).1
  unfold GVExtractionPass at h1
  obtain ⟨g, hg, hge⟩ := List.mem_map.mp h1
  clear h1 hg'
  refine ⟨g, hg, ?_⟩
  subst hge
  by_cases hn : g.id ∈ Named
  · have hc : Named.contains g.id = true := by simpa using hn
    simp only [hc, Bool.not_true, Bool.false_and, Bool.not_false, Bool.true_and,
      Bool.false_eq_true, if_false]
    split_ifs <;> simp [hn]
  · have hc : Named.contains g.id = false := by simpa using hn
    simp only [hc, Bool.not_false, Bool.true_and]
    cases hb : g.initializer with
    | none => split_ifs <;> simp [hb, hn]
    | some b => simp [hb, hn]

theorem mem_globalValues (M : Module) (X : GlobalValue) :
    X ∈ M.globalValues ↔
      (∃ g ∈ M.globals, X = .variable g) ∨ (∃ f ∈ M.functions, X = .function f) := by
  unfold Module.globalValues
  simp only [List.mem_append, List.mem_map]
  constructor
  · rintro (⟨g, hg, rfl⟩ | ⟨f, hf, rfl⟩)
    · exact Or.inl ⟨g, hg, rfl⟩
    · exact Or.inr ⟨f, hf, rfl⟩
  · rintro (⟨g, hg, rfl⟩ | ⟨f, hf, rfl⟩)
    · exact Or.inl ⟨g, hg, rfl⟩
    · exact Or.inr ⟨f, hf, rfl⟩

theorem runPasses_globalValues (Named : List GlobalId) (M : Module) :
    ∀ X' ∈ (runPasses Named M).globalValues, ∃ X ∈ M.globalValues,
      X'.id = X.id ∧ X'.getName = X.getName ∧ (X'.isDeclaration = false → X.id ∈ Named) := by
  intro X' hX'
  rcases (mem_globalValues _ _).mp hX' with ⟨g', hg', rfl⟩ | ⟨f', hf', rfl⟩
  · obtain ⟨g, hg, h1, h2, h3⟩ := runPasses_globals Named M g' hg'
    refine ⟨.variable g, (mem_globalValues _ _).mpr (Or.inl ⟨g, hg, rfl⟩), h1, h2, ?_⟩
    intro hd
    apply h3
    intro hnone
    simp [GlobalValue.isDeclaration, hnone] at hd
  · obtain ⟨f, hf, h1, h2, h3, _⟩ := runPasses_functions Named M f' hf'
    refine ⟨.function f, (mem_globalValues _ _).mpr (Or.inr ⟨f, hf, rfl⟩), h1, h2, ?_⟩
    intro hd
    apply h3
    intro hnil
    simp [GlobalValue.isDeclaration, hnil] at hd

theorem filterMap_id_map_some {α β : Type} (f : α → β) (L : List α) :
    (L.map (fun a => some (f a))).filterMap id = L.map f := by
  induction L with
  | nil => rfl
  | cons a L ih => simp [List.filterMap_cons, ih]

theorem fragment_structure (Fun2Extract : FunToInlineMap) (M JitM : Module)
    (log : List Diagnostic) (hwf : M.WellFormed)
    (hrun : GetModuleForJITCompilation Fun2Extract M = some (some JitM, log)) :
    ∃ (Globals : SmallPtrSet) (φ : GlobalValue → GlobalValue),
      getReferencedGlobals M Fun2Extract = some (Globals, log) ∧
      (∀ G ∈ Globals, G ∈ M.globalValues ∧ Fun2Extract.count G.dynCastFunction = 0 ∧
        G.hasExternalLinkage = true ∧ G.getName ≠ "") ∧
      (∀ F ∈ GetFunctions Fun2Extract, ∃ X ∈ M.globalValues, X.id = F ∧ X.getName ≠ "") ∧
      (∀ G ∈ Globals.map GlobalValue.id ++ GetFunctions Fun2Extract,
        ∃ X ∈ (runPasses (Globals.map GlobalValue.id ++ GetFunctions Fun2Extract) M).globalValues,
          X.id = G) ∧
      (∀ X, X.id ∉ GetFunctions Fun2Extract → φ X = X) ∧
      (∀ X, ∃ n, φ X = X.withName n) ∧
      JitM.globalValues =
        ((runPasses (Globals.map GlobalValue.id ++ GetFunctions Fun2Extract) M).globalValues.map
          (fun X => if X.id ∈ Globals.map GlobalValue.id then X.makeExternalDeclaration else X)).map φ := by
  obtain ⟨Globals, hcl, hall, hpres, hJ⟩ := GetModuleForJITCompilation_inv Fun2Extract M JitM log hrun
  have hne : Fun2Extract ≠ [] := by
    rintro rfl
    simp [getReferencedGlobals] at hcl
  obtain ⟨Globals', log', hcl', h1, -, -, -⟩ := getReferencedGlobals_spec M Fun2Extract hne
  rw [hcl] at hcl'
  simp only [Option.some.injEq, Prod.mk.injEq] at hcl'
  obtain ⟨rfl, rfl⟩ := hcl'
  have hclo : ∀ G ∈ Globals,
      (M.getNamedValue G.getName).map GlobalValue.id = some G.id ∧ G.getName ≠ "" := by
    intro G hG
    obtain ⟨G', hG', -⟩ := hpres ((M.getNamedValue G.getName).map GlobalValue.id)
      (List.mem_append_left _ (List.mem_map.mpr ⟨G, hG, rfl⟩))
    obtain ⟨hid, hn⟩ := lookup_closure_member M hwf G (h1 G hG).1 G' hG'
    exact ⟨by rw [hG', hid], hn⟩
  have hcan : ∀ F ∈ GetFunctions Fun2Extract,
      (M.getNamedValue (M.getName F)).map GlobalValue.id = some F ∧
        ∃ X ∈ M.globalValues, X.id = F ∧ X.getName ≠ "" := by
    intro F hF
    obtain ⟨G', hG', -⟩ := hpres ((M.getNamedValue (M.getName F)).map GlobalValue.id)
      (List.mem_append_right _ (List.mem_map.mpr ⟨F, hF, rfl⟩))
    obtain ⟨hid, hX⟩ := lookup_by_name_id M hwf F G' hG'
    exact ⟨by rw [hG', hid], hX⟩
  have e1 : closureInClone M Globals = Globals.map (fun G => some G.id) := by
    unfold closureInClone
    exact List.map_congr_left (fun G hG => (hclo G hG).1)
  have e2 : candidatesInClone M Fun2Extract = (GetFunctions Fun2Extract).map (fun F => some (id F)) := by
    unfold candidatesInClone
    exact List.map_congr_left (fun F hF => (hcan F hF).1)
  have e1' : (closureInClone M Globals).filterMap id = Globals.map GlobalValue.id := by
    rw [e1]; exact filterMap_id_map_some GlobalValue.id Globals
  have e2' : (candidatesInClone M Fun2Extract).filterMap id = GetFunctions Fun2Extract := by
    rw [e2, filterMap_id_map_some]; simp
  have ec : cleanedClone M Globals Fun2Extract =
      runPasses (Globals.map GlobalValue.id ++ GetFunctions Fun2Extract) M := by
    unfold cleanedClone
    rw [List.filterMap_append, e1', e2']
  obtain ⟨φ, hφ1, hφ2, hφ3⟩ := foldl_renameWithSuffix_globalValues
    (GetFunctions Fun2Extract) (declaredClone M Globals Fun2Extract)
  refine ⟨Globals, φ, hcl, ?_, ?_, ?_, hφ1, hφ2, ?_⟩
  · intro G hG
    exact ⟨(h1 G hG).1, (h1 G hG).2.1, List.all_eq_true.mp hall G hG, (hclo G hG).2⟩
  · intro F hF
    exact (hcan F hF).2
  · intro G hG
    rw [← ec]
    rcases List.mem_append.mp hG with hG | hG
    · obtain ⟨X, hX, rfl⟩ := List.mem_map.mp hG
      obtain ⟨G', hG', hex⟩ := hpres (some X.id)
        (List.mem_append_left _ (by rw [e1]; exact List.mem_map.mpr ⟨X, hX, rfl⟩))
      cases hG'
      exact hex
    · obtain ⟨G', hG', hex⟩ := hpres (some G)
        (List.mem_append_right _ (by rw [e2]; exact List.mem_map.mpr ⟨G, hG, rfl⟩))
      cases hG'
      exact hex
  · rw [hJ, e2', hφ3]
    unfold declaredClone
    rw [foldl_GVMakeExternalDeclaration_globalValues, e1', ec]

/-! ## Lemmas on the stages of `CreateJITHook` -/

theorem CreateJITHook_inv (env : Env) (F : GlobalId) (Params : List Value)
    (BitcodeGV : GlobalId) (M M' : Module) (log : List Diagnostic)
    (hrun : CreateJITHook env F Params BitcodeGV M = some (M', log)) :
    ∃ (f jitHook endHook hook0 : Function) (bitcode : GlobalVariable) (optlevel : Int)
      (NumElements : Nat) (elemTy : Ty),
      M.getFunction F = some f ∧
      (declaredJITHookEnd env M f F).1.getFunction (declaredJITHook env M f F).2 = some jitHook ∧
      (declaredJITHookEnd env M f F).1.getFunction (declaredJITHookEnd env M f F).2 =
        some endHook ∧
      (declaredJITHookEnd env M f F).1.getFunction M.freshId = some hook0 ∧
      (nameStored env M f F).1.getGlobalVariable BitcodeGV = some bitcode ∧
      optlevelOf Params = some optlevel ∧
      bitcode.valueType = .array NumElements elemTy ∧
      M' = ((nameStored env M f F).1.setBlocks M.freshId
        [{ name := "entry",
           insts := hookEntry env M f F Params BitcodeGV bitcode.valueType NumElements optlevel
             jitHook.retTy }]).eraseFunction F ∧
      log = [.dump M'] := by
  unfold CreateJITHook at hrun
  split at hrun
  · exact absurd hrun (by simp)
  · rename_i f hF
    simp only at hrun
    split at hrun
    · rename_i jitHook endHook hook0 hjit hend hhook
      split at hrun
      · rename_i bitcode optlevel hbit hopt
        split at hrun
        · rename_i NumElements elemTy hty
          simp only [Option.some.injEq, Prod.mk.injEq] at hrun
          obtain ⟨hM', hlog⟩ := hrun
          refine ⟨f, jitHook, endHook, hook0, bitcode, optlevel, NumElements, elemTy,
            hF, hjit, hend, hhook, hbit, hopt, hty, hM'.symm, ?_⟩
          rw [← hlog, hM']
        · exact absurd hrun (by simp)
      · exact absurd hrun (by simp)
    · exact absurd hrun (by simp)

theorem CreateJITHook_of (env : Env) (F : GlobalId) (Params : List Value)
    (BitcodeGV : GlobalId) (M : Module)
    (f jitHook endHook hook0 : Function) (bitcode : GlobalVariable) (optlevel : Int)
    (NumElements : Nat) (elemTy : Ty)
    (hF : M.getFunction F = some f)
    (hjit : (declaredJITHookEnd env M f F).1.getFunction (declaredJITHook env M f F).2 =
      some jitHook)
    (hend : (declaredJITHookEnd env M f F).1.getFunction (declaredJITHookEnd env M f F).2 =
      some endHook)
    (hhook : (declaredJITHookEnd env M f F).1.getFunction M.freshId = some hook0)
    (hbit : (nameStored env M f F).1.getGlobalVariable BitcodeGV = some bitcode)
    (hopt : optlevelOf Params = some optlevel)
    (hty : bitcode.valueType = .array NumElements elemTy) :
    ∃ M' log, CreateJITHook env F Params BitcodeGV M = some (M', log) := by
  unfold CreateJITHook
  rw [hF]
  simp only
  have hjit' := hjit
  have hend' := hend
  have hhook' := hhook
  have hbit' := hbit
  unfold declaredJITHookEnd declaredJITHook hookInstalled at hjit' hend' hhook'
  unfold nameStored declaredJITHookEnd declaredJITHook hookInstalled at hbit'
  simp only at hjit' hend' hhook' hbit'
  have hH : (M.createFunction f.retTy f.paramTys f.isVarArg f.linkage "hook").2 = M.freshId := rfl
  rw [hH]
  rw [hH] at hjit' hend' hhook' hbit'
  rw [hjit', hend', hhook']
  simp only
  rw [hbit', hopt]
  simp only
  rw [hty]
  exact ⟨_, _, rfl⟩

theorem find?_map_key {α : Type} (key : α → Nat) (φ : α → α) (hφ : ∀ a, key (φ a) = key a)
    (L : List α) (G : Nat) :
    (L.map φ).find? (fun a => decide (key a = G)) =
      (L.find? (fun a => decide (key a = G))).map φ := by
  rw [List.find?_map]
  congr 2
  funext a
  simp [hφ]

theorem find?_append_some {α : Type} (p : α → Bool) (L R : List α) (a : α)
    (h : L.find? p = some a) : (L ++ R).find? p = some a := by
  rw [List.find?_append, h]
  rfl

theorem replaceAllUsesWith_functions (M : Module) (Old New : Value) :
    (M.replaceAllUsesWith Old New).functions = M.functions.map (Function.replaceUses Old New) :=
  rfl

theorem replaceAllUsesWith_globals (M : Module) (Old New : Value) :
    (M.replaceAllUsesWith Old New).globals =
      M.globals.map (GlobalVariable.replaceUses Old New) :=
  rfl

theorem find?_ne_freshId (M : Module) (L : List Function) (hL : ∀ g ∈ L, g.id < M.freshId) :
    L.find? (fun g => decide (g.id = M.freshId)) = none := by
  rw [List.find?_eq_none]
  intro g hg
  have := hL g hg
  simpa using Nat.ne_of_lt this

theorem hookInstalled_functions (M : Module) (f : Function) (F : GlobalId)
    (hF : M.getFunction F = some f) :
    (hookInstalled M f F).functions =
      M.functions.map (fun g =>
        if g.id = F then { Function.replaceUses (.global F) (.global M.freshId) g with name := "" }
        else Function.replaceUses (.global F) (.global M.freshId) g) ++
      [{ id := M.freshId, name := f.name, linkage := f.linkage, retTy := f.retTy,
         paramTys := f.paramTys, isVarArg := f.isVarArg, blocks := [] }] := by
  obtain ⟨hfmem, hfid⟩ := getFunction_some M F f hF
  have hlt : F < M.freshId := by
    rw [← hfid]; exact function_id_lt_freshId M f hfmem
  have hget : ((M.createFunction f.retTy f.paramTys f.isVarArg f.linkage "hook").1.replaceAllUsesWith
      (.global F) (.global M.freshId)).getFunction F =
      some (Function.replaceUses (.global F) (.global M.freshId) f) := by
    unfold Module.getFunction
    rw [replaceAllUsesWith_functions]
    rw [find?_map_key Function.id (Function.replaceUses (.global F) (.global M.freshId))
      (fun _ => rfl)]
    show Option.map _ ((M.functions ++ [_]).find? _) = _
    rw [find?_append_some _ _ _ _ hF]
    rfl
  unfold hookInstalled
  show Module.functions (Module.takeName _ M.freshId F) = _
  unfold Module.takeName
  simp only [show (M.createFunction f.retTy f.paramTys f.isVarArg f.linkage "hook").2 =
    M.freshId from rfl]
  rw [hget]
  show List.map _ (List.map _ (List.map _ (M.functions ++ [_]))) = _
  rw [List.map_append, List.map_append, List.map_append]
  congr 1
  · rw [List.map_map, List.map_map]
    apply List.map_congr_left
    intro g hg
    have hgne : g.id ≠ M.freshId := Nat.ne_of_lt (function_id_lt_freshId M g hg)
    by_cases hgF : g.id = F
    · simp [Function.replaceUses, hgF, Nat.ne_of_lt hlt]
    · simp [Function.replaceUses, hgF, hgne]
  · have hne : M.freshId ≠ F := Nat.ne_of_gt hlt
    simp [Function.replaceUses, hne]

theorem hookInstalled_globals (M : Module) (f : Function) (F : GlobalId) :
    (hookInstalled M f F).globals =
      M.globals.map (GlobalVariable.replaceUses (.global F) (.global M.freshId)) := by
  unfold hookInstalled
  simp only
  rw [takeName_globals]
  rfl

theorem declaredJITHookEnd_functions (env : Env) (hdecl : env.DeclareExtends) (M : Module)
    (f : Function) (F : GlobalId) (hF : M.getFunction F = some f) :
    ∃ new, (declaredJITHookEnd env M f F).1.functions = (hookInstalled M f F).functions ++ new ∧
      ∀ g ∈ new, M.freshId < g.id := by
  obtain ⟨-, ⟨n1, h1, f1⟩, -⟩ := hdecl .JitHook (hookInstalled M f F)
  obtain ⟨-, ⟨n2, h2, f2⟩, -⟩ := hdecl .JitHookEnd (declaredJITHook env M f F).1
  obtain ⟨H, hH, hHid⟩ : ∃ H ∈ (hookInstalled M f F).functions, H.id = M.freshId := by
    rw [hookInstalled_functions M f F hF]
    exact ⟨_, List.mem_append_right _ (List.mem_singleton.mpr rfl), rfl⟩
  have hlt1 : M.freshId < (hookInstalled M f F).freshId := by
    rw [← hHid]; exact function_id_lt_freshId _ _ hH
  have hlt2 : M.freshId < (declaredJITHook env M f F).1.freshId := by
    rw [← hHid]
    apply function_id_lt_freshId (declaredJITHook env M f F).1 H
    unfold declaredJITHook
    rw [h1]
    exact List.mem_append_left _ hH
  refine ⟨n1 ++ n2, ?_, ?_⟩
  · unfold declaredJITHookEnd
    rw [h2]
    unfold declaredJITHook
    rw [h1, List.append_assoc]
  · intro g hg
    rcases List.mem_append.mp hg with hg | hg
    · exact Nat.lt_of_lt_of_le hlt1 (f1 g hg)
    · exact Nat.lt_of_lt_of_le hlt2 (f2 g hg)

theorem declaredJITHookEnd_globals (env : Env) (hdecl : env.DeclareExtends) (M : Module)
    (f : Function) (F : GlobalId) :
    (declaredJITHookEnd env M f F).1.globals =
      M.globals.map (GlobalVariable.replaceUses (.global F) (.global M.freshId)) := by
  unfold declaredJITHookEnd
  rw [(hdecl _ _).1]
  unfold declaredJITHook
  rw [(hdecl _ _).1, hookInstalled_globals]

theorem makeUniqueName_data (taken : List String) (Name : String) (fuel LastUnique : Nat) :
    ∃ k : Nat, (makeUniqueName taken Name fuel LastUnique).1 = Name ++ "." ++ toString k := by
  induction fuel generalizing LastUnique with
  | zero => exact ⟨LastUnique + 1, rfl⟩
  | succ fuel ih =>
    unfold makeUniqueName
    simp only
    split_ifs
    · exact ih (LastUnique + 1)
    · exact ⟨LastUnique + 1, rfl⟩

theorem createValueName_fun_name_ne (taken : List String) (LastUnique : Nat) :
    (createValueName taken LastUnique ".easy_jit_fun_name").1 ≠ EmbeddedModuleName := by
  unfold createValueName
  rw [if_neg (by decide)]
  split_ifs
  · obtain ⟨k, hk⟩ := makeUniqueName_data taken ".easy_jit_fun_name" (taken.length + 1) LastUnique
    rw [hk]
    intro h
    have hd := congrArg String.data h
    simp only [String.data_append] at hd
    have h0 := congrArg List.head? hd
    simp [EmbeddedModuleName] at h0
  · show ".easy_jit_fun_name" ≠ EmbeddedModuleName
    decide

theorem nameStored_functions (env : Env) (M : Module) (f : Function) (F : GlobalId) :
    (nameStored env M f F).1.functions = (declaredJITHookEnd env M f F).1.functions := rfl

theorem nameStored_globals (env : Env) (hdecl : env.DeclareExtends) (M : Module)
    (f : Function) (F : GlobalId) :
    ∃ nm : String, (nameStored env M f F).1.globals =
      M.globals.map (GlobalVariable.replaceUses (.global F) (.global M.freshId)) ++
        [{ id := (declaredJITHookEnd env M f F).1.freshId, name := nm,
           linkage := .InternalLinkage,
           valueType := .array ((stringBytes f.name).length + 1) (.integer 8),
           isConstant := true,
           initializer := some (.dataArray (stringBytes f.name ++ [0])) }] ∧
      nm ≠ EmbeddedModuleName := by
  refine ⟨(createValueName (declaredJITHookEnd env M f F).1.names
    (declaredJITHookEnd env M f F).1.LastUnique ".easy_jit_fun_name").1, ?_,
    createValueName_fun_name_ne _ _⟩
  unfold nameStored Module.newGlobalVariable
  simp only
  rw [declaredJITHookEnd_globals env hdecl]
  simp [ConstantDataArray.getString]

theorem CreateJITHook_result (env : Env) (hdecl : env.DeclareExtends) (F : GlobalId)
    (Params : List Value) (BitcodeGV : GlobalId) (M M' : Module) (log : List Diagnostic)
    (hrun : CreateJITHook env F Params BitcodeGV M = some (M', log)) :
    ∃ (f jitHook : Function) (bitcode : GlobalVariable) (optlevel : Int)
      (NumElements : Nat) (elemTy : Ty) (new : List Function) (nm : String),
      M.getFunction F = some f ∧
      optlevelOf Params = some optlevel ∧
      (M.globals.map (GlobalVariable.replaceUses (.global F) (.global M.freshId)) ++
        [({ id := (declaredJITHookEnd env M f F).1.freshId, name := nm,
            linkage := .InternalLinkage,
            valueType := .array ((stringBytes f.name).length + 1) (.integer 8),
            isConstant := true,
            initializer := some (.dataArray (stringBytes f.name ++ [0])) } : GlobalVariable)]).find?
          (fun g => decide (g.id = BitcodeGV)) = some bitcode ∧
      bitcode.valueType = .array NumElements elemTy ∧
      M'.globals =
        M.globals.map (GlobalVariable.replaceUses (.global F) (.global M.freshId)) ++
        [({ id := (declaredJITHookEnd env M f F).1.freshId, name := nm,
            linkage := .InternalLinkage,
            valueType := .array ((stringBytes f.name).length + 1) (.integer 8),
            isConstant := true,
            initializer := some (.dataArray (stringBytes f.name ++ [0])) } : GlobalVariable)] ∧
      M'.functions =
        (((M.functions.map (fun (g : Function) =>
            if g.id = F then
              { Function.replaceUses (.global F) (.global M.freshId) g with name := "" }
            else Function.replaceUses (.global F) (.global M.freshId) g) ++
          [({ id := M.freshId, name := f.name, linkage := f.linkage, retTy := f.retTy,
              paramTys := f.paramTys, isVarArg := f.isVarArg, blocks := [] } : Function)]) ++
            new).map
          (fun (g : Function) => if g.id = M.freshId then
            { g with blocks := [BasicBlock.mk "entry"
                (hookEntry env M f F Params BitcodeGV bitcode.valueType NumElements
                  optlevel jitHook.retTy)] }
            else g)).filter (fun g => decide (g.id ≠ F)) ∧
      (∀ g ∈ new, M.freshId < g.id) ∧ nm ≠ EmbeddedModuleName := by
  obtain ⟨f, jitHook, endHook, hook0, bitcode, optlevel, NumElements, elemTy, hF, -, -, -,
    hbit, hopt, hty, hM', -⟩ := CreateJITHook_inv env F Params BitcodeGV M M' log hrun
  obtain ⟨new, hnew, hfresh⟩ := declaredJITHookEnd_functions env hdecl M f F hF
  obtain ⟨nm, hnm, hnmne⟩ := nameStored_globals env hdecl M f F
  refine ⟨f, jitHook, bitcode, optlevel, NumElements, elemTy, new, nm, hF, hopt, ?_, hty, ?_, ?_,
    hfresh, hnmne⟩
  · rw [← hnm]; exact hbit
  · rw [hM', ← hnm]; rfl
  · rw [hM', ← hookInstalled_functions M f F hF, ← hnew, ← nameStored_functions]
    rfl

theorem find?_filter_ne (L : List Function) (F G : GlobalId) (hne : G ≠ F) :
    (L.filter (fun g => decide (g.id ≠ F))).find? (fun g => decide (g.id = G)) =
      L.find? (fun g => decide (g.id = G)) := by
  rw [List.find?_filter]
  congr 1
  funext a
  by_cases h : a.id = G
  · simp [h, hne]
  · simp [h]

theorem CreateJITHook_spec (env : Env) (hdecl : env.DeclareExtends) (F : GlobalId)
    (Params : List Value) (BitcodeGV : GlobalId) (M M' : Module) (log : List Diagnostic)
    (hrun : CreateJITHook env F Params BitcodeGV M = some (M', log)) :
    ∃ (f : Function) (HandleTy : Ty) (bitcode nameGV : GlobalVariable) (optlevel : Int)
      (NumElements : Nat) (elemTy : Ty),
      M.getFunction F = some f ∧
      optlevelOf Params = some optlevel ∧
      bitcode.valueType = .array NumElements elemTy ∧
      (∀ b, M.getGlobalVariable BitcodeGV = some b →
        bitcode = GlobalVariable.replaceUses (.global F) (.global M.freshId) b) ∧
      M'.getFunction M.freshId =
        some { id := M.freshId, name := f.name, linkage := f.linkage, retTy := f.retTy,
               paramTys := f.paramTys, isVarArg := f.isVarArg,
               blocks := [BasicBlock.mk "entry"
                 (hookEntry env M f F Params BitcodeGV bitcode.valueType NumElements
                   optlevel HandleTy)] } ∧
      (∀ G g, G ≠ F → M.getFunction G = some g →
        M'.getFunction G = some (Function.replaceUses (.global F) (.global M.freshId) g)) ∧
      (∀ g ∈ M'.functions, g.id ≠ F) ∧
      M'.globals =
        M.globals.map (GlobalVariable.replaceUses (.global F) (.global M.freshId)) ++ [nameGV] ∧
      nameGV.isConstant = true ∧ nameGV.linkage = .InternalLinkage ∧
      nameGV.initializer = some (.dataArray (stringBytes f.name ++ [0])) ∧
      nameGV.valueType = .array ((stringBytes f.name).length + 1) (.integer 8) ∧
      nameGV.id = (declaredJITHookEnd env M f F).1.freshId ∧
      nameGV.name ≠ EmbeddedModuleName ∧
      (∀ g ∈ M'.functions, (∃ g0 ∈ M.functions, g0.id = g.id) ∨ M.freshId ≤ g.id) := by
  obtain ⟨f, jitHook, bitcode, optlevel, NumElements, elemTy, new, nm, hF, hopt, hbit, hty,
    hglob, hfun, hfresh, hnmne⟩ := CreateJITHook_result env hdecl F Params BitcodeGV M M' log hrun
  obtain ⟨hfmem, hfid⟩ := getFunction_some M F f hF
  have hlt : F < M.freshId := by
    rw [← hfid]; exact function_id_lt_freshId M f hfmem
  have hne : M.freshId ≠ F := Nat.ne_of_gt hlt
  refine ⟨f, jitHook.retTy, bitcode, _, optlevel, NumElements, elemTy, hF, hopt, hty, ?_, ?_, ?_,
    ?_, hglob, rfl, rfl, rfl, rfl, rfl, hnmne, ?_⟩
  · intro b hb
    have : (M.globals.map (GlobalVariable.replaceUses (.global F) (.global M.freshId))).find?
        (fun g => decide (g.id = BitcodeGV)) =
        some (GlobalVariable.replaceUses (.global F) (.global M.freshId) b) := by
      rw [find?_map_key GlobalVariable.id
        (GlobalVariable.replaceUses (.global F) (.global M.freshId)) (fun _ => rfl)]
      unfold Module.getGlobalVariable at hb
      rw [hb]; rfl
    rw [find?_append_some _ _ _ _ this] at hbit
    exact (Option.some.inj hbit).symm
  · unfold Module.getFunction
    rw [hfun, find?_setBlocks_erase _ _ _ hne]
    have hA : (M.functions.map (fun (g : Function) =>
        if g.id = F then
          { Function.replaceUses (.global F) (.global M.freshId) g with name := "" }
        else Function.replaceUses (.global F) (.global M.freshId) g)).find?
        (fun g => decide (g.id = M.freshId)) = none := by
      rw [List.find?_eq_none]
      intro g hg
      obtain ⟨g0, hg0, rfl⟩ := List.mem_map.mp hg
      have h0 := Nat.ne_of_lt (function_id_lt_freshId M g0 hg0)
      by_cases hc : g0.id = F
      · rw [if_pos hc]; simpa [Function.replaceUses] using h0
      · rw [if_neg hc]; simpa [Function.replaceUses] using h0
    rw [List.append_assoc, List.find?_append, hA]
    simp
  · intro G g hG hg
    obtain ⟨hgmem, hgid⟩ := getFunction_some M G g hg
    have hGne : G ≠ M.freshId := by
      rw [← hgid]; exact Nat.ne_of_lt (function_id_lt_freshId M g hgmem)
    unfold Module.getFunction
    rw [hfun, find?_filter_ne _ _ _ hG,
      find?_map_key Function.id _ (by intro a; split_ifs <;> rfl)]
    have hA : (M.functions.map (fun (g : Function) =>
        if g.id = F then
          { Function.replaceUses (.global F) (.global M.freshId) g with name := "" }
        else Function.replaceUses (.global F) (.global M.freshId) g)).find?
        (fun g => decide (g.id = G)) =
        some (Function.replaceUses (.global F) (.global M.freshId) g) := by
      rw [find?_map_key Function.id _ (by intro a; split_ifs <;> rfl)]
      unfold Module.getFunction at hg
      rw [hg]
      simp only [Option.map_some', Option.some.injEq]
      rw [if_neg (by rw [hgid]; exact hG)]
    rw [List.append_assoc, find?_append_some _ _ _ _ hA]
    simp only [Option.map_some', Option.some.injEq]
    rw [if_neg]
    show g.id ≠ M.freshId
    rw [hgid]; exact hGne
  · intro g hg
    rw [hfun] at hg
    simpa using (List.mem_filter.mp hg).2
  · intro g hg
    rw [hfun] at hg
    obtain ⟨g1, hg1, rfl⟩ := List.mem_map.mp (List.mem_filter.mp hg).1
    have hid : (if g1.id = M.freshId then
        ({ g1 with blocks := [BasicBlock.mk "entry"
          (hookEntry env M f F Params BitcodeGV bitcode.valueType NumElements optlevel
            jitHook.retTy)] } : Function)
        else g1).id = g1.id := by
      split_ifs <;> rfl
    rw [hid]
    rcases List.mem_append.mp hg1 with h1 | h1
    · rcases List.mem_append.mp h1 with h2 | h2
      · obtain ⟨g0, hg0, rfl⟩ := List.mem_map.mp h2
        left
        refine ⟨g0, hg0, ?_⟩
        split_ifs <;> rfl
      · rw [List.mem_singleton.mp h2]
        exact Or.inr (Nat.le_refl _)
    · exact Or.inr (Nat.le_of_lt (hfresh g1 h1))

theorem getGlobalVariable_new_name (M : Module) (valueType : Ty) (isConstant : Bool)
    (linkage : Linkage) (Init : Option Initializer) (Name : String) :
    (M.newGlobalVariable valueType isConstant linkage Init Name).1.getGlobalVariable
        (M.newGlobalVariable valueType isConstant linkage Init Name).2 =
      some { id := M.freshId, name := (createValueName M.names M.LastUnique Name).1,
             linkage := linkage, valueType := valueType,
             isConstant := isConstant, initializer := Init } := by
  unfold Module.newGlobalVariable Module.getGlobalVariable
  simp only
  rw [List.find?_append]
  have : M.globals.find? (fun g => decide (g.id = M.freshId)) = none := by
    rw [List.find?_eq_none]
    intro g hg
    have := global_id_lt_freshId M g hg
    simpa using Nat.ne_of_lt this
  rw [this]
  simp

theorem exampleDeclareNamed_extends (X : Module) (Name : String) (retTy : Ty)
    (paramTys : List Ty) (isVarArg : Bool) :
    (exampleDeclareNamed X Name retTy paramTys isVarArg).1.globals = X.globals ∧
    (∃ new, (exampleDeclareNamed X Name retTy paramTys isVarArg).1.functions =
      X.functions ++ new ∧ ∀ g ∈ new, X.freshId ≤ g.id) ∧
    ∃ h, (exampleDeclareNamed X Name retTy paramTys isVarArg).1.getFunction
      (exampleDeclareNamed X Name retTy paramTys isVarArg).2 = some h := by
  unfold exampleDeclareNamed
  split
  · rename_i f hf
    refine ⟨rfl, ⟨[], by simp, by simp⟩, ?_⟩
    have hmem : f ∈ X.functions := List.mem_of_find?_eq_some hf
    cases h : X.getFunction f.id with
    | none =>
      unfold Module.getFunction at h
      have := List.find?_eq_none.mp h f hmem
      simp at this
    | some g => exact ⟨g, rfl⟩
  · refine ⟨rfl, ⟨[_], rfl, ?_⟩, ?_⟩
    · intro g hg
      rw [List.mem_singleton.mp hg]
    cases h : (X.createFunction retTy paramTys isVarArg .ExternalLinkage Name).1.getFunction
        (X.createFunction retTy paramTys isVarArg .ExternalLinkage Name).2 with
    | none =>
      unfold Module.getFunction at h
      have := List.find?_eq_none.mp h _
        (show _ ∈ (X.createFunction retTy paramTys isVarArg .ExternalLinkage Name).1.functions
          from List.mem_append_right _ (List.mem_singleton.mpr rfl))
      simp [Module.createFunction] at this
    | some g => exact ⟨g, rfl⟩

theorem exampleEnv_declareExtends (select : Module → FunToInlineMap) :
    (exampleEnv select).DeclareExtends := by
  intro k X
  cases k
  · exact exampleDeclareNamed_extends X _ _ _ _
  · exact exampleDeclareNamed_extends X _ _ _ _

theorem replaceUses_referencedGlobals (F Hook : GlobalId) (v : Value) :
    (Value.replaceUses (.global F) (.global Hook) v).referencedGlobals =
      v.referencedGlobals.map (fun x => if x = F then Hook else x) := by
  induction v with
  | argument p i => simp [Value.replaceUses, Value.referencedGlobals]
  | constantInt b v => simp [Value.replaceUses, Value.referencedGlobals]
  | global g =>
    by_cases h : g = F
    · simp [Value.replaceUses, Value.referencedGlobals, h]
    · simp [Value.replaceUses, Value.referencedGlobals, h]
  | constantExpr op v dest ih => simp [Value.replaceUses, Value.referencedGlobals, ih]
  | instruction p i => simp [Value.replaceUses, Value.referencedGlobals]

/-! ## Lemmas on what the passes keep -/

theorem mem_eraseDups_loop (as bs : List GlobalId) (x : GlobalId) :
    x ∈ List.eraseDups.loop as bs ↔ x ∈ as ∨ x ∈ bs := by
  induction as generalizing bs with
  | nil => simp [List.eraseDups.loop]
  | cons a as ih =>
    unfold List.eraseDups.loop
    cases h : List.elem a bs with
    | true =>
      simp only
      rw [ih]
      have ha : a ∈ bs := by simpa using h
      constructor
      · rintro (h1 | h1)
        · exact Or.inl (List.mem_cons_of_mem _ h1)
        · exact Or.inr h1
      · rintro (h1 | h1)
        · rcases List.mem_cons.mp h1 with rfl | h2
          · exact Or.inr ha
          · exact Or.inl h2
        · exact Or.inr h1
    | false =>
      simp only
      rw [ih]
      constructor
      · rintro (h1 | h1)
        · exact Or.inl (List.mem_cons_of_mem _ h1)
        · rcases List.mem_cons.mp h1 with rfl | h2
          · exact Or.inl (List.mem_cons_self _ _)
          · exact Or.inr h2
      · rintro (h1 | h1)
        · rcases List.mem_cons.mp h1 with rfl | h2
          · exact Or.inr (List.mem_cons_self _ _)
          · exact Or.inl h2
        · exact Or.inr (List.mem_cons_of_mem _ h1)

theorem mem_eraseDups (as : List GlobalId) (x : GlobalId) : x ∈ as.eraseDups ↔ x ∈ as := by
  unfold List.eraseDups
  rw [mem_eraseDups_loop]
  simp

theorem markAlive_mono (M : Module) (fuel : Nat) (alive : List GlobalId) (x : GlobalId)
    (h : x ∈ alive) : x ∈ markAlive M fuel alive := by
  induction fuel generalizing alive with
  | zero => exact h
  | succ fuel ih =>
    unfold markAlive
    apply ih
    rw [mem_eraseDups]
    exact List.mem_append_left _ h

theorem markAlive_references (M : Module) (fuel : Nat) (alive : List GlobalId) (x y : GlobalId)
    (hx : x ∈ alive) (hy : y ∈ M.referencesOf x) : y ∈ markAlive M (fuel + 1) alive := by
  unfold markAlive
  apply markAlive_mono
  rw [mem_eraseDups]
  by_cases h : y ∈ alive
  · exact List.mem_append_left _ h
  · apply List.mem_append_right
    rw [List.mem_filter]
    refine ⟨List.mem_flatMap.mpr ⟨x, hx, hy⟩, ?_⟩
    simpa using h

theorem makeVisible_kept (l : Linkage) (h : l ≠ .AvailableExternallyLinkage) :
    makeVisible l false ≠ .AvailableExternallyLinkage ∧
      (makeVisible l false).isDiscardableIfUnused = false := by
  cases l <;> first | exact absurd rfl h | exact ⟨by decide, by decide⟩

theorem GVExtractionPass_candidate (Named : List GlobalId) (M : Module) (f : Function)
    (hf : f ∈ M.functions) (hn : f.id ∈ Named)
    (hl : f.linkage ≠ .AvailableExternallyLinkage) :
    ({ f with linkage := makeVisible f.linkage false } : Function) ∈
      (GVExtractionPass Named M).functions := by
  unfold GVExtractionPass
  simp only
  refine List.mem_map.mpr ⟨f, hf, ?_⟩
  simp [hn, hl]

theorem GVExtractionPass_ids (Named : List GlobalId) (M : Module) (X : GlobalValue)
    (hX : X ∈ M.globalValues) :
    ∃ X1 ∈ (GVExtractionPass Named M).globalValues, X1.id = X.id := by
  have hmap : (GVExtractionPass Named M).globalValues.map GlobalValue.id =
      M.globalValues.map GlobalValue.id := by
    unfold GVExtractionPass Module.globalValues
    simp only [List.map_append, List.map_map]
    congr 1
    · apply List.map_congr_left
      intro g _
      simp only [Function.comp, GlobalValue.id]
      split_ifs <;> rfl
    · apply List.map_congr_left
      intro f _
      simp only [Function.comp, GlobalValue.id]
      split_ifs <;> rfl
  have : X.id ∈ (GVExtractionPass Named M).globalValues.map GlobalValue.id := by
    rw [hmap]; exact List.mem_map.mpr ⟨X, hX, rfl⟩
  obtain ⟨X1, hX1, hid⟩ := List.mem_map.mp this
  exact ⟨X1, hX1, hid⟩

theorem runPasses_keeps (Named : List GlobalId) (M : Module) (f : Function)
    (hf : f ∈ M.functions) (hn : f.id ∈ Named) (hb : f.blocks ≠ [])
    (hl : f.linkage ≠ .AvailableExternallyLinkage) :
    (∃ f1 ∈ (runPasses Named M).functions, f1.id = f.id) ∧
    ∀ G ∈ M.globalValues, (∃ I ∈ f.insts, Value.global G.id ∈ I.operands) →
      ∃ X ∈ (runPasses Named M).globalValues, X.id = G.id := by
  have hf1 := GVExtractionPass_candidate Named M f hf hn hl
  obtain ⟨hv1, hv2⟩ := makeVisible_kept f.linkage hl
  have hbe : f.blocks.isEmpty = false := by
    cases hbb : f.blocks with
    | nil => exact absurd hbb hb
    | cons a l => rfl
  -- the candidate is a root of the liveness analysis
  have hroot : f.id ∈
      ((GVExtractionPass Named M).globals.filter (fun g => g.initializer.isSome &&
        !decide (g.linkage = .AvailableExternallyLinkage) &&
        !g.linkage.isDiscardableIfUnused)).map (fun g => g.id) ++
      ((GVExtractionPass Named M).functions.filter (fun f => !f.blocks.isEmpty &&
        !decide (f.linkage = .AvailableExternallyLinkage) &&
        !f.linkage.isDiscardableIfUnused)).map (fun f => f.id) := by
    apply List.mem_append_right
    refine List.mem_map.mpr ⟨_, List.mem_filter.mpr ⟨hf1, ?_⟩, rfl⟩
    simp [hbe, hv1, hv2]
  have halive := markAlive_mono (GVExtractionPass Named M)
    (GVExtractionPass Named M).globalValues.length _ f.id hroot
  have hf2 : ({ f with linkage := makeVisible f.linkage false } : Function) ∈
      (GlobalDCEPass (GVExtractionPass Named M)).functions := by
    unfold GlobalDCEPass
    simp only
    refine List.mem_filter.mpr ⟨hf1, ?_⟩
    simpa using halive
  have hf3 : ({ f with linkage := makeVisible f.linkage false } : Function) ∈
      (runPasses Named M).functions := by
    unfold runPasses StripDeadPrototypesPass
    simp only
    refine List.mem_filter.mpr ⟨hf2, ?_⟩
    simp [hbe]
  refine ⟨⟨_, hf3, rfl⟩, ?_⟩
  intro G hG ⟨I, hI, hop⟩
  obtain ⟨X1, hX1, hid1⟩ := GVExtractionPass_ids Named M G hG
  have hlen : ∃ k, (GVExtractionPass Named M).globalValues.length = k + 1 := by
    cases hgv : (GVExtractionPass Named M).globalValues with
    | nil => rw [hgv] at hX1; cases hX1
    | cons a l => exact ⟨l.length, rfl⟩
  obtain ⟨k, hk⟩ := hlen
  have href : G.id ∈ (GVExtractionPass Named M).referencesOf f.id := by
    unfold Module.referencesOf
    apply List.mem_append_left
    refine List.mem_flatMap.mpr ⟨_, List.mem_filter.mpr ⟨hf1, by simp⟩, ?_⟩
    refine List.mem_flatMap.mpr ⟨I, hI, ?_⟩
    exact List.mem_flatMap.mpr ⟨.global G.id, hop, by simp [Value.referencedGlobals]⟩
  have haliveG := markAlive_references (GVExtractionPass Named M) k _ f.id G.id hroot href
  rw [← hk] at haliveG
  have hX2 : X1 ∈ (GlobalDCEPass (GVExtractionPass Named M)).globalValues := by
    rcases (mem_globalValues _ _).mp hX1 with ⟨g, hg, rfl⟩ | ⟨f', hf', rfl⟩
    · refine (mem_globalValues _ _).mpr (Or.inl ⟨g, ?_, rfl⟩)
      unfold GlobalDCEPass
      simp only
      refine List.mem_filter.mpr ⟨hg, ?_⟩
      have : g.id = G.id := hid1
      rw [this]
      simpa using haliveG
    · refine (mem_globalValues _ _).mpr (Or.inr ⟨f', ?_, rfl⟩)
      unfold GlobalDCEPass
      simp only
      refine List.mem_filter.mpr ⟨hf', ?_⟩
      have : f'.id = G.id := hid1
      rw [this]
      simpa using haliveG
  have husers : ((GlobalDCEPass (GVExtractionPass Named M)).users G.id).isEmpty = false := by
    have hmem : User.instruction f.id I ∈
        (GlobalDCEPass (GVExtractionPass Named M)).users G.id := by
      unfold Module.users
      apply List.mem_append_left
      refine List.mem_flatMap.mpr ⟨_, hf2, ?_⟩
      refine List.mem_flatMap.mpr ⟨I, hI, ?_⟩
      exact mem_usersAmong_direct G.id _ I.operands hop
    cases hu : (GlobalDCEPass (GVExtractionPass Named M)).users G.id with
    | nil => rw [hu] at hmem; cases hmem
    | cons a l => rfl
  refine ⟨X1, ?_, hid1⟩
  unfold runPasses StripDeadPrototypesPass
  rcases (mem_globalValues _ _).mp hX2 with ⟨g, hg, rfl⟩ | ⟨f', hf', rfl⟩
  · refine (mem_globalValues _ _).mpr (Or.inl ⟨g, ?_, rfl⟩)
    simp only
    refine List.mem_filter.mpr ⟨hg, ?_⟩
    have : g.id = G.id := hid1
    rw [this, husers]
    simp
  · refine (mem_globalValues _ _).mpr (Or.inr ⟨f', ?_, rfl⟩)
    simp only
    refine List.mem_filter.mpr ⟨hf', ?_⟩
    have : f'.id = G.id := hid1
    rw [this, husers]
    simp

theorem GetModuleForJITCompilation_total (Fun2Extract : FunToInlineMap) (M : Module)
    (Globals : SmallPtrSet) (log0 : List Diagnostic) (hwf : M.WellFormed)
    (hclosure : getReferencedGlobals M Fun2Extract = some (Globals, log0))
    (hext : ∀ G ∈ Globals, G.getLinkage = .ExternalLinkage)
    (hnamed : ∀ G ∈ Globals, G.getName ≠ "")
    (hcand : ∀ F ∈ GetFunctions Fun2Extract, ∃ f, M.getFunction F = some f ∧
      f.blocks ≠ [] ∧ f.name ≠ "" ∧ f.linkage ≠ .AvailableExternallyLinkage) :
    ∃ JitM, GetModuleForJITCompilation Fun2Extract M = some (some JitM, log0) := by
  have hne : Fun2Extract ≠ [] := by
    rintro rfl
    simp [getReferencedGlobals] at hclosure
  obtain ⟨Globals', log', hcl', h1, -, -, -⟩ := getReferencedGlobals_spec M Fun2Extract hne
  rw [hclosure] at hcl'
  simp only [Option.some.injEq, Prod.mk.injEq] at hcl'
  obtain ⟨rfl, rfl⟩ := hcl'
  have hv : Globals.all GlobalValue.hasExternalLinkage = true := by
    rw [List.all_eq_true]
    intro G hG
    simp [GlobalValue.hasExternalLinkage, hext G hG]
  -- the pointers of `GlobalsToKeep`
  have e1 : closureInClone M Globals = Globals.map (fun G => some G.id) := by
    unfold closureInClone
    apply List.map_congr_left
    intro G hG
    rw [getNamedValue_of_mem M hwf.2 G (h1 G hG).1 (hnamed G hG)]
    rfl
  have hfun : ∀ F ∈ GetFunctions Fun2Extract, ∃ f, f ∈ M.functions ∧ f.id = F ∧
      f.blocks ≠ [] ∧ f.linkage ≠ .AvailableExternallyLinkage ∧
      (M.getNamedValue (M.getName F)).map GlobalValue.id = some F := by
    intro F hF
    obtain ⟨f, hf, hb, hn, hl⟩ := hcand F hF
    obtain ⟨hfm, hfid⟩ := getFunction_some M F f hf
    have hgv : GlobalValue.function f ∈ M.globalValues :=
      (mem_globalValues M _).mpr (Or.inr ⟨f, hfm, rfl⟩)
    refine ⟨f, hfm, hfid, hb, hl, ?_⟩
    have hname : M.getName F = f.name := by
      have := getName_of_mem M hwf.1 (.function f) hgv
      rw [← hfid]; exact this
    rw [hname]
    have := getNamedValue_of_mem M hwf.2 (.function f) hgv hn
    rw [show f.name = (GlobalValue.function f).getName from rfl, this]
    exact congrArg some hfid
  have e2 : candidatesInClone M Fun2Extract =
      (GetFunctions Fun2Extract).map (fun F => some (id F)) := by
    unfold candidatesInClone
    apply List.map_congr_left
    intro F hF
    obtain ⟨f, -, -, -, -, h⟩ := hfun F hF
    exact h
  have e1' : (closureInClone M Globals).filterMap id = Globals.map GlobalValue.id := by
    rw [e1]; exact filterMap_id_map_some GlobalValue.id Globals
  have e2' : (candidatesInClone M Fun2Extract).filterMap id = GetFunctions Fun2Extract := by
    rw [e2, filterMap_id_map_some]; simp
  have ec : cleanedClone M Globals Fun2Extract =
      runPasses (Globals.map GlobalValue.id ++ GetFunctions Fun2Extract) M := by
    unfold cleanedClone
    rw [List.filterMap_append, e1', e2']
  have hall : (closureInClone M Globals ++ candidatesInClone M Fun2Extract).all (fun G =>
      match G with
      | none => false
      | some G => (cleanedClone M Globals Fun2Extract).globalValues.any
          (fun GV => decide (GV.id = G))) = true := by
    rw [List.all_eq_true]
    intro x hx
    rw [ec]
    rcases List.mem_append.mp hx with hx | hx
    · rw [e1] at hx
      obtain ⟨G, hG, rfl⟩ := List.mem_map.mp hx
      simp only [List.any_eq_true, decide_eq_true_eq]
      obtain ⟨hGm, -, huse⟩ := h1 G hG
      obtain ⟨f, hf, hc, I, hI, hop⟩ := (users_any_iff M Fun2Extract G.id).mp huse
      have hfc : f.id ∈ GetFunctions Fun2Extract := (count_ne_zero_iff Fun2Extract f.id).mp hc
      obtain ⟨f', hf'm, hf'id, hb, hl, -⟩ := hfun f.id hfc
      have hff : GlobalValue.function f' = .function f :=
        eq_of_id_eq M hwf.1 (.function f) (.function f')
          ((mem_globalValues M _).mpr (Or.inr ⟨f, hf, rfl⟩))
          ((mem_globalValues M _).mpr (Or.inr ⟨f', hf'm, rfl⟩)) hf'id
      cases hff
      exact (runPasses_keeps _ M f hf (List.mem_append_right _ hfc) hb hl).2 G hGm ⟨I, hI, hop⟩
    · rw [e2] at hx
      obtain ⟨F, hF, rfl⟩ := List.mem_map.mp hx
      simp only [List.any_eq_true, decide_eq_true_eq, id]
      obtain ⟨f, hfm, hfid, hb, hl, -⟩ := hfun F hF
      obtain ⟨f1, hf1, hid⟩ := (runPasses_keeps _ M f hfm
        (List.mem_append_right _ (by rw [hfid]; exact hF)) hb hl).1
      exact ⟨.function f1, (mem_globalValues _ _).mpr (Or.inr ⟨f1, hf1, rfl⟩),
        by rw [← hfid]; exact hid⟩
  unfold GetModuleForJITCompilation
  rw [hclosure]
  simp only [ValidForExtraction, hv, Bool.not_true, Bool.false_and, Bool.false_eq_true,
    if_false, List.append_nil]
  split
  · exact ⟨_, rfl⟩
  · rename_i hneg
    exact absurd hall hneg

/-! ## Lemmas on the loop over the candidates -/

theorem replaceUses_header (Old New : Value) (g : Function) :
    (Function.replaceUses Old New g).header = g.header := by
  unfold Function.replaceUses Function.header
  simp [List.map_map, Function.comp]

theorem CreateJITHook_total (env : Env) (hdecl : env.DeclareExtends) (F : GlobalId)
    (Params : List Value) (BitcodeGV : GlobalId) (X : Module) (f : Function)
    (b : GlobalVariable) (n : Nat) (e : Ty) (o : Int)
    (hF : X.getFunction F = some f) (hb : X.getGlobalVariable BitcodeGV = some b)
    (hty : b.valueType = .array n e) (ho : optlevelOf Params = some o) :
    ∃ X' log, CreateJITHook env F Params BitcodeGV X = some (X', log) := by
  obtain ⟨-, -, ⟨jit, hjit⟩⟩ := hdecl .JitHook (hookInstalled X f F)
  obtain ⟨-, ⟨n2, h2, -⟩, ⟨jend, hend⟩⟩ := hdecl .JitHookEnd (declaredJITHook env X f F).1
  obtain ⟨new, hnew, -⟩ := declaredJITHookEnd_functions env hdecl X f F hF
  obtain ⟨nm, hnm, -⟩ := nameStored_globals env hdecl X f F
  have hjit' : (declaredJITHookEnd env X f F).1.getFunction (declaredJITHook env X f F).2 =
      some jit := by
    unfold Module.getFunction declaredJITHookEnd
    rw [h2]
    exact find?_append_some _ _ _ _ hjit
  have hA : (X.functions.map (fun (g : Function) =>
      if g.id = F then
        { Function.replaceUses (.global F) (.global X.freshId) g with name := "" }
      else Function.replaceUses (.global F) (.global X.freshId) g)).find?
      (fun g => decide (g.id = X.freshId)) = none := by
    rw [List.find?_eq_none]
    intro g hg
    obtain ⟨g0, hg0, rfl⟩ := List.mem_map.mp hg
    have h0 := Nat.ne_of_lt (function_id_lt_freshId X g0 hg0)
    by_cases hc : g0.id = F
    · rw [if_pos hc]; simpa [Function.replaceUses] using h0
    · rw [if_neg hc]; simpa [Function.replaceUses] using h0
  have hhook : ∃ h0, (declaredJITHookEnd env X f F).1.getFunction X.freshId = some h0 := by
    refine ⟨Function.mk X.freshId f.name f.linkage f.retTy f.paramTys f.isVarArg [], ?_⟩
    unfold Module.getFunction
    rw [hnew]
    apply find?_append_some
    rw [hookInstalled_functions X f F hF, List.find?_append, hA]
    simp
  obtain ⟨h0, hhook⟩ := hhook
  have hbit : (nameStored env X f F).1.getGlobalVariable BitcodeGV =
      some (GlobalVariable.replaceUses (.global F) (.global X.freshId) b) := by
    unfold Module.getGlobalVariable
    rw [hnm]
    apply find?_append_some
    rw [find?_map_key GlobalVariable.id
      (GlobalVariable.replaceUses (.global F) (.global X.freshId)) (fun _ => rfl)]
    unfold Module.getGlobalVariable at hb
    rw [hb]
    rfl
  exact CreateJITHook_of env F Params BitcodeGV X f jit jend h0 _ o n e hF hjit' hend hhook hbit
    ho hty

theorem createHooks_spec (env : Env) (hdecl : env.DeclareExtends) (BitcodeGV : GlobalId) :
    ∀ (Fun2Extract : FunToInlineMap) (X : Module) (log : List Diagnostic),
      (GetFunctions Fun2Extract).Nodup →
      (∀ KV ∈ Fun2Extract, ∃ f, X.getFunction KV.1 = some f ∧ ∃ o, optlevelOf KV.2 = some o) →
      (∃ b n e, X.getGlobalVariable BitcodeGV = some b ∧ b.valueType = .array n e) →
      ∃ X' log', createHooks env BitcodeGV Fun2Extract (X, log) = some (X', log') ∧
        X.freshId ≤ X'.freshId ∧
        (∀ G g, G ∉ GetFunctions Fun2Extract → X.getFunction G = some g →
          ∃ g', X'.getFunction G = some g' ∧ g'.header = g.header) ∧
        (∀ g' ∈ X'.functions, g'.id ∉ GetFunctions Fun2Extract ∧
          ((∃ g0 ∈ X.functions, g0.id = g'.id) ∨ X.freshId ≤ g'.id)) ∧
        (∀ F ∈ GetFunctions Fun2Extract, ∀ f, X.getFunction F = some f →
          ∃ Hook hook, X.freshId ≤ Hook ∧ X'.getFunction Hook = some hook ∧
            hook.header =
              (Hook, f.name, f.linkage, f.retTy, f.paramTys, f.isVarArg, ["entry"])) ∧
        (∃ added : List GlobalVariable,
          X'.globals.map (fun g => (g.name, g.isConstant)) =
            X.globals.map (fun g => (g.name, g.isConstant)) ++
              added.map (fun g => (g.name, g.isConstant)) ∧
          ∀ a ∈ added, a.name ≠ EmbeddedModuleName) := by
  intro Fun2Extract
  induction Fun2Extract with
  | nil =>
    intro X log _ _ _
    refine ⟨X, log, rfl, Nat.le_refl _, ?_, ?_, ?_, ⟨[], by simp, by simp⟩⟩
    · intro G g _ hg
      exact ⟨g, hg, rfl⟩
    · intro g' hg'
      exact ⟨by simp [GetFunctions], Or.inl ⟨g', hg', rfl⟩⟩
    · intro F hF
      simp [GetFunctions] at hF
  | cons KV rest ih =>
    intro X log hkeys hc hb
    have hkeys' : KV.1 ∉ GetFunctions rest ∧ (GetFunctions rest).Nodup := by
      have : GetFunctions (KV :: rest) = KV.1 :: GetFunctions rest := rfl
      rw [this] at hkeys
      exact List.nodup_cons.mp hkeys
    obtain ⟨f, hF, o, ho⟩ := hc KV (List.mem_cons_self _ _)
    obtain ⟨b, n, e, hbX, hty⟩ := hb
    obtain ⟨X1, log1, hstep⟩ := CreateJITHook_total env hdecl KV.1 KV.2 BitcodeGV X f b n e o
      hF hbX hty ho
    obtain ⟨f', HandleTy, bitcode, nameGV, optlevel, NumElements, elemTy, hF', -, hbty, hbit,
      hhook, hother, hgone, hglob, -, -, -, -, -, hnmne, hids⟩ :=
      CreateJITHook_spec env hdecl KV.1 KV.2 BitcodeGV X X1 log1 hstep
    rw [hF] at hF'
    cases hF'
    obtain ⟨hfm, hfid⟩ := getFunction_some X KV.1 f hF
    have hKlt : KV.1 < X.freshId := by
      rw [← hfid]; exact function_id_lt_freshId X f hfm
    have hfresh1 : X.freshId < X1.freshId := by
      obtain ⟨hm, hid⟩ := getFunction_some X1 _ _ hhook
      have := function_id_lt_freshId X1 _ hm
      exact this
    have hkey_lt : ∀ K ∈ GetFunctions rest, K < X.freshId ∧ K ≠ KV.1 := by
      intro K hK
      obtain ⟨KV', hKV', rfl⟩ := List.mem_map.mp hK
      obtain ⟨f0, hf0, -⟩ := hc KV' (List.mem_cons_of_mem _ hKV')
      obtain ⟨hm, hid⟩ := getFunction_some X _ f0 hf0
      refine ⟨by rw [← hid]; exact function_id_lt_freshId X f0 hm, ?_⟩
      intro heq
      exact hkeys'.1 (by rw [← heq]; exact hK)
    have hc' : ∀ KV' ∈ rest, ∃ f, X1.getFunction KV'.1 = some f ∧
        ∃ o, optlevelOf KV'.2 = some o := by
      intro KV' hKV'
      obtain ⟨f0, hf0, o', ho'⟩ := hc KV' (List.mem_cons_of_mem _ hKV')
      have hne := (hkey_lt KV'.1 (List.mem_map.mpr ⟨KV', hKV', rfl⟩)).2
      exact ⟨_, hother KV'.1 f0 hne hf0, o', ho'⟩
    have hb' : ∃ b n e, X1.getGlobalVariable BitcodeGV = some b ∧ b.valueType = .array n e := by
      refine ⟨bitcode, NumElements, elemTy, ?_, hbty⟩
      unfold Module.getGlobalVariable
      rw [hglob]
      apply find?_append_some
      rw [find?_map_key GlobalVariable.id
        (GlobalVariable.replaceUses (.global KV.1) (.global X.freshId)) (fun _ => rfl)]
      unfold Module.getGlobalVariable at hbX
      rw [hbX, hbit b (by unfold Module.getGlobalVariable; exact hbX)]
      rfl
    obtain ⟨X', log', hrun', r1, r2, r3, r4, added, r5, r6⟩ :=
      ih X1 (log ++ log1) hkeys'.2 hc' hb'
    refine ⟨X', log', ?_, Nat.le_trans (Nat.le_of_lt hfresh1) r1, ?_, ?_, ?_, ?_⟩
    · rw [createHooks, hstep]
      exact hrun'
    · intro G g hG hg
      have hG' : G ≠ KV.1 ∧ G ∉ GetFunctions rest := by
        have : GetFunctions (KV :: rest) = KV.1 :: GetFunctions rest := rfl
        rw [this, List.mem_cons, not_or] at hG
        exact hG
      obtain ⟨g', hg', hh⟩ := r2 G _ hG'.2 (hother G g hG'.1 hg)
      exact ⟨g', hg', by rw [hh, replaceUses_header]⟩
    · intro g' hg'
      obtain ⟨hnot, hor⟩ := r3 g' hg'
      have hne : g'.id ≠ KV.1 := by
        rcases hor with ⟨g1, hg1, hid⟩ | hge
        · rw [← hid]; exact hgone g1 hg1
        · exact Nat.ne_of_gt (Nat.lt_of_lt_of_le (Nat.lt_trans hKlt hfresh1) hge)
      refine ⟨?_, ?_⟩
      · have : GetFunctions (KV :: rest) = KV.1 :: GetFunctions rest := rfl
        rw [this, List.mem_cons, not_or]
        exact ⟨hne, hnot⟩
      · rcases hor with ⟨g1, hg1, hid⟩ | hge
        · rcases hids g1 hg1 with ⟨g0, hg0, hid0⟩ | hge0
          · exact Or.inl ⟨g0, hg0, by rw [hid0, hid]⟩
          · exact Or.inr (by rw [← hid]; exact hge0)
        · exact Or.inr (Nat.le_trans (Nat.le_of_lt hfresh1) hge)
    · intro F hFmem f2 hf2
      have : GetFunctions (KV :: rest) = KV.1 :: GetFunctions rest := rfl
      rw [this, List.mem_cons] at hFmem
      rcases hFmem with rfl | hFrest
      · rw [hF] at hf2
        cases hf2
        have hnotkey : X.freshId ∉ GetFunctions rest := by
          intro hmem
          exact Nat.lt_irrefl _ (hkey_lt _ hmem).1
        obtain ⟨g', hg', hh⟩ := r2 X.freshId _ hnotkey hhook
        exact ⟨X.freshId, g', Nat.le_refl _, hg', by rw [hh]; rfl⟩
      · have hne := (hkey_lt F hFrest).2
        obtain ⟨Hook, hook, hge, hget, hh⟩ := r4 F hFrest _ (hother F f2 hne hf2)
        exact ⟨Hook, hook, Nat.le_trans (Nat.le_of_lt hfresh1) hge, hget, by rw [hh]; rfl⟩
    · refine ⟨nameGV :: added, ?_, ?_⟩
      · rw [r5, hglob]
        simp only [List.map_append, List.map_map, List.map_cons, List.map_nil,
          List.append_assoc, List.singleton_append]
        congr 1
      · intro a ha
        rcases List.mem_cons.mp ha with rfl | ha
        · exact hnmne
        · exact r6 a ha

theorem getNamedGlobal_of_not_mem_names (M : Module) (N : String) (h : N ∉ M.names) :
    M.getNamedGlobal N = none := by
  unfold Module.getNamedGlobal
  cases hv : M.getNamedValue N with
  | none => rfl
  | some G =>
    obtain ⟨hG, hn, hne⟩ := getNamedValue_some M N G hv
    exfalso
    apply h
    unfold Module.names
    exact List.mem_filter.mpr ⟨List.mem_map.mpr ⟨G, hG, hn⟩, by simpa using hne⟩

theorem global_name_ne_of_not_mem_names (M : Module) (N : String) (hN : N ≠ "")
    (h : N ∉ M.names) : ∀ g ∈ M.globals, g.name ≠ N := by
  intro g hg hn
  apply h
  unfold Module.names
  exact List.mem_filter.mpr ⟨List.mem_map.mpr ⟨.variable g,
    (mem_globalValues M _).mpr (Or.inl ⟨g, hg, rfl⟩), hn⟩, by simpa using hN⟩

theorem createHooks_globals_length (env : Env) (hdecl : env.DeclareExtends)
    (BitcodeGV : GlobalId) :
    ∀ (Fun2Extract : FunToInlineMap) (X X' : Module) (log log' : List Diagnostic),
      createHooks env BitcodeGV Fun2Extract (X, log) = some (X', log') →
      X.globals.length ≤ X'.globals.length := by
  intro Fun2Extract
  induction Fun2Extract with
  | nil =>
    intro X X' log log' h
    simp only [createHooks, Option.some.injEq, Prod.mk.injEq] at h
    rw [h.1]
  | cons KV rest ih =>
    intro X X' log log' h
    rw [createHooks] at h
    split at h
    · cases h
    · rename_i X1 log1 hstep
      obtain ⟨f', HandleTy, bitcode, nameGV, optlevel, NumElements, elemTy, -, -, -, -,
        -, -, -, hglob, -⟩ := CreateJITHook_spec env hdecl KV.1 KV.2 BitcodeGV X X1 log1 hstep
      have h1 : X.globals.length ≤ X1.globals.length := by
        rw [hglob]; simp
      exact Nat.le_trans h1 (ih X1 X' _ log' h)

theorem WriteModuleToGlobal_globals (env : Env) (M JitM : Module)
    (hfree : EmbeddedModuleName ∉ M.names) :
    ∃ blob : GlobalVariable,
      (WriteModuleToGlobal env M JitM).1.1.globals = M.globals ++ [blob] ∧
      (WriteModuleToGlobal env M JitM).1.1.functions = M.functions ∧
      (WriteModuleToGlobal env M JitM).1.2 = M.freshId ∧
      blob.id = M.freshId ∧ blob.name = EmbeddedModuleName ∧ blob.isConstant = true ∧
      blob.valueType = .array ((ModuleToString env JitM).length + 1) (.integer 8) ∧
      (WriteModuleToGlobal env M JitM).1.1.getGlobalVariable M.freshId = some blob := by
  have hne : EmbeddedModuleName ≠ "" := by decide
  refine ⟨_, rfl, rfl, rfl, rfl, ?_, rfl, ?_,
    getGlobalVariable_new_name M _ true .InternalLinkage _ EmbeddedModuleName⟩
  · simp [createValueName, hne, hfree]
  · simp [ConstantDataArray.getString]

theorem filter_name_length (L : List GlobalVariable) (N : String) :
    (L.filter (fun g => decide (g.name = N))).length =
      ((L.map (fun g => (g.name, g.isConstant))).filter (fun p => decide (p.1 = N))).length := by
  rw [List.filter_map, List.length_map]
  rfl

/-! ## The claims -/

/-- C1 (the code at a failing input). For the candidate `i32 foo(i32 a, float b)`
with Spec `[2, b]`, `runOnModule` leaves under the name `foo` a trampoline whose
entry block converts `b` with `fptoui float to i32` (a numeric conversion, not a
reinterpretation of the bits) and `zext` to `i64`, and then passes as the value
cell after the index `1` the argument `b` itself, not the result of the
conversion: line 157 pushes `&V` where `VAsI64` was computed. -/
theorem C1_float_value_cell_at_failing_input :
    (runOnModule (exampleEnv exampleSelect) exampleModule).map
        (fun r => (r.2.1.getFunction 5).map (fun hook => (hook.name, hook.blocks))) =
      some (some ("foo",
        [{ name := "entry",
           insts :=
             [.cast .FPToUI (.argument 5 1) (.integer 32),
              .cast .ZExt (.instruction 5 0) (.integer 64),
              .call (.global 6)
                [.constantExpr .BitCast (.global 8) I8Ptr,
                 .constantExpr .BitCast (.global 4) I8Ptr,
                 .constantInt 64 3, .constantInt 32 2,
                 .constantInt 32 1, .argument 5 1,
                 .constantInt 32 4294967295],
              .cast .BitCast (.instruction 5 2) exampleFoo.getType,
              .call (.instruction 5 3) [.argument 5 0, .argument 5 1],
              .call (.global 7) [.instruction 5 2],
              .ret (some (.instruction 5 4))] }])) := by
  decide

/-- C2 (the code at a failing input). For the candidate
`void scale(i32 x, i8* p, i64 n)` with Spec `[0, x, p, n]`, the entry block of
the trampoline computes `zext i32 x to i64` and, for the pointer, a `ptrtoint`
to the integer type of width `getPrimitiveSizeInBits() = 0` followed by a
`zext`, but the value cells of the call are the arguments `x` (an `i32`) and `p`
(a pointer) themselves; only the cell of the 64-bit `n` is what the claim says. -/
theorem C2_integer_pointer_value_cells_at_failing_input :
    (runOnModule (exampleEnv (selectByName "scale" 0 [0, 1, 2])) exampleScaleModule).map
        (fun r => (r.2.1.getFunction 3).map (fun hook => (hook.name, hook.blocks))) =
      some (some ("scale",
        [{ name := "entry",
           insts :=
             [.cast .ZExt (.argument 3 0) (.integer 64),
              .cast .PtrToInt (.argument 3 1) (.integer 0),
              .cast .ZExt (.instruction 3 1) (.integer 64),
              .call (.global 4)
                [.constantExpr .BitCast (.global 6) I8Ptr,
                 .constantExpr .BitCast (.global 2) I8Ptr,
                 .constantInt 64 3, .constantInt 32 0,
                 .constantInt 32 0, .argument 3 0,
                 .constantInt 32 1, .argument 3 1,
                 .constantInt 32 2, .argument 3 2,
                 .constantInt 32 4294967295],
              .cast .BitCast (.instruction 3 3) exampleScale.getType,
              .call (.instruction 3 4) [.argument 3 0, .argument 3 1, .argument 3 2],
              .call (.global 5) [.instruction 3 3],
              .ret none] }])) := by
  decide

/-- C3. When `p1..pk` are pairwise distinct formal parameters of the candidate
`f`, the argument list of the compile-and-specialize call built for Spec
`[level, p1..pk]` is the four leading arguments, then exactly `k`
(index, value) pairs, then the 32-bit constant `-1` as the last argument,
directly after the last pair (after the fourth argument when `k = 0`). -/
theorem C3_pair_count_and_sentinel (f : Function) (Hook : GlobalId) (level : Value)
    (ps : List Value) (FNameGV IRVar IRSize OptLevel : Value) (JITHook : GlobalId)
    (HandleTy : Ty) (JITHookEnd : GlobalId)
    (hdistinct : ps.Nodup)
    (hformal : ∀ p ∈ ps, ∃ i, i < f.paramTys.length ∧ p = Value.argument f.id i) :
    ∃ pairs : List (Value × Value),
      pairs.length = ps.length ∧
      (trampolineEntry f Hook (level :: ps) FNameGV IRVar IRSize OptLevel JITHook HandleTy
          JITHookEnd).HookArgs =
        [FNameGV, IRVar, IRSize, OptLevel] ++ pairs.flatMap (fun p => [p.1, p.2]) ++
          [Value.constantInt 32 4294967295] ∧
      indexValuePairs (trampolineEntry f Hook (level :: ps) FNameGV IRVar IRSize OptLevel
          JITHook HandleTy JITHookEnd).HookArgs = pairs ∧
      getSExtValue 32 4294967295 = -1 := by
  refine ⟨(specializedPositions f.id f.paramTys.length ps).map
      (fun (i : Nat) => (getInt32 (i : Int), Value.argument Hook i)), ?_, ?_, ?_, by decide⟩
  · rw [List.length_map]
    exact specializedPositions_length f.id f.paramTys.length ps hdistinct hformal
  · rw [trampolineEntry_HookArgs, flatMap_pairs, getInt32_minus_one, List.tail_cons]
  · rw [trampolineEntry_HookArgs, List.tail_cons, indexValuePairs_shape]

/-- C3 at the candidate `foo` with Spec `[2, b]`. -/
theorem C3_pair_count_and_sentinel_witness :
    [Value.argument 1 1].Nodup ∧
    (∀ p ∈ [Value.argument 1 1], ∃ i, i < exampleFoo.paramTys.length ∧
      p = Value.argument exampleFoo.id i) ∧
    ∃ pairs : List (Value × Value),
      pairs.length = [Value.argument 1 1].length ∧
      (trampolineEntry exampleFoo 5 (Value.constantInt 32 2 :: [Value.argument 1 1])
          (.global 8) (.global 4) (.constantInt 64 3) (.constantInt 32 2) 6 I8Ptr 7).HookArgs =
        [.global 8, .global 4, .constantInt 64 3, .constantInt 32 2] ++
          pairs.flatMap (fun p => [p.1, p.2]) ++ [Value.constantInt 32 4294967295] ∧
      indexValuePairs (trampolineEntry exampleFoo 5
          (Value.constantInt 32 2 :: [Value.argument 1 1])
          (.global 8) (.global 4) (.constantInt 64 3) (.constantInt 32 2) 6 I8Ptr 7).HookArgs =
        pairs ∧
      getSExtValue 32 4294967295 = -1 :=
  ⟨by decide, by decide,
    C3_pair_count_and_sentinel exampleFoo 5 (.constantInt 32 2) [.argument 1 1]
      (.global 8) (.global 4) (.constantInt 64 3) (.constantInt 32 2) 6 I8Ptr 7
      (by decide) (by decide)⟩

/-- C4. The index entries of the call built for Spec `[level, p1..pk]` are the
32-bit constants of the positions `i` of the formal parameters of `f` that occur
among `p1..pk`, in strictly increasing order of `i` (a position is listed when
`Value.argument f.id i`, the formal of `f` itself, is in the Spec), and the
argument list is the same for every reordering of `p1..pk`. The number of
parameters of an LLVM function fits 32 bits. -/
theorem C4_index_entries_increasing_positions (f : Function) (Hook : GlobalId) (level : Value)
    (ps : List Value) (FNameGV IRVar IRSize OptLevel : Value) (JITHook : GlobalId)
    (HandleTy : Ty) (JITHookEnd : GlobalId) (hn : f.paramTys.length ≤ 2 ^ 32) :
    (indexValuePairs (trampolineEntry f Hook (level :: ps) FNameGV IRVar IRSize OptLevel
        JITHook HandleTy JITHookEnd).HookArgs).map Prod.fst =
      (specializedPositions f.id f.paramTys.length ps).map (fun i => Value.constantInt 32 i) ∧
    (specializedPositions f.id f.paramTys.length ps).Pairwise (fun a b => a < b) ∧
    (∀ i, i ∈ specializedPositions f.id f.paramTys.length ps ↔
      i < f.paramTys.length ∧ Value.argument f.id i ∈ ps) ∧
    (∀ qs : List Value, qs.Perm ps →
      (trampolineEntry f Hook (level :: qs) FNameGV IRVar IRSize OptLevel JITHook HandleTy
          JITHookEnd).HookArgs =
        (trampolineEntry f Hook (level :: ps) FNameGV IRVar IRSize OptLevel JITHook HandleTy
          JITHookEnd).HookArgs) := by
  refine ⟨?_, specializedPositions_sorted _ _ _, specializedPositions_mem _ _ _, ?_⟩
  · rw [trampolineEntry_HookArgs, List.tail_cons, indexValuePairs_shape, List.map_map]
    apply List.map_congr_left
    intro i hi
    have hlt : i < 2 ^ 32 :=
      lt_of_lt_of_le ((specializedPositions_mem _ _ _ i).mp hi).1 hn
    simp [getInt32_of_lt i hlt]
  · intro qs hperm
    rw [trampolineEntry_HookArgs, trampolineEntry_HookArgs, List.tail_cons, List.tail_cons,
      specializedPositions_congr f.id f.paramTys.length qs ps (fun v => hperm.mem_iff)]

/-- C4 at the candidate `scale` with Spec `[0, n, x]`: the indices are `0, 2`. -/
theorem C4_index_entries_increasing_positions_witness :
    exampleScale.paramTys.length ≤ 2 ^ 32 ∧
    (indexValuePairs (trampolineEntry exampleScale 3
        (Value.constantInt 32 0 :: [Value.argument 1 2, Value.argument 1 0])
        (.global 6) (.global 2) (.constantInt 64 3) (.constantInt 32 0) 4 I8Ptr 5).HookArgs).map
        Prod.fst =
      [Value.constantInt 32 0, Value.constantInt 32 2] :=
  ⟨by decide,
    ((C4_index_entries_increasing_positions exampleScale 3 (.constantInt 32 0)
      [.argument 1 2, .argument 1 0] (.global 6) (.global 2) (.constantInt 64 3)
      (.constantInt 32 0) 4 I8Ptr 5 (by decide)).1).trans (by decide)⟩

/-- C5. The entry block of the trampoline is: conversion casts, the
compile-and-specialize call (its result is `Value.instruction Hook before.length`),
a `bitcast` of that result to the type of the trampoline (left out when the
handle already has that type), the call of the cast handle with all the
arguments `0 .. n-1` of the trampoline in order, the end-of-call call, and a
return of the inner call's result, or of nothing when the return type is void. -/
theorem C5_inner_call_all_arguments (f : Function) (Hook : GlobalId) (Params : List Value)
    (FNameGV IRVar IRSize OptLevel : Value) (JITHook : GlobalId) (HandleTy : Ty)
    (JITHookEnd : GlobalId) :
    ∃ (before castPart : List Instruction) (Cast : Value),
      (trampolineEntry f Hook Params FNameGV IRVar IRSize OptLevel JITHook HandleTy
          JITHookEnd).Entry =
        before ++
          [.call (.global JITHook)
            (trampolineEntry f Hook Params FNameGV IRVar IRSize OptLevel JITHook HandleTy
              JITHookEnd).HookArgs] ++
          castPart ++
          [.call Cast ((List.range f.paramTys.length).map (fun i => Value.argument Hook i)),
            .call (.global JITHookEnd) [.instruction Hook before.length],
            if f.retTy.isVoidTy then .ret none
            else .ret (some (.instruction Hook (before.length + 1 + castPart.length)))] ∧
      ((HandleTy = f.getType ∧ castPart = [] ∧ Cast = .instruction Hook before.length) ∨
        (HandleTy ≠ f.getType ∧
          castPart = [.cast .BitCast (.instruction Hook before.length) f.getType] ∧
          Cast = .instruction Hook (before.length + 1))) := by
  obtain ⟨conv, castPart, Cast, _, hcast, hentry⟩ :=
    trampolineEntry_Entry f Hook Params FNameGV IRVar IRSize OptLevel JITHook HandleTy JITHookEnd
  rw [trampolineEntry_FunArgsVal] at hentry
  exact ⟨conv, castPart, Cast, hentry, hcast⟩

/-- C6. In the entry block of the trampoline, for a void and for a non-void
return type, exactly one instruction calls `JITHook` and exactly one calls
`JITHookEnd` (two different functions); the block ends with the inner call at
`j`, the end-of-call call at `j + 1` and the return at `j + 2`, and the only
argument of the end-of-call call is the result of the compile-and-specialize
call at `i < j`, not the result of the inner call. -/
theorem C6_one_compile_call_one_end_call (f : Function) (Hook : GlobalId)
    (Params : List Value) (FNameGV IRVar IRSize OptLevel : Value) (JITHook : GlobalId)
    (HandleTy : Ty) (JITHookEnd : GlobalId) (hne : JITHook ≠ JITHookEnd) :
    (((trampolineEntry f Hook Params FNameGV IRVar IRSize OptLevel JITHook HandleTy JITHookEnd).Entry).filter (Instruction.isCallOf JITHook)).length = 1 ∧
    (((trampolineEntry f Hook Params FNameGV IRVar IRSize OptLevel JITHook HandleTy JITHookEnd).Entry).filter (Instruction.isCallOf JITHookEnd)).length = 1 ∧
    ∃ (i j : Nat) (Cast : Value) (HookArgs FunArgsVal : List Value),
      i < j ∧
      (trampolineEntry f Hook Params FNameGV IRVar IRSize OptLevel JITHook HandleTy JITHookEnd).Entry.length = j + 3 ∧
      (trampolineEntry f Hook Params FNameGV IRVar IRSize OptLevel JITHook HandleTy JITHookEnd).Entry[i]? = some (.call (.global JITHook) HookArgs) ∧
      (trampolineEntry f Hook Params FNameGV IRVar IRSize OptLevel JITHook HandleTy JITHookEnd).Entry[j]? = some (.call Cast FunArgsVal) ∧
      (trampolineEntry f Hook Params FNameGV IRVar IRSize OptLevel JITHook HandleTy JITHookEnd).Entry[j + 1]? = some (.call (.global JITHookEnd) [.instruction Hook i]) ∧
      (trampolineEntry f Hook Params FNameGV IRVar IRSize OptLevel JITHook HandleTy JITHookEnd).Entry[j + 2]? =
        some (if f.retTy.isVoidTy then .ret none else .ret (some (.instruction Hook j))) := by
  obtain ⟨conv, castPart, Cast, hconv, hcast, hentry⟩ :=
    trampolineEntry_Entry f Hook Params FNameGV IRVar IRSize OptLevel JITHook HandleTy JITHookEnd
  have hne' : JITHookEnd ≠ JITHook := fun h => hne h.symm
  have hc1 := filter_isCallOf_casts JITHook conv hconv
  have hc2 := filter_isCallOf_casts JITHookEnd conv hconv
  rcases hcast with ⟨_, hcp, hC⟩ | ⟨_, hcp, hC⟩
  · subst hcp hC
    simp only [List.append_nil, List.append_assoc, List.cons_append, List.nil_append,
      List.length_nil, Nat.add_zero] at hentry
    rw [hentry]
    refine ⟨?_, ?_, conv.length, conv.length + 1, .instruction Hook conv.length,
      (trampolineEntry f Hook Params FNameGV IRVar IRSize OptLevel JITHook HandleTy JITHookEnd).HookArgs, (trampolineEntry f Hook Params FNameGV IRVar IRSize OptLevel JITHook HandleTy JITHookEnd).FunArgsVal, by omega, by simp, ?_, ?_, ?_, ?_⟩
    · simp [List.filter_append, hc1, List.filter_cons, isCallOf_call_global,
        isCallOf_call_instruction, hne', isCallOf_ret]
    · simp [List.filter_append, hc2, List.filter_cons, isCallOf_call_global,
        isCallOf_call_instruction, hne, isCallOf_ret]
    · exact getElem?_append_add conv _ 0
    · exact getElem?_append_add conv _ 1
    · exact getElem?_append_add conv _ 2
    · exact getElem?_append_add conv _ 3
  · subst hcp hC
    simp only [List.append_assoc, List.cons_append, List.nil_append,
      List.length_cons, List.length_nil] at hentry
    rw [hentry]
    refine ⟨?_, ?_, conv.length, conv.length + 2, .instruction Hook (conv.length + 1),
      (trampolineEntry f Hook Params FNameGV IRVar IRSize OptLevel JITHook HandleTy JITHookEnd).HookArgs, (trampolineEntry f Hook Params FNameGV IRVar IRSize OptLevel JITHook HandleTy JITHookEnd).FunArgsVal, by omega, by simp, ?_, ?_, ?_, ?_⟩
    · simp [List.filter_append, hc1, List.filter_cons, isCallOf_call_global,
        isCallOf_call_instruction, isCallOf_cast, hne', isCallOf_ret]
    · simp [List.filter_append, hc2, List.filter_cons, isCallOf_call_global,
        isCallOf_call_instruction, isCallOf_cast, hne, isCallOf_ret]
    · exact getElem?_append_add conv _ 0
    · exact getElem?_append_add conv _ 2
    · exact getElem?_append_add conv _ 3
    · exact getElem?_append_add conv _ 4

/-- C6 at the trampoline of `foo`. -/
theorem C6_one_compile_call_one_end_call_witness :
    (6 : GlobalId) ≠ 7 ∧
    ((exampleTrampoline.Entry).filter (Instruction.isCallOf 6)).length = 1 ∧
    ((exampleTrampoline.Entry).filter (Instruction.isCallOf 7)).length = 1 ∧
    ∃ (i j : Nat) (Cast : Value) (HookArgs FunArgsVal : List Value),
      i < j ∧
      exampleTrampoline.Entry.length = j + 3 ∧
      exampleTrampoline.Entry[i]? = some (.call (.global 6) HookArgs) ∧
      exampleTrampoline.Entry[j]? = some (.call Cast FunArgsVal) ∧
      exampleTrampoline.Entry[j + 1]? = some (.call (.global 7) [.instruction 5 i]) ∧
      exampleTrampoline.Entry[j + 2]? =
        some (if exampleFoo.retTy.isVoidTy then .ret none
          else .ret (some (.instruction 5 j))) :=
  ⟨by decide,
    C6_one_compile_call_one_end_call exampleFoo 5 [.constantInt 32 2, .argument 1 1]
      (.constantExpr .BitCast (.global 8) I8Ptr) (.constantExpr .BitCast (.global 4) I8Ptr)
      (.constantInt 64 3) (.constantInt 32 2) 6 I8Ptr 7 (by decide)⟩

/-- C7. When `CreateJITHook` returns for the candidate `f` with Spec
`[level, ...]`, the module afterwards holds the trampoline `hook` with a single
block `entry`, in which only casts precede the compile-and-specialize call, and
the first four arguments of that call are constants: a pointer cast of a new
constant global whose initializer is the bytes of the name `f` had in the module
before the call followed by a zero byte, a pointer cast of `BitcodeGV`, the
64-bit constant of the number of elements of the array type of `BitcodeGV`, and
a 32-bit constant whose signed value is `level` when `level` fits a signed
32-bit integer. None of the four is an argument or an instruction result. -/
theorem C7_leading_arguments (env : Env) (F : GlobalId) (bits value : Nat) (ps : List Value)
    (BitcodeGV : GlobalId) (M M' : Module) (log : List Diagnostic) (f : Function)
    (hF : M.getFunction F = some f)
    (hrun : CreateJITHook env F (.constantInt bits value :: ps) BitcodeGV M = some (M', log))
    (hlo : -(2 : Int) ^ 31 ≤ getSExtValue bits value)
    (hhi : getSExtValue bits value < (2 : Int) ^ 31) :
    ∃ (Hook JITHook : GlobalId) (hook : Function) (nameGV bitcode : GlobalVariable)
      (NumElements level32 : Nat) (elemTy : Ty) (before after : List Instruction)
      (rest : List Value),
      M'.getFunction Hook = some hook ∧
      hook.blocks =
        [{ name := "entry",
           insts := before ++
             [.call (.global JITHook)
               ([.constantExpr .BitCast (.global nameGV.id) I8Ptr,
                 .constantExpr .BitCast (.global BitcodeGV) I8Ptr,
                 .constantInt 64 (NumElements % 2 ^ 64),
                 .constantInt 32 level32] ++ rest)] ++ after }] ∧
      (∀ I ∈ before, I.isCast = true) ∧
      M'.getGlobalVariable nameGV.id = some nameGV ∧
      nameGV.isConstant = true ∧
      nameGV.initializer = some (.dataArray (stringBytes f.name ++ [0])) ∧
      M'.getGlobalVariable BitcodeGV = some bitcode ∧
      bitcode.valueType = .array NumElements elemTy ∧
      getSExtValue 32 level32 = getSExtValue bits value ∧
      (∀ v ∈ [Value.constantExpr .BitCast (.global nameGV.id) I8Ptr,
          .constantExpr .BitCast (.global BitcodeGV) I8Ptr,
          .constantInt 64 (NumElements % 2 ^ 64), .constantInt 32 level32],
        v.isConstant = true) := by
  obtain ⟨hfmem, hfid⟩ := getFunction_some M F f hF
  have hne : M.freshId ≠ F := by
    have := function_id_lt_freshId M f hfmem
    rw [hfid] at this
    exact Nat.ne_of_gt this
  unfold CreateJITHook at hrun
  rw [hF] at hrun
  simp only at hrun
  split at hrun
  · rename_i jitHook endHook hook0 hjit hend hhook
    split at hrun
    · rename_i bitcode optlevel hbit hopt
      split at hrun
      · rename_i NumElements elemTy hty
        simp only [Option.some.injEq, Prod.mk.injEq] at hrun
        obtain ⟨hM', -⟩ := hrun
        generalize hM3 : (env.Declare RuntimeFunction.JitHookEnd
          (env.Declare RuntimeFunction.JitHook
            (((M.createFunction f.retTy f.paramTys f.isVarArg f.linkage "hook").1.replaceAllUsesWith
              (Value.global F)
              (Value.global (M.createFunction f.retTy f.paramTys f.isVarArg f.linkage "hook").2)).takeName
              (M.createFunction f.retTy f.paramTys f.isVarArg f.linkage "hook").2 F)).1).1 = M3
          at hM' hjit hend hhook hbit
        generalize hJ : (env.Declare RuntimeFunction.JitHook
            (((M.createFunction f.retTy f.paramTys f.isVarArg f.linkage "hook").1.replaceAllUsesWith
              (Value.global F)
              (Value.global (M.createFunction f.retTy f.paramTys f.isVarArg f.linkage "hook").2)).takeName
              (M.createFunction f.retTy f.paramTys f.isVarArg f.linkage "hook").2 F)).2 = JITHook
          at hM' hjit
        generalize hJE : (env.Declare RuntimeFunction.JitHookEnd
          (env.Declare RuntimeFunction.JitHook
            (((M.createFunction f.retTy f.paramTys f.isVarArg f.linkage "hook").1.replaceAllUsesWith
              (Value.global F)
              (Value.global (M.createFunction f.retTy f.paramTys f.isVarArg f.linkage "hook").2)).takeName
              (M.createFunction f.retTy f.paramTys f.isVarArg f.linkage "hook").2 F)).1).2 = JITHookEnd
          at hM' hend
        have hHook : (M.createFunction f.retTy f.paramTys f.isVarArg f.linkage "hook").2 =
            M.freshId := rfl
        rw [hHook] at hM' hhook
        have hopt' : optlevel = getSExtValue bits value := by
          simpa [optlevelOf] using hopt.symm
        subst hopt'
        obtain ⟨level32, hlevel, hsext⟩ := optLevel_roundtrip (getSExtValue bits value) hlo hhi
        obtain ⟨nm, hname⟩ := getGlobalVariable_new M3
          (ConstantDataArray.getString (stringBytes f.name) true).2 true .InternalLinkage
          (some (ConstantDataArray.getString (stringBytes f.name) true).1) ".easy_jit_fun_name"
        have hnew2 : (M3.newGlobalVariable
            (ConstantDataArray.getString (stringBytes f.name) true).2 true .InternalLinkage
            (some (ConstantDataArray.getString (stringBytes f.name) true).1)
            ".easy_jit_fun_name").2 = M3.freshId := rfl
        rw [hnew2] at hname hM'
        obtain ⟨conv, castPart, Cast, hconv, -, hentry⟩ := trampolineEntry_Entry f M.freshId
          (Value.constantInt bits value :: ps)
          (ConstantExpr.getPointerCast M3.freshId
            (ConstantDataArray.getString (stringBytes f.name) true).2.pointer I8Ptr)
          (ConstantExpr.getPointerCast BitcodeGV bitcode.valueType.pointer I8Ptr)
          (ConstantInt.get 64 NumElements)
          (ConstantInt.get 32 (intToUInt64 (getSExtValue bits value)))
          JITHook jitHook.retTy JITHookEnd
        rw [trampolineEntry_HookArgs] at hentry
        have ha : ConstantExpr.getPointerCast M3.freshId
            (ConstantDataArray.getString (stringBytes f.name) true).2.pointer I8Ptr =
            .constantExpr .BitCast (.global M3.freshId) I8Ptr := by
          simp [ConstantExpr.getPointerCast, ConstantDataArray.getString, I8Ptr]
        have hb : ConstantExpr.getPointerCast BitcodeGV bitcode.valueType.pointer I8Ptr =
            .constantExpr .BitCast (.global BitcodeGV) I8Ptr := by
          simp [ConstantExpr.getPointerCast, hty, I8Ptr]
        have hc : ConstantInt.get 64 NumElements = .constantInt 64 (NumElements % 2 ^ 64) := rfl
        rw [ha, hb, hc, hlevel] at hentry hM'
        rw [List.append_assoc [_, _, _, _], List.append_assoc (conv ++ _)] at hentry
        obtain ⟨rest, after, hshape⟩ : ∃ rest after,
            (trampolineEntry f M.freshId (Value.constantInt bits value :: ps)
              (.constantExpr .BitCast (.global M3.freshId) I8Ptr)
              (.constantExpr .BitCast (.global BitcodeGV) I8Ptr)
              (.constantInt 64 (NumElements % 2 ^ 64)) (.constantInt 32 level32)
              JITHook jitHook.retTy JITHookEnd).Entry =
            conv ++
              [Instruction.call (.global JITHook)
                ([.constantExpr .BitCast (.global M3.freshId) I8Ptr,
                  .constantExpr .BitCast (.global BitcodeGV) I8Ptr,
                  .constantInt 64 (NumElements % 2 ^ 64), .constantInt 32 level32] ++ rest)] ++
              after := ⟨_, _, hentry⟩
        rw [hshape] at hM'
        refine ⟨M.freshId, JITHook,
          { hook0 with blocks := [{ name := "entry", insts := _ }] },
          { id := M3.freshId, name := nm, linkage := .InternalLinkage,
            valueType := (ConstantDataArray.getString (stringBytes f.name) true).2,
            isConstant := true,
            initializer := some (ConstantDataArray.getString (stringBytes f.name) true).1 },
          bitcode, NumElements, level32, elemTy, conv, after, rest,
          ?_, rfl, hconv, ?_, rfl, ?_, ?_, hty, hsext, ?_⟩
        · rw [← hM', getFunction_setBlocks_erase _ _ _ hne]
          show Option.map _ (M3.getFunction M.freshId) = _
          rw [hhook]
          rfl
        · rw [← hM']
          exact hname
        · simp [ConstantDataArray.getString]
        · rw [← hM']
          exact hbit
        · intro v hv
          simp only [List.mem_cons, List.mem_singleton, List.not_mem_nil, or_false] at hv
          rcases hv with rfl | rfl | rfl | rfl <;> rfl
      · exact absurd hrun (by simp)
    · exact absurd hrun (by simp)
  · exact absurd hrun (by simp)

/-- C7 at `foo` with Spec `[2, b]` in `exampleProcessedModule`. -/
theorem C7_leading_arguments_witness :
    exampleProcessedModule.getFunction 1 = some exampleFoo ∧
    CreateJITHook (exampleEnv exampleSelect) 1 (.constantInt 32 2 :: [.argument 1 1]) 4
        exampleProcessedModule = some (exampleHooked.1, exampleHooked.2) ∧
    -(2 : Int) ^ 31 ≤ getSExtValue 32 2 ∧
    getSExtValue 32 2 < (2 : Int) ^ 31 ∧
    ∃ (Hook JITHook : GlobalId) (hook : Function) (nameGV bitcode : GlobalVariable)
      (NumElements level32 : Nat) (elemTy : Ty) (before after : List Instruction)
      (rest : List Value),
      exampleHooked.1.getFunction Hook = some hook ∧
      hook.blocks =
        [{ name := "entry",
           insts := before ++
             [.call (.global JITHook)
               ([.constantExpr .BitCast (.global nameGV.id) I8Ptr,
                 .constantExpr .BitCast (.global 4) I8Ptr,
                 .constantInt 64 (NumElements % 2 ^ 64),
                 .constantInt 32 level32] ++ rest)] ++ after }] ∧
      (∀ I ∈ before, I.isCast = true) ∧
      exampleHooked.1.getGlobalVariable nameGV.id = some nameGV ∧
      nameGV.isConstant = true ∧
      nameGV.initializer = some (.dataArray (stringBytes exampleFoo.name ++ [0])) ∧
      exampleHooked.1.getGlobalVariable 4 = some bitcode ∧
      bitcode.valueType = .array NumElements elemTy ∧
      getSExtValue 32 level32 = getSExtValue 32 2 ∧
      (∀ v ∈ [Value.constantExpr .BitCast (.global nameGV.id) I8Ptr,
          .constantExpr .BitCast (.global 4) I8Ptr,
          .constantInt 64 (NumElements % 2 ^ 64), .constantInt 32 level32],
        v.isConstant = true) :=
  ⟨by decide, by decide, by decide, by decide,
    C7_leading_arguments (exampleEnv exampleSelect) 1 32 2 [.argument 1 1] 4
      exampleProcessedModule exampleHooked.1 exampleHooked.2 exampleFoo
      (by decide) (by decide) (by decide) (by decide)⟩

/-- C8. When the module has no global variable under the reserved name, the
candidate set is not empty and some member `G` of the set that
`getReferencedGlobals` returns does not have external linkage, `runOnModule`
returns `false` and the module it leaves is the module it was given: nothing
is created, deleted or renamed. What it wrote is the log of the closure
analysis and the message of `ValidForExtraction`. -/
theorem C8_unresolvable_dependency_is_noop (env : Env) (M : Module)
    (Globals : SmallPtrSet) (log : List Diagnostic) (G : GlobalValue)
    (hfree : M.getNamedGlobal EmbeddedModuleName = none)
    (hne : env.GetFunctionsToJit M ≠ [])
    (hclosure : getReferencedGlobals M (env.GetFunctionsToJit M) = some (Globals, log))
    (hG : G ∈ Globals) (hlink : G.getLinkage ≠ .ExternalLinkage) :
    runOnModule env M =
      some (false, M,
        log ++ [.message "Cannot extract module: global has private/internal linkage.\n"]) := by
  have hvalid : Globals.all GlobalValue.hasExternalLinkage = false := by
    rw [List.all_eq_false]
    exact ⟨G, hG, by simp [GlobalValue.hasExternalLinkage, hlink]⟩
  have hempty : (env.GetFunctionsToJit M).isEmpty = false := by
    cases h : env.GetFunctionsToJit M with
    | nil => exact absurd h hne
    | cons a l => rfl
  unfold runOnModule
  simp only [hfree, Option.isSome_none, Bool.false_eq_true, if_false, hempty,
    GetModuleForJITCompilation, hclosure, ValidForExtraction, hvalid, Debug]
  rfl

/-- C8 at a candidate that loads the unit-internal variable `counter`. -/
theorem C8_unresolvable_dependency_is_noop_witness :
    exampleInternalModule.getNamedGlobal EmbeddedModuleName = none ∧
    (exampleEnv exampleSelect).GetFunctionsToJit exampleInternalModule ≠ [] ∧
    getReferencedGlobals exampleInternalModule
        ((exampleEnv exampleSelect).GetFunctionsToJit exampleInternalModule) =
      some ([.variable exampleCounter],
        [.message "Global counter referenced by extracted function.\n"]) ∧
    GlobalValue.variable exampleCounter ∈ [GlobalValue.variable exampleCounter] ∧
    (GlobalValue.variable exampleCounter).getLinkage ≠ .ExternalLinkage ∧
    runOnModule (exampleEnv exampleSelect) exampleInternalModule =
      some (false, exampleInternalModule,
        [.message "Global counter referenced by extracted function.\n"] ++
          [.message "Cannot extract module: global has private/internal linkage.\n"]) :=
  ⟨by decide, by decide, by decide, by decide, by decide,
    C8_unresolvable_dependency_is_noop (exampleEnv exampleSelect) exampleInternalModule
      [.variable exampleCounter] [.message "Global counter referenced by extracted function.\n"]
      (.variable exampleCounter) (by decide) (by decide) (by decide) (by decide) (by decide)⟩

/-- C9 (the code at a failing input). The program holds the candidate `foo` and
a function called `easy_jit_module`. `getNamedGlobal` finds no global variable
of that name, the first run commits and returns `true`, and the symbol table
names the new variable `easy_jit_module.1`. On the result the second run is not
gated either: it returns `true`, the module it leaves differs from the module
after the first run, and it holds a second embedded module. -/
theorem C9_second_run_at_failing_input :
    (runOnModule (exampleEnv exampleSelect) exampleReservedModule).bind (fun first =>
      (runOnModule (exampleEnv exampleSelect) first.2.1).map (fun second =>
        (first.1, first.2.1.globals.map (fun g => g.name),
          second.1, decide (second.2.1 = first.2.1),
          second.2.1.globals.map (fun g => g.name)))) =
      some (true, ["easy_jit_module.1", ".easy_jit_fun_name"],
        true, false,
        ["easy_jit_module.1", ".easy_jit_fun_name", "easy_jit_module.2",
          ".easy_jit_fun_name.3"]) := by
  decide

/-- C10. When a global variable of the module has the reserved name, whatever
the environment and its candidate selection, `runOnModule` returns `false`,
leaves the module as it was, and writes exactly one diagnostic, the warning. -/
theorem C10_reserved_name_is_noop (env : Env) (M : Module)
    (h : ∃ g ∈ M.globals, g.name = EmbeddedModuleName) :
    runOnModule env M =
      some (false, M,
        [.message "WARNING: Compilation unit already contains an extracted module.\n"]) := by
  unfold runOnModule
  rw [if_pos (getNamedGlobal_isSome M h)]

/-- C10 at the program of the scenario after a first run. -/
theorem C10_reserved_name_is_noop_witness :
    (∃ g ∈ exampleProcessedModule.globals, g.name = EmbeddedModuleName) ∧
    runOnModule (exampleEnv exampleSelect) exampleProcessedModule =
      some (false, exampleProcessedModule,
        [.message "WARNING: Compilation unit already contains an extracted module.\n"]) :=
  ⟨⟨exampleBlob, by decide, by decide⟩,
    C10_reserved_name_is_noop (exampleEnv exampleSelect) exampleProcessedModule
      ⟨exampleBlob, by decide, by decide⟩⟩

/-- C11. For a non-empty candidate set, in a module whose global values have
pairwise different identities, a global value `G` is in the set
`getReferencedGlobals` returns if and only if it is a global value of the
module, it is no candidate, and it is an operand of an instruction of a
candidate. So no member of the closure is a candidate, and a global value that
no instruction of a candidate has as an operand (one reached only through the
body of a called function that is no candidate, for example) is not in it. -/
theorem C11_closure_membership (M : Module) (Fun2Extract : FunToInlineMap)
    (hne : Fun2Extract ≠ [])
    (hids : (M.globalValues.map GlobalValue.id).Nodup) :
    ∃ Globals log, getReferencedGlobals M Fun2Extract = some (Globals, log) ∧
      (∀ G, G ∈ Globals ↔
        G ∈ M.globalValues ∧ Fun2Extract.count G.dynCastFunction = 0 ∧
          usedByCandidate M Fun2Extract G.id) ∧
      (∀ G ∈ Globals, ∀ F ∈ GetFunctions Fun2Extract, G.dynCastFunction ≠ some F) ∧
      (∀ G ∈ M.globalValues,
        (∀ f ∈ M.functions, Fun2Extract.count (some f.id) ≠ 0 →
          ∀ I ∈ f.insts, Value.global G.id ∉ I.operands) →
        G ∉ Globals) := by
  obtain ⟨Globals, log, hrun, h1, h2, -, -⟩ := getReferencedGlobals_spec M Fun2Extract hne
  have hiff : ∀ G, G ∈ Globals ↔
      G ∈ M.globalValues ∧ Fun2Extract.count G.dynCastFunction = 0 ∧
        usedByCandidate M Fun2Extract G.id := by
    intro G
    constructor
    · intro hG
      obtain ⟨hm, hc, hu⟩ := h1 G hG
      exact ⟨hm, hc, (users_any_iff M Fun2Extract G.id).mp hu⟩
    · rintro ⟨hm, hc, hu⟩
      obtain ⟨G', hG', hid⟩ := h2 G hm hc ((users_any_iff M Fun2Extract G.id).mpr hu)
      have := eq_of_id_eq M hids G G' hm (h1 G' hG').1 hid
      rw [← this]; exact hG'
  refine ⟨Globals, log, hrun, hiff, ?_, ?_⟩
  · intro G hG F hF hcast
    have hc := ((hiff G).mp hG).2.1
    rw [hcast] at hc
    exact (count_ne_zero_iff Fun2Extract F).mpr hF hc
  · intro G _ hno hG
    obtain ⟨f, hf, hc, I, hI, hop⟩ := ((hiff G).mp hG).2.2
    exact hno f hf hc I hI hop

/-- C11 at the program `foo` calls `helper` calls `deep`, with candidate `foo`. -/
theorem C11_closure_membership_witness :
    exampleSelect exampleDeepModule ≠ [] ∧
    (exampleDeepModule.globalValues.map GlobalValue.id).Nodup ∧
    ∃ Globals log,
      getReferencedGlobals exampleDeepModule (exampleSelect exampleDeepModule) =
        some (Globals, log) ∧
      (∀ G, G ∈ Globals ↔
        G ∈ exampleDeepModule.globalValues ∧
          (exampleSelect exampleDeepModule).count G.dynCastFunction = 0 ∧
          usedByCandidate exampleDeepModule (exampleSelect exampleDeepModule) G.id) ∧
      (∀ G ∈ Globals, ∀ F ∈ GetFunctions (exampleSelect exampleDeepModule),
        G.dynCastFunction ≠ some F) ∧
      (∀ G ∈ exampleDeepModule.globalValues,
        (∀ f ∈ exampleDeepModule.functions,
          (exampleSelect exampleDeepModule).count (some f.id) ≠ 0 →
          ∀ I ∈ f.insts, Value.global G.id ∉ I.operands) →
        G ∉ Globals) :=
  ⟨by decide, by decide,
    C11_closure_membership exampleDeepModule (exampleSelect exampleDeepModule)
      (by decide) (by decide)⟩

/-- C12. Let `CreateJITHook` return for the candidate `f` found under `F`, with a
`Declare` that leaves the global variables and the functions of the module in
place. The module afterwards holds a function `Hook` that the module before
did not hold; it has the name `f` had, the return type, parameter types,
variadic flag and linkage of `f`, and its body is the single block `entry` of
the trampoline. No function of the module afterwards is `F`. Every other
function of the module before is in the module afterwards with `Hook` where it
had `F` as an operand, at any depth of a constant expression, and so is the
initializer of every global variable: what referred to `F` refers to `Hook`. -/
theorem C12_hook_takes_the_place_of_the_candidate (env : Env) (hdecl : env.DeclareExtends)
    (F : GlobalId) (Params : List Value) (BitcodeGV : GlobalId) (M M' : Module)
    (log : List Diagnostic) (f : Function)
    (hF : M.getFunction F = some f)
    (hrun : CreateJITHook env F Params BitcodeGV M = some (M', log)) :
    ∃ (Hook : GlobalId) (FNameGV IRVar IRSize OptLevel : Value) (JITHook JITHookEnd : GlobalId)
      (HandleTy : Ty),
      (∀ g ∈ M.functions, g.id ≠ Hook) ∧
      M'.getFunction Hook =
        some { id := Hook, name := f.name, linkage := f.linkage, retTy := f.retTy,
               paramTys := f.paramTys, isVarArg := f.isVarArg,
               blocks := [BasicBlock.mk "entry"
                 (trampolineEntry f Hook Params FNameGV IRVar IRSize OptLevel JITHook HandleTy
                   JITHookEnd).Entry] } ∧
      (∀ g ∈ M'.functions, g.id ≠ F) ∧
      (∀ G g, G ≠ F → M.getFunction G = some g →
        M'.getFunction G = some (Function.replaceUses (.global F) (.global Hook) g)) ∧
      (∀ g ∈ M.globals, GlobalVariable.replaceUses (.global F) (.global Hook) g ∈ M'.globals) ∧
      (∀ v : Value, (Value.replaceUses (.global F) (.global Hook) v).referencedGlobals =
        v.referencedGlobals.map (fun x => if x = F then Hook else x)) ∧
      Hook ≠ F := by
  obtain ⟨f', HandleTy, bitcode, nameGV, optlevel, NumElements, elemTy, hF', -, -, -,
    hhook, hother, hgone, hglob, -⟩ := CreateJITHook_spec env hdecl F Params BitcodeGV M M' log hrun
  rw [hF] at hF'
  cases hF'
  obtain ⟨hfmem, hfid⟩ := getFunction_some M F f hF
  refine ⟨M.freshId, _, _, _, _, _, _, HandleTy, ?_, hhook, hgone, hother, ?_,
    replaceUses_referencedGlobals F M.freshId, ?_⟩
  · intro g hg
    exact Nat.ne_of_lt (function_id_lt_freshId M g hg)
  · intro g hg
    rw [hglob]
    exact List.mem_append_left _ (List.mem_map.mpr ⟨g, hg, rfl⟩)
  · rw [← hfid]
    exact Nat.ne_of_gt (function_id_lt_freshId M f hfmem)

/-- C12 at `foo` with Spec `[2, b]` in the program that holds the embedded
module. -/
theorem C12_hook_takes_the_place_of_the_candidate_witness :
    (exampleEnv exampleSelect).DeclareExtends ∧
    exampleProcessedModule.getFunction 1 = some exampleFoo ∧
    CreateJITHook (exampleEnv exampleSelect) 1 [.constantInt 32 2, .argument 1 1] 4
      exampleProcessedModule = some (exampleHooked.1, exampleHooked.2) ∧
    ∃ (Hook : GlobalId) (FNameGV IRVar IRSize OptLevel : Value) (JITHook JITHookEnd : GlobalId)
      (HandleTy : Ty),
      (∀ g ∈ exampleProcessedModule.functions, g.id ≠ Hook) ∧
      exampleHooked.1.getFunction Hook =
        some { id := Hook, name := exampleFoo.name, linkage := exampleFoo.linkage,
               retTy := exampleFoo.retTy, paramTys := exampleFoo.paramTys,
               isVarArg := exampleFoo.isVarArg,
               blocks := [BasicBlock.mk "entry"
                 (trampolineEntry exampleFoo Hook [.constantInt 32 2, .argument 1 1]
                   FNameGV IRVar IRSize OptLevel JITHook HandleTy JITHookEnd).Entry] } ∧
      (∀ g ∈ exampleHooked.1.functions, g.id ≠ 1) ∧
      (∀ G g, G ≠ 1 → exampleProcessedModule.getFunction G = some g →
        exampleHooked.1.getFunction G =
          some (Function.replaceUses (.global 1) (.global Hook) g)) ∧
      (∀ g ∈ exampleProcessedModule.globals,
        GlobalVariable.replaceUses (.global 1) (.global Hook) g ∈ exampleHooked.1.globals) ∧
      (∀ v : Value, (Value.replaceUses (.global 1) (.global Hook) v).referencedGlobals =
        v.referencedGlobals.map (fun x => if x = 1 then Hook else x)) ∧
      Hook ≠ 1 :=
  ⟨exampleEnv_declareExtends exampleSelect, by decide, by decide,
    C12_hook_takes_the_place_of_the_candidate (exampleEnv exampleSelect)
      (exampleEnv_declareExtends exampleSelect) 1 [.constantInt 32 2, .argument 1 1] 4
      exampleProcessedModule exampleHooked.1 exampleHooked.2 exampleFoo
      (by decide) (by decide)⟩

/-- C13. Let `GetModuleForJITCompilation` return the fragment `JitM` for a
well-formed Program whose dependency closure is `Globals`. Every member of the
closure is in the fragment, and the symbol of the fragment that stands for a
member of the closure has external linkage and is a declaration: a function
without basic blocks, a variable without initializer. The last part is
`GVMakeExternalDeclaration` on its own: in any module, whatever linkage and
body the global value `GV` had, afterwards it has external linkage and is a
declaration. -/
theorem C13_closure_members_are_external_declarations (Fun2Extract : FunToInlineMap)
    (M JitM : Module) (Globals : SmallPtrSet) (log0 log : List Diagnostic)
    (hwf : M.WellFormed)
    (hclosure : getReferencedGlobals M Fun2Extract = some (Globals, log0))
    (hrun : GetModuleForJITCompilation Fun2Extract M = some (some JitM, log)) :
    (∀ G ∈ Globals, ∃ X ∈ JitM.globalValues, X.id = G.id) ∧
    (∀ G ∈ Globals, ∀ X ∈ JitM.globalValues, X.id = G.id →
      X.getLinkage = .ExternalLinkage ∧ X.isDeclaration = true) ∧
    (∀ (GV : GlobalId) (C : Module), ∀ X ∈ (GVMakeExternalDeclaration GV C).globalValues,
      X.id = GV → X.getLinkage = .ExternalLinkage ∧ X.isDeclaration = true) := by
  obtain ⟨Globals', φ, hcl, -, -, hpres, -, hφ, hJ⟩ :=
    fragment_structure Fun2Extract M JitM log hwf hrun
  rw [hclosure] at hcl
  simp only [Option.some.injEq, Prod.mk.injEq] at hcl
  obtain ⟨rfl, rfl⟩ := hcl
  have hext : ∀ X : GlobalValue, X.hasExternalLinkage = true → X.getLinkage = .ExternalLinkage := by
    intro X h
    simpa [GlobalValue.hasExternalLinkage] using h
  refine ⟨?_, ?_, ?_⟩
  · intro G hG
    obtain ⟨X1, hX1, hid⟩ := hpres G.id
      (List.mem_append_left _ (List.mem_map.mpr ⟨G, hG, rfl⟩))
    refine ⟨φ (if X1.id ∈ Globals.map GlobalValue.id then X1.makeExternalDeclaration else X1),
      ?_, ?_⟩
    · rw [hJ]
      exact List.mem_map.mpr ⟨_, List.mem_map.mpr ⟨X1, hX1, rfl⟩, rfl⟩
    · obtain ⟨n, hn⟩ := hφ (if X1.id ∈ Globals.map GlobalValue.id then
        X1.makeExternalDeclaration else X1)
      rw [hn, withName_id]
      split_ifs
      · rw [makeExternalDeclaration_id]; exact hid
      · exact hid
  · intro G hG X hX hid
    rw [hJ] at hX
    obtain ⟨Y, hY, rfl⟩ := List.mem_map.mp hX
    obtain ⟨X1, hX1, rfl⟩ := List.mem_map.mp hY
    obtain ⟨n, hn⟩ := hφ (if X1.id ∈ Globals.map GlobalValue.id then
      X1.makeExternalDeclaration else X1)
    rw [hn] at hid ⊢
    rw [withName_id] at hid
    have hmem : X1.id ∈ Globals.map GlobalValue.id := by
      by_cases h : X1.id ∈ Globals.map GlobalValue.id
      · exact h
      · rw [if_neg h] at hid
        rw [hid]
        exact List.mem_map.mpr ⟨G, hG, rfl⟩
    rw [if_pos hmem]
    exact ⟨hext _ (by rw [withName_hasExternalLinkage,
      makeExternalDeclaration_hasExternalLinkage]),
      by rw [withName_isDeclaration, makeExternalDeclaration_isDeclaration]⟩
  · intro GV C X hX hid
    rw [GVMakeExternalDeclaration_globalValues] at hX
    obtain ⟨Y, -, rfl⟩ := List.mem_map.mp hX
    by_cases h : Y.id = GV
    · rw [if_pos h]
      exact ⟨hext _ (makeExternalDeclaration_hasExternalLinkage Y),
        makeExternalDeclaration_isDeclaration Y⟩
    · rw [if_neg h] at hid
      exact absurd hid h

/-- C13 at the program `foo` calls `helper` calls `deep`, with candidate `foo`:
`helper`, which has a body in the program, is the closure. -/
theorem C13_closure_members_are_external_declarations_witness :
    exampleDeepModule.WellFormed ∧
    getReferencedGlobals exampleDeepModule (exampleSelect exampleDeepModule) =
      some ([.function exampleHelper], [referencedMessage (.function exampleHelper)]) ∧
    GetModuleForJITCompilation (exampleSelect exampleDeepModule) exampleDeepModule =
      some (some exampleDeepFragment, [referencedMessage (.function exampleHelper)]) ∧
    (∀ G ∈ [GlobalValue.function exampleHelper],
      ∃ X ∈ exampleDeepFragment.globalValues, X.id = G.id) ∧
    (∀ G ∈ [GlobalValue.function exampleHelper], ∀ X ∈ exampleDeepFragment.globalValues,
      X.id = G.id → X.getLinkage = .ExternalLinkage ∧ X.isDeclaration = true) ∧
    (∀ (GV : GlobalId) (C : Module), ∀ X ∈ (GVMakeExternalDeclaration GV C).globalValues,
      X.id = GV → X.getLinkage = .ExternalLinkage ∧ X.isDeclaration = true) :=
  ⟨⟨by decide, by decide⟩, by decide, by decide,
    C13_closure_members_are_external_declarations (exampleSelect exampleDeepModule)
      exampleDeepModule exampleDeepFragment [.function exampleHelper]
      [referencedMessage (.function exampleHelper)] [referencedMessage (.function exampleHelper)]
      ⟨by decide, by decide⟩ (by decide) (by decide)⟩

/-- C14 as stated fails. In the program `foo` calls `helper` calls `deep` with
the candidate `foo`, the candidates are `foo` (identity `1`) and the closure is
`helper` (identity `2`); validation passes and the fragment has three symbols:
the candidate, `helper` as a declaration, and the declaration `deep`
(identity `3`), which is neither a candidate nor a member of the closure and
is referenced only from the former body of `helper`. -/
theorem C14_fragment_holds_symbol_outside_closure :
    GetFunctions (exampleSelect exampleDeepModule) = [1] ∧
    getReferencedGlobals exampleDeepModule (exampleSelect exampleDeepModule) =
      some ([.function exampleHelper], [referencedMessage (.function exampleHelper)]) ∧
    (ValidForExtraction [.function exampleHelper]).1 = true ∧
    GetModuleForJITCompilation (exampleSelect exampleDeepModule) exampleDeepModule =
      some (some exampleDeepFragment, [referencedMessage (.function exampleHelper)]) ∧
    exampleDeepFragment.globalValues.map
        (fun X => (X.id, X.getName, X.isDeclaration)) =
      [(1, "foo__", false), (2, "helper", true), (3, "deep", true)] ∧
    GlobalValue.function exampleDeep ∈ exampleDeepFragment.globalValues ∧
    exampleDeep.id ∉ GetFunctions (exampleSelect exampleDeepModule) ∧
    exampleDeep.id ∉ [GlobalValue.function exampleHelper].map GlobalValue.id := by
  decide

/-- C14, amended. Let `GetModuleForJITCompilation` return the fragment `JitM`
for a well-formed Program whose dependency closure is `Globals`. Every
candidate that is a function of the Program is in the fragment with the body
it has in the Program; every member of the closure is in the fragment as a
declaration; every symbol of the fragment that has a body or an initializer is
a candidate; and a symbol of the fragment that is neither a candidate nor a
member of the closure is a declaration, and it is a symbol of the Program with
the same name. -/
theorem C14_fragment_contents (Fun2Extract : FunToInlineMap)
    (M JitM : Module) (Globals : SmallPtrSet) (log0 log : List Diagnostic)
    (hwf : M.WellFormed)
    (hclosure : getReferencedGlobals M Fun2Extract = some (Globals, log0))
    (hrun : GetModuleForJITCompilation Fun2Extract M = some (some JitM, log)) :
    (∀ F ∈ GetFunctions Fun2Extract, ∀ f, M.getFunction F = some f →
      ∃ f', GlobalValue.function f' ∈ JitM.globalValues ∧ f'.id = F ∧ f'.blocks = f.blocks) ∧
    (∀ G ∈ Globals, ∃ X ∈ JitM.globalValues, X.id = G.id ∧ X.isDeclaration = true) ∧
    (∀ X ∈ JitM.globalValues, X.isDeclaration = false → X.id ∈ GetFunctions Fun2Extract) ∧
    (∀ X ∈ JitM.globalValues, X.id ∉ GetFunctions Fun2Extract →
      X.id ∉ Globals.map GlobalValue.id →
      X.isDeclaration = true ∧ ∃ Y ∈ M.globalValues, Y.id = X.id ∧ Y.getName = X.getName) := by
  obtain ⟨Globals', φ, hcl, hG, -, hpres, hφ1, hφ, hJ⟩ :=
    fragment_structure Fun2Extract M JitM log hwf hrun
  rw [hclosure] at hcl
  simp only [Option.some.injEq, Prod.mk.injEq] at hcl
  obtain ⟨rfl, rfl⟩ := hcl
  have hdecl : ∀ X ∈ JitM.globalValues, X.isDeclaration = false →
      X.id ∈ GetFunctions Fun2Extract := by
    intro X hX hb
    rw [hJ] at hX
    obtain ⟨Y, hY, rfl⟩ := List.mem_map.mp hX
    obtain ⟨X1, hX1, rfl⟩ := List.mem_map.mp hY
    obtain ⟨n, hn⟩ := hφ (if X1.id ∈ Globals.map GlobalValue.id then
      X1.makeExternalDeclaration else X1)
    rw [hn, withName_isDeclaration] at hb
    rw [hn, withName_id]
    by_cases h : X1.id ∈ Globals.map GlobalValue.id
    · rw [if_pos h, makeExternalDeclaration_isDeclaration] at hb
      cases hb
    · rw [if_neg h] at hb ⊢
      obtain ⟨X0, -, hid, -, hnamed⟩ := runPasses_globalValues _ M X1 hX1
      rcases List.mem_append.mp (hnamed hb) with h' | h'
      · rw [← hid] at h'
        exact absurd h' h
      · rw [hid]; exact h'
  refine ⟨?_, ?_, hdecl, ?_⟩
  · intro F hF f hf
    have hfm : f ∈ M.functions := List.mem_of_find?_eq_some hf
    have hfid : f.id = F := by simpa using List.find?_some hf
    have hfgv : GlobalValue.function f ∈ M.globalValues :=
      (mem_globalValues M _).mpr (Or.inr ⟨f, hfm, rfl⟩)
    have hnotclosure : F ∉ Globals.map GlobalValue.id := by
      intro hmem
      obtain ⟨G, hGm, hGid⟩ := List.mem_map.mp hmem
      have hGe : G = .function f :=
        eq_of_id_eq M hwf.1 (.function f) G hfgv (hG G hGm).1 (by rw [hGid]; exact hfid.symm)
      have hc := (hG G hGm).2.1
      rw [hGe] at hc
      exact (count_ne_zero_iff Fun2Extract F).mpr hF (by
        rw [← hfid]; exact hc)
    obtain ⟨X1, hX1, hid⟩ := hpres F (List.mem_append_right _ hF)
    rcases (mem_globalValues _ _).mp hX1 with ⟨g1, hg1, rfl⟩ | ⟨f1, hf1, rfl⟩
    · obtain ⟨g, hg, hgid, -⟩ := runPasses_globals _ M g1 hg1
      have : GlobalValue.variable g = .function f :=
        eq_of_id_eq M hwf.1 (.function f) (.variable g) hfgv
          ((mem_globalValues M _).mpr (Or.inl ⟨g, hg, rfl⟩))
          (by show g.id = f.id; rw [← hgid, hfid]; exact hid)
      cases this
    · obtain ⟨f0, hf0, hf0id, -, -, hbody⟩ := runPasses_functions _ M f1 hf1
      have h0 : GlobalValue.function f0 = .function f :=
        eq_of_id_eq M hwf.1 (.function f) (.function f0) hfgv
          ((mem_globalValues M _).mpr (Or.inr ⟨f0, hf0, rfl⟩))
          (by show f0.id = f.id; rw [← hf0id, hfid]; exact hid)
      cases h0
      have hb : f1.blocks = f.blocks :=
        hbody (List.mem_append_right _ (by rw [hfid]; exact hF))
      have hid1 : f1.id = F := hid
      obtain ⟨n, hn⟩ := hφ (.function f1)
      refine ⟨{ f1 with name := n }, ?_, hid1, hb⟩
      rw [hJ]
      refine List.mem_map.mpr ⟨.function f1, List.mem_map.mpr ⟨.function f1, hX1, ?_⟩, hn⟩
      rw [if_neg (by show f1.id ∉ _; rw [hid1]; exact hnotclosure)]
  · intro G hGm
    obtain ⟨X1, hX1, hid⟩ := hpres G.id
      (List.mem_append_left _ (List.mem_map.mpr ⟨G, hGm, rfl⟩))
    have hmem : X1.id ∈ Globals.map GlobalValue.id := by
      rw [hid]; exact List.mem_map.mpr ⟨G, hGm, rfl⟩
    obtain ⟨n, hn⟩ := hφ X1.makeExternalDeclaration
    refine ⟨φ X1.makeExternalDeclaration, ?_, ?_, ?_⟩
    · rw [hJ]
      exact List.mem_map.mpr ⟨_, List.mem_map.mpr ⟨X1, hX1, by rw [if_pos hmem]⟩, rfl⟩
    · rw [hn, withName_id, makeExternalDeclaration_id]; exact hid
    · rw [hn, withName_isDeclaration, makeExternalDeclaration_isDeclaration]
  · intro X hX hnc hng
    refine ⟨?_, ?_⟩
    · cases hd : X.isDeclaration with
      | true => rfl
      | false => exact absurd (hdecl X hX hd) hnc
    · rw [hJ] at hX
      obtain ⟨Y, hY, rfl⟩ := List.mem_map.mp hX
      obtain ⟨X1, hX1, rfl⟩ := List.mem_map.mp hY
      have hYid : (if X1.id ∈ Globals.map GlobalValue.id then
          X1.makeExternalDeclaration else X1).id = X1.id := by
        split_ifs
        · exact makeExternalDeclaration_id X1
        · rfl
      obtain ⟨n, hn⟩ := hφ (if X1.id ∈ Globals.map GlobalValue.id then
        X1.makeExternalDeclaration else X1)
      have hid : (φ (if X1.id ∈ Globals.map GlobalValue.id then
          X1.makeExternalDeclaration else X1)).id = X1.id := by
        rw [hn, withName_id, hYid]
      rw [hid] at hnc hng
      have hφid := hφ1 (if X1.id ∈ Globals.map GlobalValue.id then
        X1.makeExternalDeclaration else X1) (by rw [hYid]; exact hnc)
      rw [hφid, if_neg hng]
      obtain ⟨X0, hX0, h0id, h0n, -⟩ := runPasses_globalValues _ M X1 hX1
      exact ⟨X0, hX0, h0id.symm, h0n.symm⟩

/-- C14, amended, at the program `foo` calls `helper` calls `deep`. -/
theorem C14_fragment_contents_witness :
    exampleDeepModule.WellFormed ∧
    getReferencedGlobals exampleDeepModule (exampleSelect exampleDeepModule) =
      some ([.function exampleHelper], [referencedMessage (.function exampleHelper)]) ∧
    GetModuleForJITCompilation (exampleSelect exampleDeepModule) exampleDeepModule =
      some (some exampleDeepFragment, [referencedMessage (.function exampleHelper)]) ∧
    (∀ F ∈ GetFunctions (exampleSelect exampleDeepModule), ∀ f,
      exampleDeepModule.getFunction F = some f →
      ∃ f', GlobalValue.function f' ∈ exampleDeepFragment.globalValues ∧ f'.id = F ∧
        f'.blocks = f.blocks) ∧
    (∀ G ∈ [GlobalValue.function exampleHelper],
      ∃ X ∈ exampleDeepFragment.globalValues, X.id = G.id ∧ X.isDeclaration = true) ∧
    (∀ X ∈ exampleDeepFragment.globalValues, X.isDeclaration = false →
      X.id ∈ GetFunctions (exampleSelect exampleDeepModule)) ∧
    (∀ X ∈ exampleDeepFragment.globalValues,
      X.id ∉ GetFunctions (exampleSelect exampleDeepModule) →
      X.id ∉ [GlobalValue.function exampleHelper].map GlobalValue.id →
      X.isDeclaration = true ∧
        ∃ Y ∈ exampleDeepModule.globalValues, Y.id = X.id ∧ Y.getName = X.getName) :=
  ⟨⟨by decide, by decide⟩, by decide, by decide,
    C14_fragment_contents (exampleSelect exampleDeepModule)
      exampleDeepModule exampleDeepFragment [.function exampleHelper]
      [referencedMessage (.function exampleHelper)] [referencedMessage (.function exampleHelper)]
      ⟨by decide, by decide⟩ (by decide) (by decide)⟩

/-- C15 as stated fails. In the program whose candidate loads the unit-internal
variable `counter`, the only member of the closure that has no external
linkage is `counter`, validation fails, and the diagnostic `ValidForExtraction`
writes for the failure is a fixed text in which the name `counter` does not
occur. -/
theorem C15_failure_message_names_no_symbol :
    getReferencedGlobals exampleInternalModule
        ((exampleEnv exampleSelect).GetFunctionsToJit exampleInternalModule) =
      some ([.variable exampleCounter], [referencedMessage (.variable exampleCounter)]) ∧
    (GlobalValue.variable exampleCounter).getLinkage ≠ .ExternalLinkage ∧
    (ValidForExtraction [.variable exampleCounter]).2 = [.message validationFailureText] ∧
    runOnModule (exampleEnv exampleSelect) exampleInternalModule =
      some (false, exampleInternalModule,
        [referencedMessage (.variable exampleCounter), .message validationFailureText]) ∧
    ¬ ((GlobalValue.variable exampleCounter).getName.toList <:+:
        validationFailureText.toList) := by
  decide

/-- C15, amended. In a run in which validation fails, what `runOnModule` writes
is the log of the closure analysis followed by the fixed text of
`ValidForExtraction`, which names no symbol; the log of the closure analysis
holds, for every member of the closure and so for the offending one, the line
`Global <name> referenced by extracted function.` with its name. -/
theorem C15_failing_run_names_closure_members (env : Env) (M : Module)
    (Globals : SmallPtrSet) (log : List Diagnostic) (G : GlobalValue)
    (hfree : M.getNamedGlobal EmbeddedModuleName = none)
    (hclosure : getReferencedGlobals M (env.GetFunctionsToJit M) = some (Globals, log))
    (hG : G ∈ Globals) (hlink : G.getLinkage ≠ .ExternalLinkage) :
    runOnModule env M = some (false, M, log ++ [.message validationFailureText]) ∧
    (ValidForExtraction Globals).2 = [.message validationFailureText] ∧
    referencedMessage G ∈ log ∧
    (∀ G' ∈ Globals, referencedMessage G' ∈ log) := by
  have hne : env.GetFunctionsToJit M ≠ [] := by
    intro h
    rw [h] at hclosure
    cases hclosure
  obtain ⟨Globals', log', hrun, -, -, hmsg, -⟩ :=
    getReferencedGlobals_spec M (env.GetFunctionsToJit M) hne
  rw [hclosure] at hrun
  simp only [Option.some.injEq, Prod.mk.injEq] at hrun
  obtain ⟨rfl, rfl⟩ := hrun
  have hvalid : Globals.all GlobalValue.hasExternalLinkage = false := by
    rw [List.all_eq_false]
    exact ⟨G, hG, by simp [GlobalValue.hasExternalLinkage, hlink]⟩
  have hempty : (env.GetFunctionsToJit M).isEmpty = false := by
    cases h : env.GetFunctionsToJit M with
    | nil => exact absurd h hne
    | cons a l => rfl
  refine ⟨?_, ?_, hmsg G hG, hmsg⟩
  · unfold runOnModule
    simp only [hfree, Option.isSome_none, Bool.false_eq_true, if_false, hempty,
      GetModuleForJITCompilation, hclosure, ValidForExtraction, hvalid, Debug]
    rfl
  · simp [ValidForExtraction, hvalid, Debug, validationFailureText]

/-- C15, amended, at the program whose candidate loads `counter`. -/
theorem C15_failing_run_names_closure_members_witness :
    exampleInternalModule.getNamedGlobal EmbeddedModuleName = none ∧
    getReferencedGlobals exampleInternalModule
        ((exampleEnv exampleSelect).GetFunctionsToJit exampleInternalModule) =
      some ([.variable exampleCounter], [referencedMessage (.variable exampleCounter)]) ∧
    GlobalValue.variable exampleCounter ∈ [GlobalValue.variable exampleCounter] ∧
    (GlobalValue.variable exampleCounter).getLinkage ≠ .ExternalLinkage ∧
    runOnModule (exampleEnv exampleSelect) exampleInternalModule =
      some (false, exampleInternalModule,
        [referencedMessage (.variable exampleCounter)] ++
          [.message validationFailureText]) ∧
    (ValidForExtraction [.variable exampleCounter]).2 = [.message validationFailureText] ∧
    referencedMessage (.variable exampleCounter) ∈
      [referencedMessage (.variable exampleCounter)] ∧
    (∀ G' ∈ [GlobalValue.variable exampleCounter],
      referencedMessage G' ∈ [referencedMessage (.variable exampleCounter)]) :=
  ⟨by decide, by decide, by decide, by decide,
    C15_failing_run_names_closure_members (exampleEnv exampleSelect) exampleInternalModule
      [.variable exampleCounter] [referencedMessage (.variable exampleCounter)]
      (.variable exampleCounter) (by decide) (by decide) (by decide) (by decide)⟩

/-- C16. When no global variable has the reserved name and the selection is
empty, `runOnModule` returns `false`, writes nothing and leaves the module as
it was. The closure analysis has no result on an empty candidate set (there is
no first candidate to read the module from), and `runOnModule` has a result:
the analysis is not reached. -/
theorem C16_empty_selection_is_silent_noop (env : Env) (M : Module)
    (hfree : M.getNamedGlobal EmbeddedModuleName = none)
    (hempty : env.GetFunctionsToJit M = []) :
    runOnModule env M = some (false, M, []) ∧
    getReferencedGlobals M (env.GetFunctionsToJit M) = none := by
  constructor
  · unfold runOnModule
    simp [hfree, hempty]
  · rw [hempty]; rfl

/-- C16 at the program of the scenario with a selection that selects nothing. -/
theorem C16_empty_selection_is_silent_noop_witness :
    exampleModule.getNamedGlobal EmbeddedModuleName = none ∧
    (exampleEnv (selectByName "nothing" 0 [])).GetFunctionsToJit exampleModule = [] ∧
    runOnModule (exampleEnv (selectByName "nothing" 0 [])) exampleModule =
      some (false, exampleModule, []) ∧
    getReferencedGlobals exampleModule
      ((exampleEnv (selectByName "nothing" 0 [])).GetFunctionsToJit exampleModule) = none :=
  ⟨by decide, by decide,
    C16_empty_selection_is_silent_noop (exampleEnv (selectByName "nothing" 0 []))
      exampleModule (by decide) (by decide)⟩

/-- C17 fails at the program in which the candidate `foo` calls the external
function `foo__`. The fragment is returned, and in it the symbol that holds the
body of the candidate (identity `1`, original name `foo`) is named `foo__.1`:
the name `foo__` was in use in the clone, where it belongs to the declaration
of the called function, so the symbol table made the requested name unique.
The symbol named `foo__` in the fragment has no body. -/
theorem C17_suffixed_name_at_failing_input :
    GetFunctions (exampleSelect exampleSuffixModule) = [1] ∧
    exampleSuffixModule.getName 1 = "foo" ∧
    GetModuleForJITCompilation (exampleSelect exampleSuffixModule) exampleSuffixModule =
      some (some exampleSuffixFragment, [referencedMessage (.function exampleSuffixed)]) ∧
    (exampleSuffixFragment.getFunction 1).map (fun f => (f.name, f.blocks.isEmpty)) =
      some ("foo__.1", false) ∧
    (exampleSuffixFragment.getNamedValue (exampleSuffixModule.getName 1 ++ "__")).map
        (fun X => (X.id, X.isDeclaration)) = some (2, true) := by
  decide

/-- C18. Let the module be well formed (identities and names are unique) and
hold no symbol under the reserved name; let the closure analysis return
`Globals` for the candidate set (which is then not empty), every member of
`Globals` have external linkage and a name, and every candidate be a function
of the module with a body, a name, a linkage other than available-externally
and a Spec that starts with a `ConstantInt`, no candidate twice; let `Declare`
leave the global variables and the functions of the module in place. Then
`runOnModule` returns `true`. In the module afterwards exactly one global
variable has the reserved name and it is a constant; for every candidate there
is a function that the module before did not hold, with the name, linkage and
signature the candidate had and the single block `entry`, and no function of
the module afterwards is the candidate. The module afterwards is not the
module before. For every environment with such a `Declare` and every module,
whichever path the run takes: `runOnModule` returns `true` if and only if the
module afterwards is not the module before. -/
theorem C18_commit_path_and_return_value (env : Env) (M : Module) (Globals : SmallPtrSet)
    (log0 : List Diagnostic)
    (hdecl : env.DeclareExtends) (hwf : M.WellFormed)
    (hfree : EmbeddedModuleName ∉ M.names)
    (hclosure : getReferencedGlobals M (env.GetFunctionsToJit M) = some (Globals, log0))
    (hext : ∀ G ∈ Globals, G.getLinkage = .ExternalLinkage)
    (hnamed : ∀ G ∈ Globals, G.getName ≠ "")
    (hkeys : (GetFunctions (env.GetFunctionsToJit M)).Nodup)
    (hcand : ∀ KV ∈ env.GetFunctionsToJit M, ∃ f, M.getFunction KV.1 = some f ∧
      f.blocks ≠ [] ∧ f.name ≠ "" ∧ f.linkage ≠ .AvailableExternallyLinkage ∧
      ∃ o, optlevelOf KV.2 = some o) :
    (∃ M' log, runOnModule env M = some (true, M', log) ∧
      (M'.globals.filter (fun g => g.name = EmbeddedModuleName)).length = 1 ∧
      (∀ g ∈ M'.globals, g.name = EmbeddedModuleName → g.isConstant = true) ∧
      (∀ F ∈ GetFunctions (env.GetFunctionsToJit M), ∀ f, M.getFunction F = some f →
        (∀ g ∈ M'.functions, g.id ≠ F) ∧
        ∃ Hook hook, M'.getFunction Hook = some hook ∧
          (∀ X ∈ M.globalValues, X.id ≠ Hook) ∧
          hook.header =
            (Hook, f.name, f.linkage, f.retTy, f.paramTys, f.isVarArg, ["entry"])) ∧
      M' ≠ M) ∧
    (∀ (N N' : Module) (b : Bool) (log : List Diagnostic),
      runOnModule env N = some (b, N', log) → (b = true ↔ N' ≠ N)) := by
  refine ⟨?_, ?_⟩
  · have hne : env.GetFunctionsToJit M ≠ [] := by
      intro h
      rw [h] at hclosure
      cases hclosure
    have hempty : (env.GetFunctionsToJit M).isEmpty = false := by
      cases h : env.GetFunctionsToJit M with
      | nil => exact absurd h hne
      | cons a l => rfl
    have hgate := getNamedGlobal_of_not_mem_names M EmbeddedModuleName hfree
    have hcand' : ∀ F ∈ GetFunctions (env.GetFunctionsToJit M), ∃ f, M.getFunction F = some f ∧
        f.blocks ≠ [] ∧ f.name ≠ "" ∧ f.linkage ≠ .AvailableExternallyLinkage := by
      intro F hF
      obtain ⟨KV, hKV, rfl⟩ := List.mem_map.mp hF
      obtain ⟨f, h1, h2, h3, h4, -⟩ := hcand KV hKV
      exact ⟨f, h1, h2, h3, h4⟩
    obtain ⟨JitM, hjit⟩ := GetModuleForJITCompilation_total (env.GetFunctionsToJit M) M Globals
      log0 hwf hclosure hext hnamed hcand'
    obtain ⟨blob, hWg, hWf, hWid, hbid, hbname, hbconst, hbty, hbget⟩ :=
      WriteModuleToGlobal_globals env M JitM hfree
    have hWget : ∀ F, (WriteModuleToGlobal env M JitM).1.1.getFunction F = M.getFunction F := by
      intro F
      unfold Module.getFunction
      rw [hWf]
    have hc : ∀ KV ∈ env.GetFunctionsToJit M,
        ∃ f, (WriteModuleToGlobal env M JitM).1.1.getFunction KV.1 = some f ∧
          ∃ o, optlevelOf KV.2 = some o := by
      intro KV hKV
      obtain ⟨f, h1, -, -, -, ho⟩ := hcand KV hKV
      exact ⟨f, by rw [hWget]; exact h1, ho⟩
    obtain ⟨M', log', hhooks, r1, -, r3, r4, added, r5, r6⟩ :=
      createHooks_spec env hdecl (WriteModuleToGlobal env M JitM).1.2
        (env.GetFunctionsToJit M) (WriteModuleToGlobal env M JitM).1.1
        (log0 ++ (WriteModuleToGlobal env M JitM).2) hkeys hc
        ⟨blob, _, _, by rw [hWid]; exact hbget, hbty⟩
    have hWfresh : M.freshId < (WriteModuleToGlobal env M JitM).1.1.freshId := by
      have : blob ∈ (WriteModuleToGlobal env M JitM).1.1.globals := by
        rw [hWg]; exact List.mem_append_right _ (List.mem_singleton.mpr rfl)
      have := global_id_lt_freshId _ blob this
      rw [hbid] at this
      exact this
    have hnoname := global_name_ne_of_not_mem_names M EmbeddedModuleName (by decide) hfree
    have hmap : M'.globals.map (fun g => (g.name, g.isConstant)) =
        M.globals.map (fun g => (g.name, g.isConstant)) ++
          ((EmbeddedModuleName, true) :: added.map (fun g => (g.name, g.isConstant))) := by
      rw [r5, hWg, List.map_append, List.append_assoc]
      simp only [List.map_cons, List.map_nil, List.singleton_append, hbname, hbconst]
    refine ⟨M', log', ?_, ?_, ?_, ?_, ?_⟩
    · unfold runOnModule
      simp only [hgate, Option.isSome_none, Bool.false_eq_true, if_false, hempty, hjit, hhooks]
    · rw [filter_name_length, hmap, List.filter_append, List.filter_cons]
      have h1 : (M.globals.map (fun g => (g.name, g.isConstant))).filter
          (fun p => decide (p.1 = EmbeddedModuleName)) = [] := by
        rw [List.filter_eq_nil_iff]
        intro p hp
        obtain ⟨g, hg, rfl⟩ := List.mem_map.mp hp
        simpa using hnoname g hg
      have h2 : (added.map (fun g => (g.name, g.isConstant))).filter
          (fun p => decide (p.1 = EmbeddedModuleName)) = [] := by
        rw [List.filter_eq_nil_iff]
        intro p hp
        obtain ⟨g, hg, rfl⟩ := List.mem_map.mp hp
        simpa using r6 g hg
      rw [h1, h2]
      simp
    · intro g hg hn
      have hmem : (g.name, g.isConstant) ∈ M'.globals.map (fun g => (g.name, g.isConstant)) :=
        List.mem_map.mpr ⟨g, hg, rfl⟩
      rw [hmap] at hmem
      rcases List.mem_append.mp hmem with h | h
      · obtain ⟨g0, hg0, heq⟩ := List.mem_map.mp h
        have : g0.name = g.name := congrArg Prod.fst heq
        exact absurd (this.trans hn) (hnoname g0 hg0)
      · rcases List.mem_cons.mp h with h | h
        · exact congrArg Prod.snd h
        · obtain ⟨g0, hg0, heq⟩ := List.mem_map.mp h
          have : g0.name = g.name := congrArg Prod.fst heq
          exact absurd (this.trans hn) (r6 g0 hg0)
    · intro F hF f hf
      refine ⟨?_, ?_⟩
      · intro g hg heq
        exact (r3 g hg).1 (by rw [heq]; exact hF)
      · obtain ⟨Hook, hook, hge, hget, hh⟩ := r4 F hF f (by rw [hWget]; exact hf)
        refine ⟨Hook, hook, hget, ?_, hh⟩
        intro X hX heq
        have := id_lt_freshId M X hX
        rw [heq] at this
        exact Nat.lt_irrefl _ (Nat.lt_of_lt_of_le (Nat.lt_trans this hWfresh) hge)
    · intro heq
      have hlen := congrArg List.length hmap
      rw [heq] at hlen
      simp only [List.length_map, List.length_append, List.length_cons] at hlen
      omega
  · intro N N' b log hrun
    unfold runOnModule at hrun
    split at hrun
    · simp only [Option.some.injEq, Prod.mk.injEq] at hrun
      obtain ⟨rfl, rfl, -⟩ := hrun
      simp
    · simp only at hrun
      split at hrun
      · simp only [Option.some.injEq, Prod.mk.injEq] at hrun
        obtain ⟨rfl, rfl, -⟩ := hrun
        simp
      · split at hrun
        · cases hrun
        · simp only [Option.some.injEq, Prod.mk.injEq] at hrun
          obtain ⟨rfl, rfl, -⟩ := hrun
          simp
        · rename_i JitM log1 hjit
          split at hrun
          · cases hrun
          · rename_i M1 log2 hhooks
            simp only [Option.some.injEq, Prod.mk.injEq] at hrun
            obtain ⟨rfl, rfl, -⟩ := hrun
            have hlen := createHooks_globals_length env hdecl _ _ _ _ _ _ hhooks
            have hW : (WriteModuleToGlobal env N JitM).1.1.globals.length =
                N.globals.length + 1 := by
              simp [WriteModuleToGlobal, Module.newGlobalVariable]
            simp only [true_iff]
            intro heq
            rw [heq] at hlen
            omega

/-- C18 at the program of the scenario, with the candidate `foo` and the
closure `bar`. -/
theorem C18_commit_path_and_return_value_witness :
    (exampleEnv exampleSelect).DeclareExtends ∧ exampleModule.WellFormed ∧
    EmbeddedModuleName ∉ exampleModule.names ∧
    getReferencedGlobals exampleModule
        ((exampleEnv exampleSelect).GetFunctionsToJit exampleModule) =
      some ([.function exampleBar], [referencedMessage (.function exampleBar)]) ∧
    (∀ G ∈ [GlobalValue.function exampleBar], G.getLinkage = .ExternalLinkage) ∧
    (∀ G ∈ [GlobalValue.function exampleBar], G.getName ≠ "") ∧
    (GetFunctions ((exampleEnv exampleSelect).GetFunctionsToJit exampleModule)).Nodup ∧
    (∀ KV ∈ (exampleEnv exampleSelect).GetFunctionsToJit exampleModule,
      ∃ f, exampleModule.getFunction KV.1 = some f ∧
        f.blocks ≠ [] ∧ f.name ≠ "" ∧ f.linkage ≠ .AvailableExternallyLinkage ∧
        ∃ o, optlevelOf KV.2 = some o) ∧
    (∃ M' log, runOnModule (exampleEnv exampleSelect) exampleModule = some (true, M', log) ∧
      (M'.globals.filter (fun g => g.name = EmbeddedModuleName)).length = 1 ∧
      (∀ g ∈ M'.globals, g.name = EmbeddedModuleName → g.isConstant = true) ∧
      (∀ F ∈ GetFunctions ((exampleEnv exampleSelect).GetFunctionsToJit exampleModule),
        ∀ f, exampleModule.getFunction F = some f →
        (∀ g ∈ M'.functions, g.id ≠ F) ∧
        ∃ Hook hook, M'.getFunction Hook = some hook ∧
          (∀ X ∈ exampleModule.globalValues, X.id ≠ Hook) ∧
          hook.header =
            (Hook, f.name, f.linkage, f.retTy, f.paramTys, f.isVarArg, ["entry"])) ∧
      M' ≠ exampleModule) ∧
    (∀ (N N' : Module) (b : Bool) (log : List Diagnostic),
      runOnModule (exampleEnv exampleSelect) N = some (b, N', log) → (b = true ↔ N' ≠ N)) :=
  have hsel : (exampleEnv exampleSelect).GetFunctionsToJit exampleModule =
      [(1, [.constantInt 32 2, .argument 1 1])] := by decide
  have hcand : ∀ KV ∈ (exampleEnv exampleSelect).GetFunctionsToJit exampleModule,
      ∃ f, exampleModule.getFunction KV.1 = some f ∧
        f.blocks ≠ [] ∧ f.name ≠ "" ∧ f.linkage ≠ .AvailableExternallyLinkage ∧
        ∃ o, optlevelOf KV.2 = some o := by
    intro KV hKV
    rw [hsel] at hKV
    rw [List.mem_singleton.mp hKV]
    exact ⟨exampleFoo, by decide, by decide, by decide, by decide, 2, by decide⟩
  ⟨exampleEnv_declareExtends exampleSelect, ⟨by decide, by decide⟩, by decide, by decide,
    by decide, by decide, by decide, hcand,
    C18_commit_path_and_return_value (exampleEnv exampleSelect) exampleModule
      [.function exampleBar] [referencedMessage (.function exampleBar)]
      (exampleEnv_declareExtends exampleSelect) ⟨by decide, by decide⟩ (by decide) (by decide)
      (by decide) (by decide) (by decide) hcand⟩

/-- C19. The variable `WriteModuleToGlobal` creates for a fragment whose
serialization has `n` bytes is a constant with internal linkage; its
initializer is those `n` bytes followed by one zero byte and its type is an
array of `n + 1` bytes; its name is the reserved name when that name is free in
the module. Whenever `CreateJITHook` returns in a module in which `BitcodeGV` is
a variable of an array type of `n + 1` elements, the third argument of the
compile-and-specialize call of the trampoline is the 64-bit constant of
`n + 1`, the number of elements of the array and not the number of serialized
bytes, and `BitcodeGV` has the same type, flag, linkage, name and bytes in the
module afterwards, so the same holds for the next trampoline. `Declare` is
assumed to leave the global variables and the functions of the module in
place. -/
theorem C19_blob_bytes_and_length (env : Env) (hdecl : env.DeclareExtends)
    (M JitM : Module) :
    (∃ blob,
      (WriteModuleToGlobal env M JitM).1.1.getGlobalVariable
        (WriteModuleToGlobal env M JitM).1.2 = some blob ∧
      blob.isConstant = true ∧ blob.linkage = .InternalLinkage ∧
      blob.initializer = some (.dataArray (ModuleToString env JitM ++ [0])) ∧
      blob.valueType = .array ((ModuleToString env JitM).length + 1) (.integer 8) ∧
      (EmbeddedModuleName ∉ M.names → blob.name = EmbeddedModuleName)) ∧
    (∀ (X X' : Module) (BitcodeGV F : GlobalId) (Params : List Value) (log : List Diagnostic)
        (b : GlobalVariable) (n : Nat) (elemTy : Ty),
      X.getGlobalVariable BitcodeGV = some b → b.valueType = .array (n + 1) elemTy →
      CreateJITHook env F Params BitcodeGV X = some (X', log) →
      (∃ (hook : Function) (before after : List Instruction) (rest : List Value)
          (FNameGV IRVar OptLevel : Value) (JITHook : GlobalId),
        X'.getFunction X.freshId = some hook ∧
        hook.blocks = [BasicBlock.mk "entry" (before ++
          [.call (.global JITHook)
            ([FNameGV, IRVar, ConstantInt.get 64 (n + 1), OptLevel] ++ rest)] ++ after)] ∧
        (∀ I ∈ before, I.isCast = true)) ∧
      (∃ b', X'.getGlobalVariable BitcodeGV = some b' ∧ b'.valueType = b.valueType ∧
        b'.isConstant = b.isConstant ∧ b'.linkage = b.linkage ∧ b'.name = b.name ∧
        ∀ bytes, b.initializer = some (.dataArray bytes) →
          b'.initializer = some (.dataArray bytes))) ∧
    (∀ n : Nat, n + 1 < 2 ^ 64 → ConstantInt.get 64 (n + 1) = .constantInt 64 (n + 1)) := by
  refine ⟨?_, ?_, ?_⟩
  · refine ⟨_, getGlobalVariable_new_name M _ true .InternalLinkage _ EmbeddedModuleName,
      rfl, rfl, ?_, ?_, ?_⟩
    · simp [ConstantDataArray.getString]
    · simp [ConstantDataArray.getString]
    · intro hfree
      have hne : EmbeddedModuleName ≠ "" := by decide
      simp [createValueName, hne, hfree]
  · intro X X' BitcodeGV F Params log b n elemTy hb hty hrun
    obtain ⟨f, HandleTy, bitcode, nameGV, optlevel, NumElements, elemTy', hF, -, hbty, hbit,
      hhook, -, -, hglob, -⟩ := CreateJITHook_spec env hdecl F Params BitcodeGV X X' log hrun
    have hbe := hbit b hb
    have hvt : bitcode.valueType = b.valueType := by rw [hbe]; rfl
    have hN : NumElements = n + 1 := by
      rw [hvt, hty] at hbty
      injection hbty with h1 h2
      exact h1.symm
    subst hN
    refine ⟨?_, ?_⟩
    · unfold hookEntry at hhook
      generalize ConstantExpr.getPointerCast (nameStored env X f F).2
          (.pointer (ConstantDataArray.getString (stringBytes f.name) true).2) I8Ptr = A at hhook
      generalize ConstantExpr.getPointerCast BitcodeGV (.pointer bitcode.valueType) I8Ptr = B
        at hhook
      generalize ConstantInt.get 32 (intToUInt64 optlevel) = D at hhook
      generalize (declaredJITHook env X f F).2 = J at hhook
      generalize (declaredJITHookEnd env X f F).2 = JE at hhook
      obtain ⟨conv, castPart, Cast, hconv, -, hentry⟩ := trampolineEntry_Entry f X.freshId Params
        A B (ConstantInt.get 64 (n + 1)) D J HandleTy JE
      rw [trampolineEntry_HookArgs] at hentry
      rw [List.append_assoc [_, _, _, _], List.append_assoc (conv ++ _)] at hentry
      obtain ⟨rest, after, hshape⟩ : ∃ rest after,
          (trampolineEntry f X.freshId Params A B (ConstantInt.get 64 (n + 1)) D J HandleTy
            JE).Entry =
          conv ++ [Instruction.call (.global J)
            ([A, B, ConstantInt.get 64 (n + 1), D] ++ rest)] ++ after := ⟨_, _, hentry⟩
      rw [hshape] at hhook
      exact ⟨_, conv, after, rest, A, B, D, J, hhook, rfl, hconv⟩
    · refine ⟨bitcode, ?_, hvt, by rw [hbe]; rfl, by rw [hbe]; rfl, by rw [hbe]; rfl, ?_⟩
      · unfold Module.getGlobalVariable
        rw [hglob]
        apply find?_append_some
        rw [find?_map_key GlobalVariable.id
          (GlobalVariable.replaceUses (.global F) (.global X.freshId)) (fun _ => rfl)]
        unfold Module.getGlobalVariable at hb
        rw [hb, hbe]
        rfl
      · intro bytes hinit
        rw [hbe]
        simp [GlobalVariable.replaceUses, hinit]
  · intro n hn
    unfold ConstantInt.get
    rw [Nat.mod_eq_of_lt hn]

/-- C19 with the environment of the examples: the blob written for the scenario
program, and the trampoline of `foo` in the program that holds a blob of three
bytes. -/
theorem C19_blob_bytes_and_length_witness :
    (exampleEnv exampleSelect).DeclareExtends ∧
    (∃ blob,
      (WriteModuleToGlobal (exampleEnv exampleSelect) exampleModule
          exampleDeepFragment).1.1.getGlobalVariable
        (WriteModuleToGlobal (exampleEnv exampleSelect) exampleModule
          exampleDeepFragment).1.2 = some blob ∧
      blob.isConstant = true ∧ blob.linkage = .InternalLinkage ∧
      blob.initializer =
        some (.dataArray (ModuleToString (exampleEnv exampleSelect) exampleDeepFragment ++ [0])) ∧
      blob.valueType =
        .array ((ModuleToString (exampleEnv exampleSelect) exampleDeepFragment).length + 1)
          (.integer 8) ∧
      (EmbeddedModuleName ∉ exampleModule.names → blob.name = EmbeddedModuleName)) ∧
    exampleProcessedModule.getGlobalVariable 4 = some exampleBlob ∧
    exampleBlob.valueType = .array (2 + 1) (.integer 8) ∧
    CreateJITHook (exampleEnv exampleSelect) 1 [.constantInt 32 2, .argument 1 1] 4
      exampleProcessedModule = some (exampleHooked.1, exampleHooked.2) ∧
    (∃ (hook : Function) (before after : List Instruction) (rest : List Value)
        (FNameGV IRVar OptLevel : Value) (JITHook : GlobalId),
      exampleHooked.1.getFunction exampleProcessedModule.freshId = some hook ∧
      hook.blocks = [BasicBlock.mk "entry" (before ++
        [.call (.global JITHook)
          ([FNameGV, IRVar, ConstantInt.get 64 (2 + 1), OptLevel] ++ rest)] ++ after)] ∧
      (∀ I ∈ before, I.isCast = true)) ∧
    (∃ b', exampleHooked.1.getGlobalVariable 4 = some b' ∧
      b'.valueType = exampleBlob.valueType ∧
      b'.isConstant = exampleBlob.isConstant ∧ b'.linkage = exampleBlob.linkage ∧
      b'.name = exampleBlob.name ∧
      ∀ bytes, exampleBlob.initializer = some (.dataArray bytes) →
        b'.initializer = some (.dataArray bytes)) :=
  ⟨exampleEnv_declareExtends exampleSelect,
    (C19_blob_bytes_and_length (exampleEnv exampleSelect)
      (exampleEnv_declareExtends exampleSelect) exampleModule exampleDeepFragment).1,
    by decide, by decide, by decide,
    (C19_blob_bytes_and_length (exampleEnv exampleSelect)
      (exampleEnv_declareExtends exampleSelect) exampleModule exampleDeepFragment).2.1
      exampleProcessedModule exampleHooked.1 4 1 [.constantInt 32 2, .argument 1 1]
      exampleHooked.2 exampleBlob 2 (.integer 8) (by decide) (by decide) (by decide)⟩

/-- C20. When no instruction of a candidate has the global value `GV` as an
operand, `addGlobalIfUsedByExtracted` returns `false` and adds nothing, and no
member of the closure has the identity of `GV`, whatever constant expressions
over `GV` the candidates use. In `exampleStringModule` the candidate passes a
pointer cast of the private string `.str` to `puts`: the closure is `puts`
alone, validation passes and a fragment is returned. -/
theorem C20_only_instruction_users_count (M : Module) (GV : GlobalValue)
    (Fun2Extract : FunToInlineMap) (Globals : SmallPtrSet)
    (hno : ∀ f ∈ M.functions, Fun2Extract.count (some f.id) ≠ 0 →
      ∀ I ∈ f.insts, Value.global GV.id ∉ I.operands) :
    addGlobalIfUsedByExtracted M GV Fun2Extract Globals = (false, Globals) ∧
    (∀ S log, getReferencedGlobals M Fun2Extract = some (S, log) →
      ∀ G ∈ S, G.id ≠ GV.id) ∧
    (exampleString ∈ exampleStringModule.globals ∧
      exampleString.linkage = .PrivateLinkage ∧
      exampleFooPuts ∈ exampleStringModule.functions ∧
      (exampleSelect exampleStringModule).count (some exampleFooPuts.id) ≠ 0 ∧
      Instruction.call (.global 2) [.constantExpr .BitCast (.global exampleString.id) I8Ptr]
        ∈ exampleFooPuts.insts ∧
      getReferencedGlobals exampleStringModule (exampleSelect exampleStringModule) =
        some ([.function examplePuts], [referencedMessage (.function examplePuts)]) ∧
      ValidForExtraction [.function examplePuts] = (true, []) ∧
      (GetModuleForJITCompilation (exampleSelect exampleStringModule)
        exampleStringModule).map (fun r => r.1.isSome) = some true) := by
  have hunused : (M.users GV.id).any (IsExtractedInst Fun2Extract) = false := by
    cases h : (M.users GV.id).any (IsExtractedInst Fun2Extract) with
    | false => rfl
    | true =>
      obtain ⟨f, hf, hc, I, hI, hop⟩ := (users_any_iff M Fun2Extract GV.id).mp h
      exact absurd hop (hno f hf hc I hI)
  refine ⟨?_, ?_, by decide⟩
  · simp [addGlobalIfUsedByExtracted, hunused]
  · intro S log hrun G hG hid
    have hne : Fun2Extract ≠ [] := by
      intro h
      rw [h] at hrun
      cases hrun
    obtain ⟨S', log', hrun', h1, -, -, -⟩ := getReferencedGlobals_spec M Fun2Extract hne
    rw [hrun] at hrun'
    simp only [Option.some.injEq, Prod.mk.injEq] at hrun'
    obtain ⟨rfl, rfl⟩ := hrun'
    have := (h1 G hG).2.2
    rw [hid, hunused] at this
    cases this

/-- C20 at the private string of `exampleStringModule`. -/
theorem C20_only_instruction_users_count_witness :
    (∀ f ∈ exampleStringModule.functions,
      (exampleSelect exampleStringModule).count (some f.id) ≠ 0 →
      ∀ I ∈ f.insts, Value.global (GlobalValue.variable exampleString).id ∉ I.operands) ∧
    addGlobalIfUsedByExtracted exampleStringModule (.variable exampleString)
      (exampleSelect exampleStringModule) [] = (false, []) :=
  ⟨by decide,
    (C20_only_instruction_users_count exampleStringModule (.variable exampleString)
      (exampleSelect exampleStringModule) [] (by decide)).1⟩

end EasyJit
